import Mathlib

/-!
# Fake-IP allocator and cross-process directory (`src/network/FakeIP.hpp`)

A shallow embedding of the class `Network::FakeIP` and a verification of its
contract.

Conventions of the embedding.

* `std::string` is a list of `char`s (`Str`); a C string stored in a fixed
  buffer is read back up to its first NUL (`c_str`).
* `uint32_t` and `uint64_t` values are natural numbers; every operation that
  can wrap is written with an explicit `% 4294967296`.
* `std::unordered_map` is an association list with at most one record per key
  (`UMap.find`, `UMap.erase`, `UMap.assign`).
* The object is passed explicitly: a member function takes the `FakeIP` value
  and returns the new one.  These functions are sequential: the locks are not
  part of them.  What a member function does to the mutex `m_mtx` and to the
  named mutex `m_sharedMutex` is modelled apart, as its sequence of lock events
  (`Alloc.locks`, `GetDomain.locks`, ...).  Logging has no effect on the state
  and is left out.
* The shared-memory table is passed as `Option SharedTable`: `none` stands for
  a directory that is not available (`m_shared == nullptr`, or `LockShared`
  failed), `some t` for the mapped table while the named mutex is held.
* `GetTickCount64()` is an input of the environment: the functions that read
  the clock take the value as the argument `now`.
* `inet_pton` is an operating-system routine: functions that call it take it
  as the argument `inet_pton`, which returns the `s_addr` value (network byte
  order) on success; `inet_pton_ref` is a reference version for dotted-decimal
  text, used at concrete inputs.
-/

namespace Network

/-- A `std::string`. -/
abbrev Str := List Char

/-- The NUL character that terminates a C string. -/
def NUL : Char := Char.ofNat 0

/-- The text of a `char` buffer read as a C string: everything before the
first NUL (`std::string(const char*)`, `std::string::c_str`). -/
def c_str (buf : Str) : Str := buf.takeWhile (fun c => decide (c ≠ NUL))

/-! ## 32-bit arithmetic -/

/-- Byte swap of a 32-bit value (`htonl` on the little-endian target). -/
def htonl (x : Nat) : Nat :=
  (x % 256) * 16777216 + (x / 256 % 256) * 65536 + (x / 65536 % 256) * 256
    + (x / 16777216 % 256)

/-- Byte swap of a 32-bit value (`ntohl` on the little-endian target). -/
def ntohl (x : Nat) : Nat := htonl x

/-- The 32-bit complement `~x`. -/
def not32 (x : Nat) : Nat := 4294967295 - x % 4294967296

/-! ## `std::unordered_map` -/

namespace UMap

/-- The record of key `k`, if any (`find`). -/
def find {κ ν : Type} [DecidableEq κ] (k : κ) : List (κ × ν) → Option ν
  | [] => none
  | (k1, v) :: rest => if k1 = k then some v else find k rest

/-- Remove the record of key `k` (`erase`). -/
def erase {κ ν : Type} [DecidableEq κ] (k : κ) : List (κ × ν) → List (κ × ν)
  | [] => []
  | (k1, v) :: rest => if k1 = k then erase k rest else (k1, v) :: erase k rest

/-- The assignment `m[k] = v`: the record of `k` is created or replaced. -/
def assign {κ ν : Type} [DecidableEq κ] (k : κ) (v : ν) (m : List (κ × ν)) :
    List (κ × ν) :=
  (k, v) :: erase k m

end UMap

/-! ## `std::stoi` and `inet_pton` -/

/-- The exceptions `std::stoi` throws. -/
inductive StdException where
  | invalid_argument
  | out_of_range
  deriving DecidableEq, Repr

deriving instance DecidableEq for Except

/-- The white space `strtol` skips (`isspace` in the C locale). -/
def isspace (c : Char) : Bool :=
  decide (c = ' ') || (decide (9 ≤ c.toNat) && decide (c.toNat ≤ 13))

/-- The decimal value of a run of digit characters. -/
def digitsValue (ds : Str) : Nat :=
  ds.foldl (fun acc c => acc * 10 + (c.toNat - 48)) 0

/-- `std::stoi(s)` with base 10: skips leading white space, reads an optional
sign and the longest run of digits, ignores what follows; throws
`invalid_argument` when there is no digit and `out_of_range` when the value
does not fit an `int`. -/
def stoi (s : Str) : Except StdException Int :=
  let s1 := s.dropWhile isspace
  let neg : Bool := match s1 with
    | c :: _ => decide (c = '-')
    | [] => false
  let s2 : Str := match s1 with
    | c :: r => if c = '-' ∨ c = '+' then r else s1
    | [] => s1
  let ds := s2.takeWhile Char.isDigit
  if ds = [] then Except.error StdException.invalid_argument
  else
    let v : Int := if neg then - (digitsValue ds : Int) else (digitsValue ds : Int)
    if v < -2147483648 ∨ v > 2147483647 then Except.error StdException.out_of_range
    else Except.ok v

/-- Split a text at every dot. -/
def splitDots : Str → List Str
  | [] => [[]]
  | c :: cs =>
    if c = '.' then [] :: splitDots cs
    else match splitDots cs with
      | [] => [[c]]
      | p :: ps => (c :: p) :: ps

/-- One part of a dotted-decimal address: one to three digits, at most 255,
with no leading zero (the part `0` itself is accepted, `01` is not). -/
def octet (p : Str) : Option Nat :=
  if p ≠ [] ∧ p.length ≤ 3 ∧ p.all Char.isDigit = true ∧ digitsValue p ≤ 255 ∧
    (p.length = 1 ∨ p.head? ≠ some '0')
  then some (digitsValue p) else none

/-- Reference behaviour of `inet_pton(AF_INET, text, &addr)` on dotted-decimal
text `a.b.c.d`: the result is `addr.s_addr`, whose first byte in memory is `a`
(so the little-endian value is `a + 256 b + 65536 c + 16777216 d`); `none`
stands for a return value other than 1. -/
def inet_pton_ref (text : Str) : Option Nat :=
  match (splitDots text).map octet with
  | [some a, some b, some c, some d] => some (a + 256 * b + 65536 * c + 16777216 * d)
  | _ => none

/-! ## The cross-process directory -/

/-- The constant `kSharedMagic`. -/
def kSharedMagic : Nat := 0x4650494D

/-- The constant `kSharedCapacity`. -/
def kSharedCapacity : Nat := 4096

/-- The constant `kSharedDomainMax`. -/
def kSharedDomainMax : Nat := 255

/-- The struct `SharedEntry`; `domain` is the buffer `char[kSharedDomainMax + 1]`. -/
structure SharedEntry where
  ip : Nat
  tick : Nat
  domain : Str
  deriving DecidableEq, Repr

/-- The struct `SharedTable`. -/
structure SharedTable where
  magic : Nat
  capacity : Nat
  cursor : Nat
  reserved : Nat
  entries : List SharedEntry
  deriving DecidableEq, Repr

/-- An entry of zero bytes. -/
def SharedEntry.zero : SharedEntry :=
  { ip := 0, tick := 0, domain := List.replicate (kSharedDomainMax + 1) NUL }

/-- The table as `EnsureSharedInitialized` leaves it when `needInit` holds:
all bytes zero, then `magic`, `capacity` and `cursor` set. -/
def SharedTable.fresh : SharedTable :=
  { magic := kSharedMagic, capacity := kSharedCapacity, cursor := 0, reserved := 0,
    entries := List.replicate kSharedCapacity SharedEntry.zero }

/-- The body of `EnsureSharedInitialized` once the view is mapped: a table
that did not exist before, or whose header does not match, is reset. -/
def EnsureSharedInitialized (alreadyExists : Bool) (view : SharedTable) : SharedTable :=
  if alreadyExists = false ∨ view.magic ≠ kSharedMagic ∨ view.capacity ≠ kSharedCapacity
  then SharedTable.fresh else view

/-- The member function `SharedPut`. -/
def SharedPut (shared : Option SharedTable) (ipHostOrder : Nat) (domain : Str)
    (now : Nat) : Option SharedTable :=
  if domain = [] then shared
  else match shared with
    | none => none
    | some t =>
      let idx := t.cursor % kSharedCapacity
      let cleared : Str := List.replicate (kSharedDomainMax + 1) NUL
      let n := if domain.length < kSharedDomainMax then domain.length else kSharedDomainMax
      let buf : Str :=
        if n > 0 then (domain.take n ++ cleared.drop n).set n NUL else cleared
      some { t with
        cursor := (t.cursor + 1) % 4294967296
        entries := t.entries.set idx { ip := ipHostOrder, tick := now, domain := buf } }

/-- One iteration of the loop of `SharedGet`, on the entry read at index `i`;
the state is the pair `(best, bestTick)`. -/
def SharedGet.step (ipHostOrder : Nat) (acc : Option SharedEntry × Nat)
    (entry : SharedEntry) : Option SharedEntry × Nat :=
  if entry.ip = ipHostOrder ∧ entry.domain.headD NUL ≠ NUL then
    if entry.tick ≥ acc.2 then (some entry, entry.tick) else acc
  else acc

/-- The member function `SharedGet`. -/
def SharedGet (shared : Option SharedTable) (ipHostOrder : Nat) : Str :=
  match shared with
  | none => []
  | some t =>
    let final := (List.range kSharedCapacity).foldl
      (fun acc i => SharedGet.step ipHostOrder acc (t.entries.getD i SharedEntry.zero))
      (none, 0)
    match final.1 with
    | some best => c_str best.domain
    | none => []

/-! ## The allocator -/

/-- The data members of `class FakeIP`. -/
structure FakeIP where
  m_ipToDomain : List (Nat × Str)
  m_domainToIp : List (Str × Nat)
  m_baseIp : Nat
  m_mask : Nat
  m_networkSize : Nat
  m_cursor : Nat
  deriving DecidableEq, Repr

/-- The constructor `FakeIP()`. -/
def FakeIP.construct : FakeIP :=
  { m_ipToDomain := [], m_domainToIp := [], m_baseIp := 0, m_mask := 0,
    m_networkSize := 0, m_cursor := 1 }

/-- The member function `ParseCidr`.  `Except.error` is an exception leaving
the function, `Except.ok none` is the return value `false` (the outputs are
not written), `Except.ok (some (outBase, outMask))` is the return value `true`. -/
def ParseCidr (inet_pton : Str → Option Nat) (cidr : Str) :
    Except StdException (Option (Nat × Nat)) :=
  let slashPos := cidr.indexOf '/'
  if slashPos = cidr.length then Except.ok none
  else
    let ipPart := cidr.take slashPos
    let bitsPart := cidr.drop (slashPos + 1)
    match stoi bitsPart with
    | Except.error e => Except.error e
    | Except.ok bits =>
      if bits < 0 ∨ bits > 32 then Except.ok none
      else match inet_pton (c_str ipPart) with
        | none => Except.ok none
        | some s_addr =>
          let outBase := ntohl s_addr
          let outMask :=
            if bits = 0 then 0 else (4294967295 <<< (32 - bits.toNat)) % 4294967296
          Except.ok (some (outBase &&& outMask, outMask))

/-- The default network `"198.18.0.0/15"`. -/
def defaultCidr : Str := "198.18.0.0/15".toList

/-- The body of `EnsureInitialized` (run once by `std::call_once`);
`configCidr` is `Core::Config::Instance().fakeIp.cidr`. -/
def EnsureInitialized (inet_pton : Str → Option Nat) (configCidr : Str)
    (self : FakeIP) : Except StdException FakeIP :=
  let cidr := if configCidr = [] then defaultCidr else configCidr
  match ParseCidr inet_pton cidr with
  | Except.error e => Except.error e
  | Except.ok (some (base, mask)) =>
    Except.ok { self with
      m_baseIp := base, m_mask := mask, m_networkSize := (not32 mask + 1) % 4294967296 }
  | Except.ok none =>
    match ParseCidr inet_pton defaultCidr with
    | Except.error e => Except.error e
    | Except.ok (some (base, mask)) =>
      Except.ok { self with
        m_baseIp := base, m_mask := mask, m_networkSize := (not32 mask + 1) % 4294967296 }
    | Except.ok none =>
      Except.ok { self with m_networkSize := (not32 self.m_mask + 1) % 4294967296 }

/-- The member function `IsFakeIP`, on an initialised object. -/
def IsFakeIP (self : FakeIP) (ipNetworkOrder : Nat) : Bool :=
  decide (ntohl ipNetworkOrder &&& self.m_mask = self.m_baseIp)

/-- What a call of `Alloc` produces: the returned address (network byte
order), the object and the shared directory after the call. -/
structure AllocResult where
  ret : Nat
  self : FakeIP
  shared : Option SharedTable
  deriving DecidableEq, Repr

/-- The member function `Alloc`, on an initialised object. -/
def Alloc (self : FakeIP) (shared : Option SharedTable) (now : Nat) (domain : Str) :
    AllocResult :=
  match UMap.find domain self.m_domainToIp with
  | some ip => { ret := htonl ip, self := self, shared := shared }
  | none =>
    if self.m_networkSize ≤ 2 then { ret := 0, self := self, shared := shared }
    else
      let offset := self.m_cursor
      let cursor1 := (self.m_cursor + 1) % 4294967296
      let cursor2 :=
        if cursor1 ≥ (self.m_networkSize + 4294967295) % 4294967296 then 1 else cursor1
      let newIp := self.m_baseIp ||| offset
      let domainToIp1 := match UMap.find newIp self.m_ipToDomain with
        | some oldDomain => UMap.erase oldDomain self.m_domainToIp
        | none => self.m_domainToIp
      { ret := htonl newIp
        self := { self with
          m_cursor := cursor2
          m_ipToDomain := UMap.assign newIp domain self.m_ipToDomain
          m_domainToIp := UMap.assign domain newIp domainToIp1 }
        shared := SharedPut shared newIp domain now }

/-- What a call of `GetDomain` produces: the returned domain and the object
after the call (the shared directory is only read). -/
structure GetDomainResult where
  ret : Str
  self : FakeIP
  deriving DecidableEq, Repr

/-- The member function `GetDomain`, on an initialised object. -/
def GetDomain (self : FakeIP) (shared : Option SharedTable) (ipNetworkOrder : Nat) :
    GetDomainResult :=
  let ip := ntohl ipNetworkOrder
  match UMap.find ip self.m_ipToDomain with
  | some domain => { ret := domain, self := self }
  | none =>
    let sharedDomain := SharedGet shared ip
    if sharedDomain ≠ [] then
      { ret := sharedDomain
        self := { self with
          m_ipToDomain := UMap.assign ip sharedDomain self.m_ipToDomain
          m_domainToIp := UMap.assign sharedDomain ip self.m_domainToIp } }
    else { ret := [], self := self }

/-- The states of the allocator a process can reach: the object is
constructed and initialised from the configured CIDR text, then `Alloc` and
`GetDomain` are called with any arguments.  The shared directory is written by
other processes too, so every call may find it in any state. -/
inductive Reachable (inet_pton : Str → Option Nat) (configCidr : Str) : FakeIP → Prop
  | init (s : FakeIP) :
      EnsureInitialized inet_pton configCidr FakeIP.construct = Except.ok s →
      Reachable inet_pton configCidr s
  | alloc (s : FakeIP) (shared : Option SharedTable) (now : Nat) (domain : Str) :
      Reachable inet_pton configCidr s →
      Reachable inet_pton configCidr (Alloc s shared now domain).self
  | getDomain (s : FakeIP) (shared : Option SharedTable) (ipNetworkOrder : Nat) :
      Reachable inet_pton configCidr s →
      Reachable inet_pton configCidr (GetDomain s shared ipNetworkOrder).self

/-! ## Predicates used in the statements -/

/-- The mask `ParseCidr` computes for a prefix length. -/
def maskOfBits (bits : Nat) : Nat :=
  if bits = 0 then 0 else (4294967295 <<< (32 - bits)) % 4294967296

/-- The base address and the cursor are 32-bit values, and every record of
`m_domainToIp` holds a 32-bit address whose record in `m_ipToDomain` is the
same domain. -/
def Inv (s : FakeIP) : Prop :=
  s.m_baseIp < 4294967296 ∧ s.m_cursor < 4294967296 ∧
  ∀ d ip, UMap.find d s.m_domainToIp = some ip →
    ip < 4294967296 ∧ UMap.find ip s.m_ipToDomain = some d

/-- The entry `SharedPut` writes for a non-empty domain. -/
def SharedPut.written (ipHostOrder : Nat) (domain : Str) (now : Nat) : SharedEntry :=
  { ip := ipHostOrder, tick := now,
    domain :=
      if (if domain.length < kSharedDomainMax then domain.length else kSharedDomainMax) > 0
      then ((domain.take
              (if domain.length < kSharedDomainMax then domain.length else kSharedDomainMax)
            ++ (List.replicate (kSharedDomainMax + 1) NUL).drop
              (if domain.length < kSharedDomainMax then domain.length else kSharedDomainMax)).set
          (if domain.length < kSharedDomainMax then domain.length else kSharedDomainMax) NUL)
      else List.replicate (kSharedDomainMax + 1) NUL }

/-- A run of `SharedPut` calls, each given as `(address, domain, tick)`. -/
def SharedPutAll (shared : Option SharedTable) (puts : List (Nat × Str × Nat)) :
    Option SharedTable :=
  puts.foldl (fun sh p => SharedPut sh p.1 p.2.1 p.2.2) shared

/-- The table with a valid header, the given cursor and the given entries. -/
def SharedTable.withEntries (cursor : Nat) (entries : List SharedEntry) : SharedTable :=
  { magic := kSharedMagic, capacity := kSharedCapacity, cursor := cursor, reserved := 0,
    entries := entries }

/-- Successive calls of `Alloc`, one for each `(tick, domain)` of the list,
the shared directory being passed from one call to the next.  The result is
the list of returned addresses, the final object and the final directory. -/
def AllocAll (self : FakeIP) (shared : Option SharedTable) :
    List (Nat × Str) → List Nat × FakeIP × Option SharedTable
  | [] => ([], self, shared)
  | (now, domain) :: rest =>
    let r := Alloc self shared now domain
    let t := AllocAll r.self r.shared rest
    (r.ret :: t.1, t.2.1, t.2.2)

/-- The local table holds exactly the domains of `pre`, the `i`-th of them
(counting from 0) at address `s.m_baseIp + i + 1`, and the cursor points to
the next offset (1 after the last offset `s.m_networkSize - 2`). -/
def Filled (pre : List Str) (s : FakeIP) : Prop :=
  pre.length ≤ s.m_networkSize - 2 ∧
  s.m_cursor = (if pre.length = s.m_networkSize - 2 then 1 else pre.length + 1) ∧
  (∀ i d, pre[i]? = some d →
    UMap.find (s.m_baseIp + i + 1) s.m_ipToDomain = some d ∧
    UMap.find d s.m_domainToIp = some (s.m_baseIp + i + 1)) ∧
  (∀ ip d, UMap.find ip s.m_ipToDomain = some d →
    ∃ i, pre[i]? = some d ∧ ip = s.m_baseIp + i + 1) ∧
  (∀ d ip, UMap.find d s.m_domainToIp = some ip → d ∈ pre)

/-- The call `Alloc(e)` made after the calls of `calls`. -/
def allocAfter (s0 : FakeIP) (shared : Option SharedTable) (calls : List (Nat × Str))
    (now : Nat) (e : Str) : AllocResult :=
  Alloc (AllocAll s0 shared calls).2.1 (AllocAll s0 shared calls).2.2 now e

/-- The entry `SharedPut` writes for the put `(address, domain, tick)`. -/
def SharedPut.writtenOf (p : Nat × Str × Nat) : SharedEntry :=
  SharedPut.written p.1 p.2.1 p.2.2

/-! ## Concrete configurations -/

/-- The allocator initialised from the configuration `"10.1.2.3/30"`. -/
def example30 : FakeIP :=
  { m_ipToDomain := [], m_domainToIp := [], m_baseIp := 167838208, m_mask := 4294967292,
    m_networkSize := 4, m_cursor := 1 }

/-- The allocator initialised from the configuration `"10.1.2.3/31"`. -/
def example31 : FakeIP :=
  { m_ipToDomain := [], m_domainToIp := [], m_baseIp := 167838210, m_mask := 4294967294,
    m_networkSize := 2, m_cursor := 1 }

/-- Every record of `m_domainToIp` has its inverse record in `m_ipToDomain`. -/
def DomainsMirrored (s : FakeIP) : Prop :=
  ∀ d ip, UMap.find d s.m_domainToIp = some ip → UMap.find ip s.m_ipToDomain = some d

/-- Every record of `m_ipToDomain` has its inverse record in `m_domainToIp`. -/
def AddressesMirrored (s : FakeIP) : Prop :=
  ∀ ip d, UMap.find ip s.m_ipToDomain = some d → UMap.find d s.m_domainToIp = some ip

/-- The states reached when no call of `GetDomain` backfills a domain that the
local table already maps: every `GetDomain` step either leaves the object
unchanged (local hit, or miss in the directory too) or returns a domain that
had no record in `m_domainToIp`. -/
inductive ReachableNoRemap (inet_pton : Str → Option Nat) (configCidr : Str) :
    FakeIP → Prop
  | init (s : FakeIP) :
      EnsureInitialized inet_pton configCidr FakeIP.construct = Except.ok s →
      ReachableNoRemap inet_pton configCidr s
  | alloc (s : FakeIP) (shared : Option SharedTable) (now : Nat) (domain : Str) :
      ReachableNoRemap inet_pton configCidr s →
      ReachableNoRemap inet_pton configCidr (Alloc s shared now domain).self
  | getDomain (s : FakeIP) (shared : Option SharedTable) (ipNetworkOrder : Nat) :
      ReachableNoRemap inet_pton configCidr s →
      ((GetDomain s shared ipNetworkOrder).self = s ∨
        UMap.find (GetDomain s shared ipNetworkOrder).ret s.m_domainToIp = none) →
      ReachableNoRemap inet_pton configCidr (GetDomain s shared ipNetworkOrder).self

/-- The allocator initialised from an empty configuration (network 198.18.0.0/15). -/
def exampleDefault : FakeIP :=
  { m_ipToDomain := [], m_domainToIp := [], m_baseIp := 3323068416, m_mask := 4294836224,
    m_networkSize := 131072, m_cursor := 1 }

/-- The shared directory after another process, initialised in the same way
and starting from a fresh directory, allocated `a.com` and then `x.com`. -/
def exampleDirectory : Option SharedTable :=
  (AllocAll exampleDefault (some SharedTable.fresh)
    [(1, "a.com".toList), (2, "x.com".toList)]).2.2

/-- This process then allocates `x.com` itself. -/
def exampleAlloc : AllocResult := Alloc exampleDefault exampleDirectory 3 "x.com".toList

/-- And then resolves the address 198.18.0.2, which the other process gave to
`x.com`. -/
def exampleResolve : GetDomainResult :=
  GetDomain exampleAlloc.self exampleAlloc.shared (htonl 3323068418)

/-- The puts of a process that allocates the 4095 distinct domains `h0`, `h1`,
... on the default network at tick 0: one put per address from 198.18.0.1 on. -/
def exampleFill : List (Nat × Str × Nat) :=
  (List.range 4095).map (fun i => (3323068417 + i, 'h' :: Nat.toDigits 10 i, 0))

/-! ## Socket I/O against a scripted peer -/

/-- Modelled from the spec: the connected socket of the SOCKS5 handshake with
a scripted peer behind it (`SocketIo.hpp` is not part of the sources).
`incoming` holds the bytes the peer sends that are not read yet, `sent` the
bytes written so far, and `writable` tells whether writes succeed. -/
structure Peer where
  incoming : List Nat
  sent : List Nat
  writable : Bool
  deriving DecidableEq, Repr

/-- Modelled from the spec: `SocketIo::SendAll(handle, bytes, timeoutMs)`, which
sends all the bytes or reports failure. -/
def SocketIo.SendAll (sock : Peer) (bytes : List Nat) : Bool × Peer :=
  if sock.writable = true then (true, { sock with sent := sock.sent ++ bytes })
  else (false, sock)

/-- Modelled from the spec: `SocketIo::RecvExact(handle, buffer, length,
timeoutMs)` against the scripted peer: the read of `len` bytes succeeds exactly
when `len` bytes remain, and then consumes them. -/
def SocketIo.RecvExact (sock : Peer) (len : Nat) : Option (List Nat × Peer) :=
  if len ≤ sock.incoming.length then
    some (sock.incoming.take len, { sock with incoming := sock.incoming.drop len })
  else none

/-! ## The SOCKS5 client (`src/network/Socks5.hpp`) -/

/-- The constant `Socks5::VERSION`. -/
def Socks5.VERSION : Nat := 0x05

/-- The constant `Socks5::AUTH_NONE`. -/
def Socks5.AUTH_NONE : Nat := 0x00

/-- The constant `Socks5::CMD_CONNECT`. -/
def Socks5.CMD_CONNECT : Nat := 0x01

/-- The constant `Socks5::ATYP_IPV4`. -/
def Socks5.ATYP_IPV4 : Nat := 0x01

/-- The constant `Socks5::ATYP_DOMAIN`. -/
def Socks5.ATYP_DOMAIN : Nat := 0x03

/-- The constant `Socks5::ATYP_IPV6`. -/
def Socks5.ATYP_IPV6 : Nat := 0x04

/-- The constant `Socks5::REPLY_SUCCESS`. -/
def Socks5.REPLY_SUCCESS : Nat := 0x00

/-- The conversion of a `char` to `uint8_t`. -/
def byteOfChar (c : Char) : Nat := c.toNat % 256

/-- The helper `Socks5Client::ReadExact`. -/
def Socks5Client.ReadExact (sock : Peer) (len : Nat) : Option (List Nat × Peer) :=
  SocketIo.RecvExact sock len

/-- The connect request `Socks5Client::Handshake` builds in the vector
`request` (step 2).  `inet_pton` stands for `inet_pton(AF_INET, ..)` and
returns `s_addr`; `inet_pton6` stands for `inet_pton(AF_INET6, ..)` and returns
the 16 bytes of the `in6_addr`. -/
def Socks5Client.connectRequest (inet_pton : Str → Option Nat)
    (inet_pton6 : Str → Option (List Nat)) (targetHost : Str) (targetPort : Nat) :
    List Nat :=
  let request : List Nat := [Socks5.VERSION, Socks5.CMD_CONNECT, 0x00]
  let request : List Nat :=
    match inet_pton (c_str targetHost) with
    | some s_addr =>
      request ++ [Socks5.ATYP_IPV4, (s_addr >>> 0) &&& 0xFF, (s_addr >>> 8) &&& 0xFF,
        (s_addr >>> 16) &&& 0xFF, (s_addr >>> 24) &&& 0xFF]
    | none =>
      match inet_pton6 (c_str targetHost) with
      | some bytes =>
        request ++ [Socks5.ATYP_IPV6] ++ (List.range 16).map (fun i => bytes.getD i 0)
      | none =>
        request ++ [Socks5.ATYP_DOMAIN, targetHost.length % 256]
          ++ targetHost.map byteOfChar
  request ++ [(targetPort >>> 8) &&& 0xFF, targetPort &&& 0xFF]

/-- What a call of `Handshake` produces: the returned flag and the socket
after the call. -/
structure HandshakeResult where
  ret : Bool
  sock : Peer
  deriving DecidableEq, Repr

/-- Step 3 of `Socks5Client::Handshake`, after the header was read: the
`switch` on the address type gives the number of address bytes to discard
(reading the length byte in the domain form), then the address and the two
port bytes are consumed. -/
def Socks5Client.discardBound (sock : Peer) (atyp : Nat) : HandshakeResult :=
  let afterSwitch : Option (Nat × Peer) :=
    if atyp = Socks5.ATYP_IPV4 then some (4, sock)
    else if atyp = Socks5.ATYP_IPV6 then some (16, sock)
    else if atyp = Socks5.ATYP_DOMAIN then
      match Socks5Client.ReadExact sock 1 with
      | none => none
      | some (lenByte, sock1) => some (lenByte.getD 0 0, sock1)
    else none
  match afterSwitch with
  | none => { ret := false, sock := sock }
  | some (addrLen, sock1) =>
    let afterAddr : Option Peer :=
      if addrLen > 0 then
        match Socks5Client.ReadExact sock1 addrLen with
        | none => none
        | some (_, sock2) => some sock2
      else some sock1
    match afterAddr with
    | none => { ret := false, sock := sock1 }
    | some sock2 =>
      match Socks5Client.ReadExact sock2 2 with
      | none => { ret := false, sock := sock2 }
      | some (_, sock3) => { ret := true, sock := sock3 }

/-- The function `Socks5Client::Handshake`. -/
def Socks5Client.Handshake (inet_pton : Str → Option Nat)
    (inet_pton6 : Str → Option (List Nat)) (sock : Peer) (targetHost : Str)
    (targetPort : Nat) : HandshakeResult :=
  let authRequest : List Nat := [Socks5.VERSION, 0x01, Socks5.AUTH_NONE]
  match SocketIo.SendAll sock authRequest with
  | (false, sock1) => { ret := false, sock := sock1 }
  | (true, sock1) =>
    match Socks5Client.ReadExact sock1 2 with
    | none => { ret := false, sock := sock1 }
    | some (authResponse, sock2) =>
      if authResponse.getD 0 0 ≠ Socks5.VERSION ∨ authResponse.getD 1 0 ≠ Socks5.AUTH_NONE then
        { ret := false, sock := sock2 }
      else
        match SocketIo.SendAll sock2
            (Socks5Client.connectRequest inet_pton inet_pton6 targetHost targetPort) with
        | (false, sock3) => { ret := false, sock := sock3 }
        | (true, sock3) =>
          match Socks5Client.ReadExact sock3 4 with
          | none => { ret := false, sock := sock3 }
          | some (header, sock4) =>
            if header.getD 0 0 ≠ Socks5.VERSION then { ret := false, sock := sock4 }
            else if header.getD 1 0 ≠ Socks5.REPLY_SUCCESS then { ret := false, sock := sock4 }
            else Socks5Client.discardBound sock4 (header.getD 3 0)


/-- The peer's byte stream of a successful exchange, in the words of the
contract: the auth reply `05 00`, then the header `05 00 rsv atyp` with `atyp`
one of 01, 03, 04, then a complete bound address (4 bytes for 01, 16 bytes for
04, a length byte `L` and `L` bytes for 03), then 2 port bytes; `rest` is what
follows in the stream. -/
def Socks5.wellFormedReplies (stream rest : List Nat) : Prop :=
  ∃ rsv atyp addr port,
    stream = [0x05, 0x00] ++ [0x05, 0x00, rsv, atyp] ++ addr ++ port ++ rest ∧
    port.length = 2 ∧
    ((atyp = 0x01 ∧ addr.length = 4) ∨ (atyp = 0x04 ∧ addr.length = 16) ∨
      (atyp = 0x03 ∧ ∃ L body, addr = L :: body ∧ body.length = L))


/-- The address field of a connect request, in the words of the contract:
`01` and the 4 address bytes in network order (most significant byte of the
host-order value first) for an IPv4 literal, else `04` and the 16 address
bytes for an IPv6 literal, else `03`, a length byte equal to the host length,
and the bytes of the host. -/
def Socks5.addressField (ipv4HostOrder : Option Nat) (ipv6 : Option (List Nat))
    (host : Str) : List Nat :=
  match ipv4HostOrder with
  | some a => [0x01, a / 16777216 % 256, a / 65536 % 256, a / 256 % 256, a % 256]
  | none =>
    match ipv6 with
    | some bytes => 0x04 :: bytes
    | none => [0x03, host.length] ++ host.map byteOfChar

/-- Split a text at every colon. -/
def splitColons : Str → List Str
  | [] => [[]]
  | c :: cs =>
    if c = ':' then [] :: splitColons cs
    else match splitColons cs with
      | [] => [[c]]
      | p :: ps => (c :: p) :: ps

/-- The value of a hexadecimal digit. -/
def hexDigit (c : Char) : Option Nat :=
  if c.isDigit then some (c.toNat - 48)
  else if 97 ≤ c.toNat ∧ c.toNat ≤ 102 then some (c.toNat - 87)
  else if 65 ≤ c.toNat ∧ c.toNat ≤ 70 then some (c.toNat - 55)
  else none

/-- One group of an IPv6 text: one to four hexadecimal digits, as two bytes. -/
def hexGroup (p : Str) : Option (List Nat) :=
  if p ≠ [] ∧ p.length ≤ 4 then
    match p.mapM hexDigit with
    | some ds =>
      let v := ds.foldl (fun acc d => acc * 16 + d) 0
      some [v / 256, v % 256]
    | none => none
  else none

/-- The bytes of a colon-separated run of groups; the last one may be a
dotted-decimal IPv4 address when `v4Tail` holds.  The empty text has no group. -/
def groupBytes (v4Tail : Bool) (text : Str) : Option (List Nat) :=
  if text = [] then some []
  else
    let parts := splitColons text
    let last := parts.getLastD []
    if v4Tail = true ∧ last.contains '.' = true then
      match (parts.dropLast.mapM hexGroup), (splitDots last).mapM octet with
      | some gs, some os => if os.length = 4 then some (gs.flatten ++ os) else none
      | _, _ => none
    else
      match parts.mapM hexGroup with
      | some gs => some gs.flatten
      | none => none

/-- Split a text at its first double colon, if it has one. -/
def splitDoubleColon : Str → Option (Str × Str)
  | [] => none
  | [_] => none
  | c :: d :: cs =>
    if c = ':' ∧ d = ':' then some ([], cs)
    else match splitDoubleColon (d :: cs) with
      | some (l, r) => some (c :: l, r)
      | none => none

/-- Reference behaviour of `inet_pton(AF_INET6, text, &addr6)`: eight groups of
hexadecimal digits separated by colons, where one double colon may stand for
one or more groups of zeros and the last two groups may be written as a
dotted-decimal IPv4 address; the result is the 16 bytes of the `in6_addr`. -/
def inet_pton6_ref (text : Str) : Option (List Nat) :=
  match splitDoubleColon text with
  | none =>
    match groupBytes true text with
    | some bs => if bs.length = 16 then some bs else none
    | none => none
  | some (l, r) =>
    match groupBytes false l, groupBytes true r with
    | some lb, some rb =>
      if lb.length + rb.length ≤ 14 then
        some (lb ++ List.replicate (16 - lb.length - rb.length) 0 ++ rb)
      else none
    | _, _ => none

/-- A scripted peer that accepts the auth method and answers the connect
request with a success reply carrying an IPv4 bound address, followed by two
bytes of tunnelled data. -/
def examplePeer : Peer :=
  { incoming := [5, 0, 5, 0, 0, 1, 10, 0, 0, 1, 4, 56, 72, 105], sent := [], writable := true }

/-! ## The HTTP CONNECT client (`src/network/HttpConnect.hpp`) -/

/-- Modelled from the spec: the connected socket of the HTTP CONNECT handshake
(`SocketIo.hpp` is not part of the sources).  `response` is what
`SocketIo::RecvUntil` delivers for the delimiter `"\r\n\r\n"` within the
limits of 1024 bytes and the receive timeout: the header block received, or
nothing when the call fails; `sent` holds the text written so far and
`writable` tells whether writes succeed. -/
structure HttpPeer where
  response : Option Str
  sent : Str
  writable : Bool
  deriving DecidableEq, Repr

/-- Modelled from the spec: `SocketIo::SendAll(handle, bytes, timeoutMs)` for
the request text. -/
def SocketIo.SendAllText (sock : HttpPeer) (text : Str) : Bool × HttpPeer :=
  if sock.writable = true then (true, { sock with sent := sock.sent ++ text })
  else (false, sock)

/-- Modelled from the spec: `SocketIo::RecvUntil(handle, delimiter, timeoutMs,
maxBytes)`, which reads until the delimiter is observed and fails when the
size or time limit is exceeded. -/
def SocketIo.RecvUntil (sock : HttpPeer) : Option (Str × HttpPeer) :=
  match sock.response with
  | some text => some (text, { sock with response := none })
  | none => none

/-- The decimal text `operator<<` writes for an unsigned integer. -/
def decimalText (n : Nat) : Str := Nat.toDigits 10 n

/-- The function `HttpConnectClient::ParseStatusCode`. -/
def HttpConnectClient.ParseStatusCode (response : Str) : Int :=
  let spacePos := response.indexOf ' '
  if spacePos = response.length ∨ spacePos + 4 > response.length then -1
  else
    let codeStr := (response.drop (spacePos + 1)).take 3
    match stoi codeStr with
    | Except.ok v => v
    | Except.error _ => -1

/-- The request text `HttpConnectClient::Handshake` builds in `requestStr`;
`inet_pton6` stands for `inet_pton(AF_INET6, ..)`. -/
def HttpConnectClient.requestText (inet_pton6 : Str → Option (List Nat))
    (targetHost : Str) (targetPort : Nat) : Str :=
  let hostForHeader : Str :=
    if (inet_pton6 (c_str targetHost)).isSome = true then
      "[".toList ++ targetHost ++ "]".toList
    else targetHost
  let request : Str := []
  let request := request ++ "CONNECT ".toList ++ hostForHeader ++ ":".toList
    ++ decimalText targetPort ++ " HTTP/1.1\r\n".toList
  let request := request ++ "Host: ".toList ++ hostForHeader ++ ":".toList
    ++ decimalText targetPort ++ "\r\n".toList
  request ++ "\r\n".toList

/-- What a call of `HttpConnectClient::Handshake` produces: the returned flag
and the socket after the call. -/
structure HttpHandshakeResult where
  ret : Bool
  sock : HttpPeer
  deriving DecidableEq, Repr

/-- The function `HttpConnectClient::Handshake`. -/
def HttpConnectClient.Handshake (inet_pton6 : Str → Option (List Nat)) (sock : HttpPeer)
    (targetHost : Str) (targetPort : Nat) : HttpHandshakeResult :=
  let requestStr := HttpConnectClient.requestText inet_pton6 targetHost targetPort
  match SocketIo.SendAllText sock requestStr with
  | (false, sock1) => { ret := false, sock := sock1 }
  | (true, sock1) =>
    match SocketIo.RecvUntil sock1 with
    | none => { ret := false, sock := sock1 }
    | some (response, sock2) =>
      let statusCode := HttpConnectClient.ParseStatusCode response
      if statusCode = -1 then { ret := false, sock := sock2 }
      else if statusCode ≠ 200 then { ret := false, sock := sock2 }
      else { ret := true, sock := sock2 }

/-- The three characters that follow the first space of a response, when the
response has a space and at least three characters after it. -/
def statusText (response : Str) : Option Str :=
  match response.dropWhile (fun c => decide (c ≠ ' ')) with
  | _ :: a :: b :: c :: _ => some [a, b, c]
  | _ => none

/-- The request text in the words of the contract:
`CONNECT H:P HTTP/1.1`, `Host: H:P` and a blank line, each line ended by CR LF. -/
def connectText (hostForHeader : Str) (port : Str) : Str :=
  "CONNECT ".toList ++ hostForHeader ++ ":".toList ++ port ++ " HTTP/1.1\r\nHost: ".toList
    ++ hostForHeader ++ ":".toList ++ port ++ "\r\n\r\n".toList


/-- The text `std::stoi` reads digits from: the argument without its leading
white space and without one leading sign. -/
def stoiBody (s : Str) : Str :=
  match s.dropWhile isspace with
  | c :: r => if c = '-' ∨ c = '+' then r else c :: r
  | [] => []

/-- The run of digits `std::stoi` converts. -/
def stoiDigits (s : Str) : Str := (stoiBody s).takeWhile Char.isDigit

/-- Whether `std::stoi` found a minus sign. -/
def stoiNegative (s : Str) : Bool :=
  match s.dropWhile isspace with
  | c :: _ => decide (c = '-')
  | [] => false

/-! ## Runs of `Alloc` alone and the size of the table -/

/-- The states reached from a constructed and initialised allocator by calls
of `Alloc` only. -/
inductive ReachableByAlloc (inet_pton : Str → Option Nat) (configCidr : Str) :
    FakeIP → Prop
  | init (s : FakeIP) :
      EnsureInitialized inet_pton configCidr FakeIP.construct = Except.ok s →
      ReachableByAlloc inet_pton configCidr s
  | alloc (s : FakeIP) (shared : Option SharedTable) (now : Nat) (domain : Str) :
      ReachableByAlloc inet_pton configCidr s →
      ReachableByAlloc inet_pton configCidr (Alloc s shared now domain).self

/-- The keys of a map. -/
def UMap.keys {κ ν : Type} (m : List (κ × ν)) : List κ := m.map Prod.fst

/-- The local table is within bounds: no key occurs twice in either map, and
every address with a record lies between `base + 1` and `base + size - 2`. -/
def Bounded (s : FakeIP) : Prop :=
  (UMap.keys s.m_ipToDomain).Nodup ∧ (UMap.keys s.m_domainToIp).Nodup ∧
  ∀ ip ∈ UMap.keys s.m_ipToDomain,
    s.m_baseIp + 1 ≤ ip ∧ ip ≤ s.m_baseIp + (s.m_networkSize - 2)

/-- A mapped directory whose cursor has reached the last 32-bit value. -/
def exampleWrapTable : SharedTable :=
  SharedTable.withEntries 4294967295 (List.replicate kSharedCapacity SharedEntry.zero)

/-! ## Lock acquisitions -/

/-- The two locks of the allocator: the in-process `std::mutex m_mtx` and the
named mutex `m_sharedMutex` of the cross-process directory. -/
inductive LockId where
  | m_mtx
  | m_sharedMutex
  deriving DecidableEq, Repr

/-- What a thread does to a lock: `lock_guard` construction and a successful
`LockShared` acquire, the end of the guard's scope and `UnlockShared` release. -/
inductive LockEvent where
  | acquire (l : LockId)
  | release (l : LockId)
  deriving DecidableEq, Repr

/-- What one call of a public member function meets outside the two maps, as
far as its locks go.  `initRuns`: `std::call_once(m_initOnce, ..)` runs its
body in this call; `initThrows`: that body leaves by an exception (`std::stoi`);
`sharedRuns`: `std::call_once(m_sharedOnce, ..)` runs its body in this call;
`mutexCreated`: `m_sharedMutex` is not `NULL`; `waitInit` and `waitUse`:
`WaitForSingleObject` returns `WAIT_OBJECT_0` or `WAIT_ABANDONED`, in the body
of `EnsureSharedInitialized` and in `SharedPut` or `SharedGet`; `mapped`:
`m_shared` is not null after `EnsureSharedInitialized`. -/
structure CallEnv where
  initRuns : Bool
  initThrows : Bool
  sharedRuns : Bool
  mutexCreated : Bool
  waitInit : Bool
  mapped : Bool
  waitUse : Bool
  deriving DecidableEq, Repr

/-- The member function `LockShared`: its result and its lock events, `wait`
telling whether the wait succeeds. -/
def LockShared.locks (env : CallEnv) (wait : Bool) : Bool × List LockEvent :=
  if env.mutexCreated = false then (false, [])
  else if wait = true then (true, [LockEvent.acquire LockId.m_sharedMutex])
  else (false, [])

/-- The member function `UnlockShared`. -/
def UnlockShared.locks (env : CallEnv) : List LockEvent :=
  if env.mutexCreated = true then [LockEvent.release LockId.m_sharedMutex] else []

/-- The lock events of `EnsureSharedInitialized`: the body locks first and
unlocks on each of its three ways out, if it was locked. -/
def EnsureSharedInitialized.locks (env : CallEnv) : List LockEvent :=
  if env.sharedRuns = true then
    (LockShared.locks env env.waitInit).2 ++
      (if (LockShared.locks env env.waitInit).1 = true then UnlockShared.locks env else [])
  else []

/-- The lock events of `SharedPut`. -/
def SharedPut.locks (env : CallEnv) (domain : Str) : List LockEvent :=
  if domain = [] then []
  else EnsureSharedInitialized.locks env ++
    (if env.mapped = false then []
     else (LockShared.locks env env.waitUse).2 ++
      (if (LockShared.locks env env.waitUse).1 = false then [] else UnlockShared.locks env))

/-- The lock events of `SharedGet`. -/
def SharedGet.locks (env : CallEnv) : List LockEvent :=
  EnsureSharedInitialized.locks env ++
    (if env.mapped = false then []
     else (LockShared.locks env env.waitUse).2 ++
      (if (LockShared.locks env env.waitUse).1 = false then [] else UnlockShared.locks env))

/-- The lock events of `EnsureInitialized`: the body of the `call_once` holds a
`lock_guard` on `m_mtx` from its first statement to its end, also when it
leaves by an exception. -/
def EnsureInitialized.locks (env : CallEnv) : List LockEvent :=
  if env.initRuns = true then
    [LockEvent.acquire LockId.m_mtx, LockEvent.release LockId.m_mtx]
  else []

/-- The lock events of `IsFakeIP`. -/
def IsFakeIP.locks (env : CallEnv) : List LockEvent :=
  EnsureInitialized.locks env ++
    (if env.initRuns = true ∧ env.initThrows = true then []
     else [LockEvent.acquire LockId.m_mtx, LockEvent.release LockId.m_mtx])

/-- The lock events of `Alloc` on the object `self`: the guard on `m_mtx` is
held from after `EnsureInitialized` to the return, and `SharedPut` is called on
the path that assigns a new address. -/
def Alloc.locks (env : CallEnv) (self : FakeIP) (domain : Str) : List LockEvent :=
  EnsureInitialized.locks env ++
    (if env.initRuns = true ∧ env.initThrows = true then []
     else [LockEvent.acquire LockId.m_mtx] ++
      (match UMap.find domain self.m_domainToIp with
        | some _ => []
        | none => if self.m_networkSize ≤ 2 then [] else SharedPut.locks env domain) ++
      [LockEvent.release LockId.m_mtx])

/-- The lock events of `GetDomain` on the object `self`: `SharedGet` is called
when the address has no local record. -/
def GetDomain.locks (env : CallEnv) (self : FakeIP) (ipNetworkOrder : Nat) :
    List LockEvent :=
  EnsureInitialized.locks env ++
    (if env.initRuns = true ∧ env.initThrows = true then []
     else [LockEvent.acquire LockId.m_mtx] ++
      (match UMap.find (ntohl ipNetworkOrder) self.m_ipToDomain with
        | some _ => []
        | none => SharedGet.locks env) ++
      [LockEvent.release LockId.m_mtx])

/-- A call of a public member function that takes a lock, with what it meets
and the state of the object it finds: `Instance()` or `Init()`, `IsFakeIP`,
`Alloc`, `GetDomain`. -/
inductive Call where
  | init (env : CallEnv)
  | isFakeIP (env : CallEnv)
  | alloc (env : CallEnv) (self : FakeIP) (domain : Str)
  | getDomain (env : CallEnv) (self : FakeIP) (ipNetworkOrder : Nat)

/-- The lock events of a call. -/
def Call.locks : Call → List LockEvent
  | Call.init env => EnsureInitialized.locks env
  | Call.isFakeIP env => IsFakeIP.locks env
  | Call.alloc env self domain => Alloc.locks env self domain
  | Call.getDomain env self ipNetworkOrder => GetDomain.locks env self ipNetworkOrder

/-- The lock events of a thread that makes the calls one after the other. -/
def Call.locksAll : List Call → List LockEvent
  | [] => []
  | c :: rest => c.locks ++ Call.locksAll rest

/-- The locks a thread holds after an event, given those it held before. -/
def LockEvent.apply (h : List LockId) : LockEvent → List LockId
  | LockEvent.acquire l => l :: h
  | LockEvent.release l => h.erase l

/-- The locks a thread holds after its events, given those it held before. -/
def heldAfter (h : List LockId) (events : List LockEvent) : List LockId :=
  events.foldl LockEvent.apply h

/-- The locks a thread holds after its events, starting with none. -/
def held (events : List LockEvent) : List LockId := heldAfter [] events

/-- The events of the thread `tid` in an execution, which is a sequence of
lock events each done by some thread. -/
def threadEvents (tid : Nat) (exec : List (Nat × LockEvent)) : List LockEvent :=
  (exec.filter (fun p => p.1 = tid)).map Prod.snd

/-- The order of the two locks is respected by an event of a thread holding
the locks `h`: `m_sharedMutex` is acquired only with `m_mtx` held, and `m_mtx`
only without `m_sharedMutex` held. -/
def LockEvent.inOrder (h : List LockId) : LockEvent → Bool
  | LockEvent.acquire LockId.m_sharedMutex => decide (LockId.m_mtx ∈ h)
  | LockEvent.acquire LockId.m_mtx => decide (LockId.m_sharedMutex ∉ h)
  | LockEvent.release _ => true

/-- The order of the two locks is respected all along the events of a thread
that starts holding the locks `h`. -/
def inOrderFrom : List LockId → List LockEvent → Bool
  | _, [] => true
  | h, e :: es => e.inOrder h && inOrderFrom (e.apply h) es

/-- Two threads at work: thread 1 allocates `a.com` on the 10.1.2.0/30 network
and thread 2 resolves 10.1.2.1, each initialising what it finds uninitialised;
thread 2 waits for `m_mtx` until thread 1 has returned. -/
def exampleExecution : List (Nat × LockEvent) :=
  (Alloc.locks
      { initRuns := true, initThrows := false, sharedRuns := true, mutexCreated := true,
        waitInit := true, mapped := true, waitUse := true }
      example30 "a.com".toList).map (fun e => (1, e)) ++
    (GetDomain.locks
      { initRuns := false, initThrows := false, sharedRuns := false, mutexCreated := true,
        waitInit := true, mapped := true, waitUse := true }
      example30 (htonl 167838209)).map (fun e => (2, e))

/-! ## Basic facts -/

theorem htonl_lt (x : Nat) : htonl x < 4294967296 := by
  unfold htonl
  omega

theorem htonl_bytes (a b c d : Nat) (ha : a < 256) (hb : b < 256) (hc : c < 256)
    (hd : d < 256) :
    htonl (a + 256 * b + 65536 * c + 16777216 * d)
      = d + 256 * c + 65536 * b + 16777216 * a := by
  unfold htonl
  omega

theorem htonl_htonl (x : Nat) (h : x < 4294967296) : htonl (htonl x) = x := by
  have hx : x = x % 256 + 256 * (x / 256 % 256) + 65536 * (x / 65536 % 256)
      + 16777216 * (x / 16777216 % 256) := by omega
  have h1 := htonl_bytes (x % 256) (x / 256 % 256) (x / 65536 % 256) (x / 16777216 % 256)
    (by omega) (by omega) (by omega) (by omega)
  have h2 := htonl_bytes (x / 16777216 % 256) (x / 65536 % 256) (x / 256 % 256) (x % 256)
    (by omega) (by omega) (by omega) (by omega)
  rw [← hx] at h1
  rw [h1, h2]
  omega

theorem ntohl_htonl (x : Nat) (h : x < 4294967296) : ntohl (htonl x) = x :=
  htonl_htonl x h

namespace UMap

variable {κ ν : Type} [DecidableEq κ]

theorem find_erase_self (k : κ) (m : List (κ × ν)) : find k (erase k m) = none := by
  induction m with
  | nil => rfl
  | cons p rest ih =>
    obtain ⟨k1, v⟩ := p
    by_cases h : k1 = k
    · simp [erase, h, ih]
    · simp [erase, find, h, ih]

theorem find_erase_ne {k k2 : κ} (h : k2 ≠ k) (m : List (κ × ν)) :
    find k2 (erase k m) = find k2 m := by
  induction m with
  | nil => rfl
  | cons p rest ih =>
    obtain ⟨k1, v⟩ := p
    by_cases h1 : k1 = k
    · have h2 : ¬ k = k2 := fun e => h e.symm
      simp [erase, find, h1, h2, ih]
    · by_cases h2 : k1 = k2
      · subst h2
        simp [erase, find, h1]
      · simp [erase, find, h1, h2, ih]

theorem find_assign_self (k : κ) (v : ν) (m : List (κ × ν)) :
    find k (assign k v m) = some v := by
  simp [assign, find]

theorem find_assign_ne {k k2 : κ} (h : k2 ≠ k) (v : ν) (m : List (κ × ν)) :
    find k2 (assign k v m) = find k2 m := by
  have h1 : ¬ k = k2 := fun e => h e.symm
  simp [assign, find, h1, find_erase_ne h]

end UMap

/-! ## What `ParseCidr` and `EnsureInitialized` produce -/

theorem ParseCidr_some {inet_pton : Str → Option Nat} {cidr : Str} {base mask : Nat}
    (h : ParseCidr inet_pton cidr = Except.ok (some (base, mask))) :
    ∃ bits addr : Nat, bits ≤ 32 ∧ addr < 4294967296 ∧ mask = maskOfBits bits ∧
      base = addr &&& mask := by
  unfold ParseCidr at h
  simp only at h
  split at h
  · simp at h
  · split at h
    · simp at h
    · rename_i bits hb
      split at h
      · simp at h
      · rename_i hrange
        split at h
        · simp at h
        · rename_i s_addr hp
          simp only [Except.ok.injEq, Option.some.injEq, Prod.mk.injEq] at h
          obtain ⟨h1, h2⟩ := h
          refine ⟨bits.toNat, ntohl s_addr, by omega, htonl_lt _, ?_, ?_⟩
          · rw [← h2]
            unfold maskOfBits
            have : (bits = 0) ↔ (bits.toNat = 0) := by omega
            by_cases hz : bits = 0
            · simp [hz]
            · have hz2 : ¬ bits.toNat = 0 := by omega
              simp [hz, hz2]
          · rw [← h1, ← h2]

theorem EnsureInitialized_cases {inet_pton : Str → Option Nat} {configCidr : Str}
    {s : FakeIP}
    (h : EnsureInitialized inet_pton configCidr FakeIP.construct = Except.ok s) :
    s.m_ipToDomain = [] ∧ s.m_domainToIp = [] ∧ s.m_cursor = 1 ∧
    ((∃ bits addr : Nat, bits ≤ 32 ∧ addr < 4294967296 ∧ s.m_mask = maskOfBits bits ∧
        s.m_baseIp = addr &&& s.m_mask ∧
        s.m_networkSize = (not32 s.m_mask + 1) % 4294967296) ∨
     (s.m_baseIp = 0 ∧ s.m_mask = 0 ∧ s.m_networkSize = 0)) := by
  unfold EnsureInitialized at h
  simp only at h
  split at h
  · simp at h
  · rename_i base mask hp
    obtain ⟨bits, addr, h1, h2, h3, h4⟩ := ParseCidr_some hp
    simp only [Except.ok.injEq] at h
    subst h
    exact ⟨rfl, rfl, rfl, Or.inl ⟨bits, addr, h1, h2, h3, h4, rfl⟩⟩
  · split at h
    · simp at h
    · rename_i base mask hp
      obtain ⟨bits, addr, h1, h2, h3, h4⟩ := ParseCidr_some hp
      simp only [Except.ok.injEq] at h
      subst h
      exact ⟨rfl, rfl, rfl, Or.inl ⟨bits, addr, h1, h2, h3, h4, rfl⟩⟩
    · simp only [Except.ok.injEq] at h
      subst h
      exact ⟨rfl, rfl, rfl, Or.inr ⟨rfl, rfl, by decide⟩⟩

/-! ## The invariant of the local table -/

theorem Inv_init {inet_pton : Str → Option Nat} {configCidr : Str} {s : FakeIP}
    (h : EnsureInitialized inet_pton configCidr FakeIP.construct = Except.ok s) :
    Inv s := by
  obtain ⟨h1, h2, h3, h4⟩ := EnsureInitialized_cases h
  refine ⟨?_, by omega, ?_⟩
  · rcases h4 with ⟨bits, addr, _, ha, _, hb, _⟩ | ⟨hb, _, _⟩
    · rw [hb]
      exact lt_of_le_of_lt Nat.and_le_left ha
    · omega
  · intro d ip hd
    rw [h2] at hd
    simp [UMap.find] at hd

theorem Inv_Alloc {s : FakeIP} (shared : Option SharedTable) (now : Nat) (domain : Str)
    (h : Inv s) : Inv (Alloc s shared now domain).self := by
  obtain ⟨hbase, hcur, hmaps⟩ := h
  unfold Alloc
  split
  · exact ⟨hbase, hcur, hmaps⟩
  · rename_i hnew
    split
    · exact ⟨hbase, hcur, hmaps⟩
    · have hip : s.m_baseIp ||| s.m_cursor < 4294967296 :=
        @Nat.or_lt_two_pow _ _ 32 hbase hcur
      refine ⟨hbase, ?_, ?_⟩
      · simp only
        split
        · omega
        · omega
      · intro d ip hd
        simp only at hd ⊢
        by_cases hdd : d = domain
        · subst hdd
          rw [UMap.find_assign_self] at hd
          simp only [Option.some.injEq] at hd
          subst hd
          exact ⟨hip, UMap.find_assign_self _ _ _⟩
        · rw [UMap.find_assign_ne hdd] at hd
          have key : UMap.find d s.m_domainToIp = some ip ∧
              ip ≠ (s.m_baseIp ||| s.m_cursor) := by
            split at hd
            · rename_i oldDomain hold
              by_cases hdo : d = oldDomain
              · subst hdo
                rw [UMap.find_erase_self] at hd
                simp at hd
              · rw [UMap.find_erase_ne hdo] at hd
                refine ⟨hd, ?_⟩
                intro e
                have := (hmaps d ip hd).2
                rw [e, hold] at this
                simp only [Option.some.injEq] at this
                exact hdo this.symm
            · rename_i hnone
              refine ⟨hd, ?_⟩
              intro e
              have := (hmaps d ip hd).2
              rw [e, hnone] at this
              simp at this
          obtain ⟨hfind, hne⟩ := key
          refine ⟨(hmaps d ip hfind).1, ?_⟩
          rw [UMap.find_assign_ne hne]
          exact (hmaps d ip hfind).2

theorem Inv_GetDomain {s : FakeIP} (shared : Option SharedTable) (ipNetworkOrder : Nat)
    (h : Inv s) : Inv (GetDomain s shared ipNetworkOrder).self := by
  obtain ⟨hbase, hcur, hmaps⟩ := h
  unfold GetDomain
  simp only
  split
  · exact ⟨hbase, hcur, hmaps⟩
  · rename_i hmiss
    split
    · refine ⟨hbase, hcur, ?_⟩
      intro d ip hd
      simp only at hd ⊢
      by_cases hdd : d = SharedGet shared (ntohl ipNetworkOrder)
      · rw [hdd] at hd ⊢
        rw [UMap.find_assign_self] at hd
        simp only [Option.some.injEq] at hd
        subst hd
        exact ⟨htonl_lt _, UMap.find_assign_self _ _ _⟩
      · rw [UMap.find_assign_ne hdd] at hd
        have hne : ip ≠ ntohl ipNetworkOrder := by
          intro e
          have := (hmaps d ip hd).2
          rw [e, hmiss] at this
          simp at this
        refine ⟨(hmaps d ip hd).1, ?_⟩
        rw [UMap.find_assign_ne hne]
        exact (hmaps d ip hd).2
    · exact ⟨hbase, hcur, hmaps⟩

theorem Inv_of_Reachable {inet_pton : Str → Option Nat} {configCidr : Str} {s : FakeIP}
    (h : Reachable inet_pton configCidr s) : Inv s := by
  induction h with
  | init s hs => exact Inv_init hs
  | alloc s shared now domain _ ih => exact Inv_Alloc shared now domain ih
  | getDomain s shared ip _ ih => exact Inv_GetDomain shared ip ih

/-! ## The three paths of `Alloc` -/

theorem Alloc_mapped {s : FakeIP} {domain : Str} {ip : Nat}
    (h : UMap.find domain s.m_domainToIp = some ip) (shared : Option SharedTable)
    (now : Nat) :
    Alloc s shared now domain = { ret := htonl ip, self := s, shared := shared } := by
  unfold Alloc
  rw [h]

theorem Alloc_refused {s : FakeIP} {domain : Str}
    (h : UMap.find domain s.m_domainToIp = none) (hsize : s.m_networkSize ≤ 2)
    (shared : Option SharedTable) (now : Nat) :
    Alloc s shared now domain = { ret := 0, self := s, shared := shared } := by
  unfold Alloc
  rw [h]
  simp [hsize]

theorem Alloc_assigned {s : FakeIP} {domain : Str}
    (h : UMap.find domain s.m_domainToIp = none) (hsize : 2 < s.m_networkSize)
    (shared : Option SharedTable) (now : Nat) :
    (Alloc s shared now domain).ret = htonl (s.m_baseIp ||| s.m_cursor) ∧
    (Alloc s shared now domain).self.m_ipToDomain
      = UMap.assign (s.m_baseIp ||| s.m_cursor) domain s.m_ipToDomain ∧
    UMap.find domain (Alloc s shared now domain).self.m_domainToIp
      = some (s.m_baseIp ||| s.m_cursor) ∧
    (Alloc s shared now domain).shared
      = SharedPut shared (s.m_baseIp ||| s.m_cursor) domain now := by
  have hs : ¬ s.m_networkSize ≤ 2 := by omega
  unfold Alloc
  rw [h]
  rw [if_neg hs]
  exact ⟨rfl, rfl, UMap.find_assign_self _ _ _, rfl⟩

/-! ## Contract of the allocator -/

/-- C1: in every state reachable from a constructed and initialised allocator
by calls of `Alloc` and `GetDomain`, over an address space of size greater
than 2, `GetDomain` applied to the address `Alloc` returns for a non-empty
domain, right after that call, returns the domain: both when the domain was
already mapped and when it is newly assigned. -/
theorem GetDomain_Alloc_roundtrip (inet_pton : Str → Option Nat) (configCidr : Str)
    (s : FakeIP) (hreach : Reachable inet_pton configCidr s)
    (hsize : 2 < s.m_networkSize) (domain : Str) (_hne : domain ≠ [])
    (shared : Option SharedTable) (now : Nat) (sharedAfter : Option SharedTable) :
    (GetDomain (Alloc s shared now domain).self sharedAfter
      (Alloc s shared now domain).ret).ret = domain := by
  obtain ⟨hbase, hcur, hmaps⟩ := Inv_of_Reachable hreach
  cases hfind : UMap.find domain s.m_domainToIp with
  | some ip =>
    rw [Alloc_mapped hfind]
    obtain ⟨hlt, hback⟩ := hmaps domain ip hfind
    unfold GetDomain
    simp only [ntohl_htonl ip hlt, hback]
  | none =>
    obtain ⟨hret, hmap, _, _⟩ := Alloc_assigned hfind hsize shared now
    have hip : s.m_baseIp ||| s.m_cursor < 4294967296 :=
      @Nat.or_lt_two_pow _ _ 32 hbase hcur
    unfold GetDomain
    simp only [hret, ntohl_htonl _ hip, hmap, UMap.find_assign_self]

/-- C2: `Alloc` is idempotent.  For every state of the allocator and every
domain, a second call of `Alloc` for the same domain right after the first
returns the same address and leaves the object (both maps, the cursor and the
address space) as the first call left it. -/
theorem Alloc_idempotent (s : FakeIP) (domain : Str) (shared : Option SharedTable)
    (now : Nat) (shared2 : Option SharedTable) (now2 : Nat) :
    (Alloc (Alloc s shared now domain).self shared2 now2 domain).ret
        = (Alloc s shared now domain).ret ∧
    (Alloc (Alloc s shared now domain).self shared2 now2 domain).self
        = (Alloc s shared now domain).self := by
  cases hfind : UMap.find domain s.m_domainToIp with
  | some ip =>
    rw [Alloc_mapped hfind, Alloc_mapped hfind]
    exact ⟨rfl, rfl⟩
  | none =>
    by_cases hsize : s.m_networkSize ≤ 2
    · rw [Alloc_refused hfind hsize, Alloc_refused hfind hsize]
      exact ⟨rfl, rfl⟩
    · obtain ⟨hret, _, hmap, _⟩ := Alloc_assigned hfind (by omega) shared now
      rw [Alloc_mapped hmap, hret]
      exact ⟨rfl, rfl⟩

/-- C7: when the address space is degenerate (size at most 2) and the domain
is not mapped, `Alloc` returns the sentinel address 0 and leaves the object
(local table and cursor) and the shared directory unchanged. -/
theorem Alloc_degenerate (s : FakeIP) (shared : Option SharedTable) (now : Nat)
    (domain : Str) (hsize : s.m_networkSize ≤ 2)
    (hnew : UMap.find domain s.m_domainToIp = none) :
    (Alloc s shared now domain).ret = 0 ∧ (Alloc s shared now domain).self = s ∧
    (Alloc s shared now domain).shared = shared := by
  rw [Alloc_refused hnew hsize]
  exact ⟨rfl, rfl, rfl⟩

/-! ## The cross-process directory -/

theorem range_map_getD {α : Type} (l : List α) (z : α) :
    (List.range l.length).map (fun i => l.getD i z) = l := by
  apply List.ext_getElem
  · simp
  · intro i h1 h2
    simp [List.getD_eq_getElem?_getD, List.getElem?_eq_getElem h2]

theorem SharedGet_some (t : SharedTable) (hlen : t.entries.length = kSharedCapacity)
    (ip : Nat) :
    SharedGet (some t) ip =
      match (t.entries.foldl (SharedGet.step ip) (none, 0)).1 with
      | some best => c_str best.domain
      | none => [] := by
  unfold SharedGet
  simp only
  rw [← hlen, ← List.foldl_map (fun i => t.entries.getD i SharedEntry.zero)
    (SharedGet.step ip), range_map_getD]

theorem SharedPut_some (t : SharedTable) (ip : Nat) {domain : Str} (h : domain ≠ [])
    (now : Nat) :
    SharedPut (some t) ip domain now = some { t with
      cursor := (t.cursor + 1) % 4294967296
      entries := t.entries.set (t.cursor % kSharedCapacity)
        (SharedPut.written ip domain now) } := by
  unfold SharedPut SharedPut.written
  rw [if_neg h]

theorem set_length_append {α : Type} (l1 : List α) (a b : α) (l2 : List α) :
    (l1 ++ a :: l2).set l1.length b = l1 ++ b :: l2 := by
  induction l1 with
  | nil => rfl
  | cons x xs ih => simp [List.set, ih]

theorem set_append_at {α : Type} (l1 : List α) (a b : α) (l2 : List α) (n : Nat)
    (h : l1.length = n) : (l1 ++ a :: l2).set n b = l1 ++ b :: l2 := by
  rw [← h, set_length_append]

theorem c_str_append_NUL (d rest : Str) (h : NUL ∉ d) : c_str (d ++ NUL :: rest) = d := by
  induction d with
  | nil => simp [c_str, List.takeWhile]
  | cons x xs ih =>
    have hx : x ≠ NUL := fun e => h (e ▸ List.mem_cons_self _ _)
    have hxs : NUL ∉ xs := fun e => h (List.mem_cons_of_mem _ e)
    have := ih hxs
    unfold c_str at this ⊢
    rw [List.cons_append, List.takeWhile_cons, if_pos (by simpa using hx), this]

theorem written_domain {domain : Str} (hne : domain ≠ [])
    (hlen : domain.length ≤ kSharedDomainMax) (ip now : Nat) :
    (SharedPut.written ip domain now).domain
      = domain ++ NUL :: List.replicate (kSharedDomainMax - domain.length) NUL := by
  have hn : (if domain.length < kSharedDomainMax then domain.length else kSharedDomainMax)
      = domain.length := by
    split
    · rfl
    · omega
  have hpos : domain.length > 0 := List.length_pos.mpr hne
  unfold SharedPut.written
  simp only [hn, hpos, if_true, List.take_length, List.drop_replicate]
  have : kSharedDomainMax + 1 - domain.length = (kSharedDomainMax - domain.length) + 1 := by
    omega
  rw [this, List.replicate_succ, set_length_append]

theorem written_c_str {domain : Str} (hne : domain ≠ [])
    (hlen : domain.length ≤ kSharedDomainMax) (hnul : NUL ∉ domain) (ip now : Nat) :
    c_str (SharedPut.written ip domain now).domain = domain := by
  rw [written_domain hne hlen, c_str_append_NUL _ _ hnul]

theorem written_head {domain : Str} (hne : domain ≠ [])
    (hlen : domain.length ≤ kSharedDomainMax) (hnul : NUL ∉ domain) (ip now : Nat) :
    (SharedPut.written ip domain now).domain.headD NUL ≠ NUL := by
  rw [written_domain hne hlen]
  cases domain with
  | nil => exact absurd rfl hne
  | cons x xs =>
    simp only [List.cons_append, List.headD_cons]
    exact fun e => hnul (e ▸ List.mem_cons_self _ _)

theorem step_zero (ip : Nat) (acc : Option SharedEntry × Nat) :
    SharedGet.step ip acc SharedEntry.zero = acc := by
  unfold SharedGet.step
  have : SharedEntry.zero.domain.headD NUL = NUL := by
    show (List.replicate (255 + 1) NUL).headD NUL = NUL
    rw [List.replicate_succ]
    rfl
  rw [if_neg (fun h => h.2 this)]

theorem foldl_step_zeros (ip : Nat) (n : Nat) (acc : Option SharedEntry × Nat) :
    (List.replicate n SharedEntry.zero).foldl (SharedGet.step ip) acc = acc := by
  induction n with
  | zero => rfl
  | succ n ih => simp [List.replicate_succ, step_zero, ih]

/-- C9: round trip through the cross-process directory.  For every address
and every non-empty domain of at most 255 bytes without a NUL byte, `SharedPut`
on a freshly initialised shared table followed by `SharedGet` of the same
address on that table returns exactly the domain (at any clock value). -/
theorem SharedGet_SharedPut_fresh (a : Nat) (d : Str) (now : Nat) (hne : d ≠ [])
    (hlen : d.length ≤ 255) (hnul : NUL ∉ d) :
    SharedGet (SharedPut (some SharedTable.fresh) a d now) a = d := by
  rw [SharedPut_some _ _ hne, SharedGet_some]
  · have he : SharedTable.fresh.entries
        = SharedEntry.zero :: List.replicate 4095 SharedEntry.zero := by
      show List.replicate (4095 + 1) SharedEntry.zero = _
      rw [List.replicate_succ]
    have hc : SharedTable.fresh.cursor % kSharedCapacity = 0 := by
      simp [SharedTable.fresh]
    simp only [he, hc, List.set_cons_zero, List.foldl_cons]
    have hstep : SharedGet.step a (none, 0) (SharedPut.written a d now)
        = (some (SharedPut.written a d now), now) := by
      unfold SharedGet.step
      have h1 := written_head hne hlen hnul a now
      have h2 : (SharedPut.written a d now).ip = a := rfl
      rw [if_pos ⟨h2, h1⟩, if_pos (Nat.zero_le _)]
      rfl
    rw [hstep, foldl_step_zeros]
    exact written_c_str hne hlen hnul a now
  · simp [SharedTable.fresh]


theorem SharedPut_withEntries (cursor : Nat) (entries : List SharedEntry) (ip : Nat)
    {domain : Str} (h : domain ≠ []) (now : Nat) :
    SharedPut (some (SharedTable.withEntries cursor entries)) ip domain now
      = some (SharedTable.withEntries ((cursor + 1) % 4294967296)
          (entries.set (cursor % kSharedCapacity) (SharedPut.written ip domain now))) := by
  rw [SharedPut_some _ _ h]
  rfl

theorem SharedPutAll_append_zeros (fill : List (Nat × Str × Nat)) :
    ∀ (done : List SharedEntry) (m : Nat),
      (∀ p ∈ fill, p.2.1 ≠ []) → done.length + fill.length ≤ 4096 →
      fill.length ≤ m →
      SharedPutAll (some (SharedTable.withEntries done.length
          (done ++ List.replicate m SharedEntry.zero))) fill
        = some (SharedTable.withEntries (done.length + fill.length)
            (done ++ fill.map SharedPut.writtenOf
              ++ List.replicate (m - fill.length) SharedEntry.zero)) := by
  induction fill with
  | nil =>
    intro done m _ _ _
    simp [SharedPutAll]
  | cons p rest ih =>
    intro done m hne hlen hm
    simp only [List.length_cons] at hlen hm
    have hp : p.2.1 ≠ [] := hne p (List.mem_cons_self _ _)
    have hrest : ∀ q ∈ rest, q.2.1 ≠ [] := fun q hq => hne q (List.mem_cons_of_mem _ hq)
    obtain ⟨m1, rfl⟩ : ∃ m1, m = m1 + 1 := ⟨m - 1, by omega⟩
    have h1 : (done.length + 1) % 4294967296 = done.length + 1 := by omega
    have h2 : done.length % kSharedCapacity = done.length := by
      unfold kSharedCapacity
      omega
    have hstep : SharedPut (some (SharedTable.withEntries done.length
          (done ++ List.replicate (m1 + 1) SharedEntry.zero))) p.1 p.2.1 p.2.2
        = some (SharedTable.withEntries (done ++ [SharedPut.writtenOf p]).length
            ((done ++ [SharedPut.writtenOf p]) ++ List.replicate m1 SharedEntry.zero)) := by
      rw [SharedPut_withEntries _ _ _ hp, h1, h2, List.replicate_succ,
        set_length_append, List.length_append, List.length_singleton, List.append_assoc]
      rfl
    have hfold : SharedPutAll (some (SharedTable.withEntries done.length
          (done ++ List.replicate (m1 + 1) SharedEntry.zero))) (p :: rest)
        = SharedPutAll (SharedPut (some (SharedTable.withEntries done.length
          (done ++ List.replicate (m1 + 1) SharedEntry.zero))) p.1 p.2.1 p.2.2) rest := rfl
    have hc : (done ++ [SharedPut.writtenOf p]).length + rest.length
        = done.length + (rest.length + 1) := by
      rw [List.length_append, List.length_singleton]
      omega
    have hl : (done ++ [SharedPut.writtenOf p]) ++ rest.map SharedPut.writtenOf
          ++ List.replicate (m1 - rest.length) SharedEntry.zero
        = done ++ (p :: rest).map SharedPut.writtenOf
          ++ List.replicate (m1 + 1 - (rest.length + 1)) SharedEntry.zero := by
      simp only [List.map_cons, List.append_assoc, List.singleton_append,
        Nat.add_sub_add_right]
    rw [hfold, hstep, ih (done ++ [SharedPut.writtenOf p]) m1 hrest
      (by rw [List.length_append, List.length_singleton]; omega) (by omega), hc, hl,
      List.length_cons]

theorem SharedPutAll_fresh (fill : List (Nat × Str × Nat))
    (hne : ∀ p ∈ fill, p.2.1 ≠ []) (hlen : fill.length ≤ 4096) :
    SharedPutAll (some SharedTable.fresh) fill
      = some (SharedTable.withEntries fill.length
          (fill.map SharedPut.writtenOf
            ++ List.replicate (4096 - fill.length) SharedEntry.zero)) := by
  have h := SharedPutAll_append_zeros fill [] 4096 hne
    (by rw [List.length_nil, Nat.zero_add]; exact hlen) hlen
  have hf : some SharedTable.fresh
      = some (SharedTable.withEntries ([] : List SharedEntry).length
          ([] ++ List.replicate 4096 SharedEntry.zero)) := rfl
  rw [hf, h, List.length_nil, Nat.zero_add, List.nil_append]

theorem foldl_step_keeps_tick (ip T : Nat) (l : List SharedEntry) :
    ∀ acc : Option SharedEntry × Nat, acc.2 = T → (∀ e ∈ l, e.tick ≤ T) →
      (l.foldl (SharedGet.step ip) acc).2 = T := by
  induction l with
  | nil =>
    intro acc h _
    exact h
  | cons e rest ih =>
    intro acc h hle
    rw [List.foldl_cons]
    apply ih
    · unfold SharedGet.step
      have he := hle e (List.mem_cons_self _ _)
      split
      · split
        · show e.tick = T
          omega
        · exact h
      · exact h
    · exact fun x hx => hle x (List.mem_cons_of_mem _ hx)

/-- Two puts for the same address at the same tick, the first in the last slot
of the ring and the second in slot 0 after the wrap: `SharedGet` returns the
domain of the first, whatever the 4095 puts before them were. -/
theorem SharedGet_tie_general (fill : List (Nat × Str × Nat)) (a T : Nat) (old new : Str)
    (hlen : fill.length = 4095) (hne : ∀ p ∈ fill, p.2.1 ≠ [])
    (hticks : ∀ p ∈ fill, p.2.2 ≤ T)
    (ho : old ≠ []) (hol : old.length ≤ kSharedDomainMax) (hon : NUL ∉ old)
    (hn : new ≠ []) (hnl : new.length ≤ kSharedDomainMax) (hnn : NUL ∉ new) :
    ∃ t, SharedPutAll (some SharedTable.fresh) (fill ++ [(a, old, T), (a, new, T)]) = some t ∧
      t.entries[0]? = some (SharedPut.written a new T) ∧
      SharedGet (some t) a = old := by
  obtain ⟨p0, rest, rfl⟩ : ∃ p0 rest, fill = p0 :: rest := by
    cases fill with
    | nil => simp at hlen
    | cons p0 rest => exact ⟨p0, rest, rfl⟩
  have hrl : rest.length = 4094 := by
    simp only [List.length_cons] at hlen
    omega
  have htable : SharedPutAll (some SharedTable.fresh)
        ((p0 :: rest) ++ [(a, old, T), (a, new, T)])
      = some (SharedTable.withEntries 4097
          (SharedPut.written a new T ::
            (rest.map SharedPut.writtenOf ++ [SharedPut.written a old T]))) := by
    have h := SharedPutAll_fresh (p0 :: rest) hne (by omega)
    have hsplit : SharedPutAll (some SharedTable.fresh)
          ((p0 :: rest) ++ [(a, old, T), (a, new, T)])
        = SharedPut (SharedPut (SharedPutAll (some SharedTable.fresh) (p0 :: rest)) a old T)
            a new T := by
      unfold SharedPutAll
      rw [List.foldl_append]
      rfl
    have e1 : ((p0 :: rest).map SharedPut.writtenOf
          ++ List.replicate (4096 - (p0 :: rest).length) SharedEntry.zero).set
            ((p0 :: rest).length % kSharedCapacity) (SharedPut.written a old T)
        = (p0 :: rest).map SharedPut.writtenOf ++ [SharedPut.written a old T] := by
      rw [hlen]
      exact set_append_at _ _ _ _ _ (by rw [List.length_map, hlen]; decide)
    have e2 : ((p0 :: rest).map SharedPut.writtenOf ++ [SharedPut.written a old T]).set
          (((p0 :: rest).length + 1) % 4294967296 % kSharedCapacity)
          (SharedPut.written a new T)
        = SharedPut.written a new T ::
            (rest.map SharedPut.writtenOf ++ [SharedPut.written a old T]) := by
      have : ((p0 :: rest).length + 1) % 4294967296 % kSharedCapacity = 0 := by
        rw [hlen]
        decide
      rw [this]
      rfl
    have e3 : (((p0 :: rest).length + 1) % 4294967296 + 1) % 4294967296 = 4097 := by
      rw [hlen]
    rw [hsplit, h, SharedPut_withEntries _ _ _ ho, e1, SharedPut_withEntries _ _ _ hn, e2, e3]
  refine ⟨_, htable, List.getElem?_cons_zero, ?_⟩
  rw [SharedGet_some]
  · simp only [SharedTable.withEntries, List.foldl_cons, List.foldl_append, List.foldl_nil]
    have hnew : SharedGet.step a (none, 0) (SharedPut.written a new T)
        = (some (SharedPut.written a new T), T) := by
      unfold SharedGet.step
      rw [if_pos ⟨rfl, written_head hn hnl hnn a T⟩, if_pos (Nat.zero_le _)]
      rfl
    rw [hnew]
    have hkeep := foldl_step_keeps_tick a T (rest.map SharedPut.writtenOf)
      (some (SharedPut.written a new T), T) rfl (by
        intro e he
        obtain ⟨p, hp, rfl⟩ := List.mem_map.mp he
        exact hticks p (List.mem_cons_of_mem _ hp))
    have hold : ∀ acc : Option SharedEntry × Nat, acc.2 = T →
        SharedGet.step a acc (SharedPut.written a old T)
          = (some (SharedPut.written a old T), T) := by
      intro acc hacc
      unfold SharedGet.step
      rw [if_pos ⟨rfl, written_head ho hol hon a T⟩, hacc]
      exact if_pos (Nat.le_refl T)
    rw [hold _ hkeep]
    exact written_c_str ho hol hon a T
  · show (SharedPut.written a new T ::
        (rest.map SharedPut.writtenOf ++ [SharedPut.written a old T])).length = 4096
    rw [List.length_cons, List.length_append, List.length_map, hrl]
    rfl

/-- C10 (failing input): on a fresh directory, a process allocates 4095
domains at tick 0 (slots 0 to 4094); a second process allocates `old.com` at
tick 1 and is given 198.18.0.1, written to slot 4095; a third process
allocates `new.com` at the same tick 1 and is given 198.18.0.1 too, written to
slot 0 after the ring wraps.  The ticks are non-decreasing, the last put for
198.18.0.1 is `new.com` and its entry is still in slot 0, yet `SharedGet`
returns `old.com`: among entries of equal tick the scan keeps the one with the
highest index. -/
theorem SharedGet_tie_across_wrap :
    ∃ t, SharedPutAll (some SharedTable.fresh)
        (exampleFill ++ [(3323068417, "old.com".toList, 1), (3323068417, "new.com".toList, 1)])
        = some t ∧
      t.entries[0]? = some (SharedPut.written 3323068417 "new.com".toList 1) ∧
      SharedGet (some t) 3323068417 = "old.com".toList := by
  have hfill : ∀ p ∈ exampleFill, p.2.1 ≠ [] ∧ p.2.2 ≤ 1 := by
    intro p hp
    unfold exampleFill at hp
    obtain ⟨i, _, rfl⟩ := List.mem_map.mp hp
    exact ⟨List.cons_ne_nil _ _, Nat.zero_le 1⟩
  exact SharedGet_tie_general exampleFill 3323068417 1 "old.com".toList "new.com".toList
    (by unfold exampleFill; rw [List.length_map, List.length_range])
    (fun p hp => (hfill p hp).1) (fun p hp => (hfill p hp).2)
    (by decide) (by decide) (by decide) (by decide) (by decide) (by decide)

/-! ## The address space -/

theorem and_high_mask (a k : Nat) (ha : a < 2 ^ 32) (hk : k ≤ 32) :
    a &&& (2 ^ 32 - 2 ^ k) = 2 ^ k * (a >>> k) := by
  have hM : 2 ^ 32 - 2 ^ k = 2 ^ k * (2 ^ (32 - k) - 1) := by
    have : 2 ^ 32 = 2 ^ k * 2 ^ (32 - k) := by
      rw [← Nat.pow_add]
      congr 1
      omega
    rw [Nat.mul_sub, Nat.mul_one, ← this]
  apply Nat.eq_of_testBit_eq
  intro i
  rw [hM, Nat.testBit_and, Nat.testBit_mul_pow_two, Nat.testBit_mul_pow_two,
    Nat.testBit_two_pow_sub_one, Nat.testBit_shiftRight]
  by_cases h1 : i ≥ k
  · have e : k + (i - k) = i := by omega
    rw [e]
    by_cases h2 : i < 32
    · have : i - k < 32 - k := by omega
      simp [h1, this]
    · have hlt : a < 2 ^ i := lt_of_lt_of_le ha (Nat.pow_le_pow_right (by decide) (by omega))
      simp [Nat.testBit_lt_two_pow hlt]
  · simp [h1]

theorem maskOfBits_table : ∀ bits : Fin 33,
    (bits.val = 0 → maskOfBits bits.val = 0 ∧ (not32 (maskOfBits bits.val) + 1) % 4294967296 = 0) ∧
    (bits.val ≠ 0 → maskOfBits bits.val = 2 ^ 32 - 2 ^ (32 - bits.val) ∧
      (not32 (maskOfBits bits.val) + 1) % 4294967296 = 2 ^ (32 - bits.val)) := by
  decide

/-- The address space of an initialised allocator whose size is not 0 (prefix
length 1 to 32): the size is a power of two, the base address is a multiple of
it, the mask is its complement, and the range ends within 32 bits. -/
theorem addressSpace_of_init_pos {inet_pton : Str → Option Nat} {configCidr : Str}
    {s : FakeIP}
    (h : EnsureInitialized inet_pton configCidr FakeIP.construct = Except.ok s)
    (hsize : 0 < s.m_networkSize) :
    ∃ k q : Nat, k ≤ 31 ∧ s.m_networkSize = 2 ^ k ∧ s.m_baseIp = 2 ^ k * q ∧
      s.m_mask = 2 ^ 32 - 2 ^ k ∧ s.m_baseIp + 2 ^ k ≤ 2 ^ 32 := by
  obtain ⟨_, _, _, h4⟩ := EnsureInitialized_cases h
  rcases h4 with ⟨bits, addr, hb, ha, hm, hbase, hsz⟩ | ⟨_, _, hz⟩
  · have tbl := maskOfBits_table ⟨bits, by omega⟩
    simp only at tbl
    by_cases hb0 : bits = 0
    · have := (tbl.1 hb0).2
      rw [← hm, ← hsz] at this
      omega
    · obtain ⟨t1, t2⟩ := tbl.2 hb0
      rw [← hm] at t1 t2
      rw [← hsz] at t2
      refine ⟨32 - bits, addr >>> (32 - bits), by omega, t2, ?_, t1, ?_⟩
      · rw [hbase, t1]
        exact and_high_mask addr (32 - bits) ha (by omega)
      · rw [hbase, t1, and_high_mask addr (32 - bits) ha (by omega)]
        have hq : addr >>> (32 - bits) < 2 ^ bits := by
          rw [Nat.shiftRight_eq_div_pow]
          apply Nat.div_lt_of_lt_mul
          rw [← Nat.pow_add]
          have : 32 - bits + bits = 32 := by omega
          rw [this]
          exact ha
        have : 2 ^ 32 = 2 ^ (32 - bits) * 2 ^ bits := by
          rw [← Nat.pow_add]
          congr 1
          omega
        rw [this]
        calc 2 ^ (32 - bits) * (addr >>> (32 - bits)) + 2 ^ (32 - bits)
            = 2 ^ (32 - bits) * (addr >>> (32 - bits) + 1) := by ring
          _ ≤ 2 ^ (32 - bits) * 2 ^ bits := Nat.mul_le_mul_left _ hq
  · omega

/-- For every prefix length from 1 to 32 (that is, whenever the stored size is
not 0) `IsFakeIP` holds exactly on the interval `[base, base + size)`. -/
theorem IsFakeIP_iff_interval {inet_pton : Str → Option Nat} {configCidr : Str}
    {s : FakeIP}
    (h : EnsureInitialized inet_pton configCidr FakeIP.construct = Except.ok s)
    (hsize : 0 < s.m_networkSize) (a : Nat) (ha : a < 4294967296) :
    IsFakeIP s (htonl a) = true ↔
      (s.m_baseIp ≤ a ∧ a < s.m_baseIp + s.m_networkSize) := by
  obtain ⟨k, q, hk, hsz, hb, hm, _⟩ := addressSpace_of_init_pos h hsize
  have hp : 0 < 2 ^ k := Nat.two_pow_pos k
  unfold IsFakeIP
  rw [decide_eq_true_iff, ntohl_htonl a ha, hm, and_high_mask a k ha (by omega), hb, hsz,
    Nat.shiftRight_eq_div_pow]
  constructor
  · intro e
    have hq : a / 2 ^ k = q := Nat.eq_of_mul_eq_mul_left hp e
    have h1 := Nat.div_add_mod a (2 ^ k)
    have h2 := Nat.mod_lt a hp
    rw [hq] at h1
    omega
  · intro ⟨h1, h2⟩
    have hq : a / 2 ^ k = q := by
      apply Nat.le_antisymm
      · apply Nat.le_of_lt_succ
        rw [Nat.div_lt_iff_lt_mul hp]
        calc a < 2 ^ k * q + 2 ^ k := h2
          _ = (q + 1) * 2 ^ k := by ring
      · rw [Nat.le_div_iff_mul_le hp]
        calc q * 2 ^ k = 2 ^ k * q := Nat.mul_comm _ _
          _ ≤ a := h1
    rw [hq]

/-- The address space of an initialised allocator whose size exceeds 2: the
size is a power of two between 4 and `2 ^ 31`, the base address is a multiple
of it, the mask is its complement, and the range ends within 32 bits. -/
theorem addressSpace_of_init {inet_pton : Str → Option Nat} {configCidr : Str}
    {s : FakeIP}
    (h : EnsureInitialized inet_pton configCidr FakeIP.construct = Except.ok s)
    (hsize : 2 < s.m_networkSize) :
    ∃ k q : Nat, 2 ≤ k ∧ k ≤ 31 ∧ s.m_networkSize = 2 ^ k ∧ s.m_baseIp = 2 ^ k * q ∧
      s.m_mask = 2 ^ 32 - 2 ^ k ∧ s.m_baseIp + 2 ^ k ≤ 2 ^ 32 := by
  obtain ⟨k, q, hk, hsz, hb, hm, hend⟩ := addressSpace_of_init_pos h (by omega)
  refine ⟨k, q, ?_, hk, hsz, hb, hm, hend⟩
  by_contra hc
  have hk01 : k = 0 ∨ k = 1 := by omega
  rcases hk01 with e | e <;> rw [e] at hsz <;> omega

theorem or_offset {k q : Nat} (off : Nat) (h : off < 2 ^ k) :
    2 ^ k * q ||| off = 2 ^ k * q + off :=
  (Nat.mul_add_lt_is_or h q).symm

theorem Alloc_frame (s : FakeIP) (shared : Option SharedTable) (now : Nat) (domain : Str) :
    (Alloc s shared now domain).self.m_baseIp = s.m_baseIp ∧
    (Alloc s shared now domain).self.m_mask = s.m_mask ∧
    (Alloc s shared now domain).self.m_networkSize = s.m_networkSize := by
  unfold Alloc
  split
  · exact ⟨rfl, rfl, rfl⟩
  · split
    · exact ⟨rfl, rfl, rfl⟩
    · exact ⟨rfl, rfl, rfl⟩

theorem Filled_step {k q : Nat} {s : FakeIP} {pre : List Str} (hk2 : 2 ≤ k) (hk : k ≤ 31)
    (hsize : s.m_networkSize = 2 ^ k) (hbase : s.m_baseIp = 2 ^ k * q)
    (hF : Filled pre s) (hlt : pre.length < s.m_networkSize - 2) (domain : Str)
    (hnew : domain ∉ pre) (shared : Option SharedTable) (now : Nat) :
    Filled (pre ++ [domain]) (Alloc s shared now domain).self ∧
    (Alloc s shared now domain).ret = htonl (s.m_baseIp + pre.length + 1) := by
  obtain ⟨_, hcur, h1, h2, h3⟩ := hF
  have hpow : (2 : Nat) ^ k ≤ 2 ^ 31 := Nat.pow_le_pow_right (by decide) hk
  have hpow4 : (2 : Nat) ^ 2 ≤ 2 ^ k := Nat.pow_le_pow_right (by decide) hk2
  have hfind : UMap.find domain s.m_domainToIp = none := by
    cases hf : UMap.find domain s.m_domainToIp with
    | none => rfl
    | some ip => exact absurd (h3 domain ip hf) hnew
  have hc : s.m_cursor = pre.length + 1 := by
    rw [hcur, if_neg (by omega)]
  have hor : s.m_baseIp ||| s.m_cursor = s.m_baseIp + pre.length + 1 := by
    rw [hbase, hc, or_offset _ (by omega)]
    omega
  have hfree : UMap.find (s.m_baseIp + pre.length + 1) s.m_ipToDomain = none := by
    cases hf : UMap.find (s.m_baseIp + pre.length + 1) s.m_ipToDomain with
    | none => rfl
    | some d =>
      obtain ⟨i, hi, hip⟩ := h2 _ d hf
      have : i < pre.length := (List.getElem?_eq_some.mp hi).1
      omega
  have hs : ¬ s.m_networkSize ≤ 2 := by omega
  have hAlloc : Alloc s shared now domain =
      { ret := htonl (s.m_baseIp + pre.length + 1)
        self := { s with
          m_cursor := (if pre.length + 1 = s.m_networkSize - 2 then 1 else pre.length + 2)
          m_ipToDomain := UMap.assign (s.m_baseIp + pre.length + 1) domain s.m_ipToDomain
          m_domainToIp := UMap.assign domain (s.m_baseIp + pre.length + 1) s.m_domainToIp }
        shared := SharedPut shared (s.m_baseIp + pre.length + 1) domain now } := by
    unfold Alloc
    rw [hfind]
    simp only
    rw [if_neg hs, hor, hfree]
    simp only
    have hcur2 : (if (s.m_cursor + 1) % 4294967296 ≥ (s.m_networkSize + 4294967295) % 4294967296
        then 1 else (s.m_cursor + 1) % 4294967296)
        = (if pre.length + 1 = s.m_networkSize - 2 then 1 else pre.length + 2) := by
      rw [hc]
      split <;> split <;> omega
    rw [hcur2]
  rw [hAlloc]
  refine ⟨⟨?_, ?_, ?_, ?_, ?_⟩, rfl⟩
  · simp only [List.length_append, List.length_singleton]
    omega
  · simp only [List.length_append, List.length_singleton]
  · intro i d hi
    simp only
    by_cases hil : i < pre.length
    · rw [List.getElem?_append_left hil] at hi
      obtain ⟨ha, hb⟩ := h1 i d hi
      have hne : d ≠ domain := by
        intro e
        exact hnew (e ▸ List.getElem?_mem hi)
      rw [UMap.find_assign_ne (by omega), UMap.find_assign_ne hne]
      exact ⟨ha, hb⟩
    · have hi2 := hi
      rw [List.getElem?_append_right (by omega)] at hi2
      have hi0 : i - pre.length = 0 := by
        by_contra hc0
        have := (List.getElem?_eq_some.mp hi2).1
        simp at this
        omega
      rw [hi0] at hi2
      simp only [List.getElem?_cons_zero, Option.some.injEq] at hi2
      have hie : i = pre.length := by omega
      subst hi2
      rw [hie]
      exact ⟨UMap.find_assign_self _ _ _, UMap.find_assign_self _ _ _⟩
  · intro ip d hf
    simp only at hf ⊢
    by_cases hip : ip = s.m_baseIp + pre.length + 1
    · subst hip
      rw [UMap.find_assign_self] at hf
      simp only [Option.some.injEq] at hf
      subst hf
      exact ⟨pre.length, by simp, rfl⟩
    · rw [UMap.find_assign_ne hip] at hf
      obtain ⟨i, hi, hipi⟩ := h2 ip d hf
      have hil : i < pre.length := (List.getElem?_eq_some.mp hi).1
      exact ⟨i, by rw [List.getElem?_append_left hil]; exact hi, hipi⟩
  · intro d ip hf
    simp only at hf
    by_cases hd : d = domain
    · subst hd
      simp
    · rw [UMap.find_assign_ne hd] at hf
      exact List.mem_append_left _ (h3 d ip hf)


theorem Filled_run {k q : Nat} (hk2 : 2 ≤ k) (hk : k ≤ 31) :
    ∀ (calls : List (Nat × Str)) (pre : List Str) (s : FakeIP)
      (shared : Option SharedTable),
      s.m_networkSize = 2 ^ k → s.m_baseIp = 2 ^ k * q → Filled pre s →
      (pre ++ calls.map Prod.snd).Nodup →
      pre.length + calls.length ≤ s.m_networkSize - 2 →
      Filled (pre ++ calls.map Prod.snd) (AllocAll s shared calls).2.1 ∧
      (AllocAll s shared calls).2.1.m_baseIp = s.m_baseIp ∧
      (AllocAll s shared calls).2.1.m_networkSize = s.m_networkSize ∧
      (AllocAll s shared calls).1
        = (List.range calls.length).map (fun i => htonl (s.m_baseIp + pre.length + i + 1)) := by
  intro calls
  induction calls with
  | nil =>
    intro pre s shared _ _ hF _ _
    refine ⟨?_, rfl, rfl, rfl⟩
    simpa [AllocAll] using hF
  | cons c rest ih =>
    intro pre s shared hsize hbase hF hnodup hlen
    obtain ⟨now, d⟩ := c
    simp only [List.map_cons, List.length_cons] at hnodup hlen
    have hd : d ∉ pre := by
      intro hmem
      have := (List.nodup_append.mp hnodup).2.2
      exact this hmem (List.mem_cons_self _ _)
    obtain ⟨hF1, hret⟩ := Filled_step hk2 hk hsize hbase hF (by omega) d hd shared now
    obtain ⟨fb, _, fs⟩ := Alloc_frame s shared now d
    have hnodup1 : ((pre ++ [d]) ++ rest.map Prod.snd).Nodup := by
      rw [List.append_assoc]
      exact hnodup
    have hlen1 : (pre ++ [d]).length + rest.length
        ≤ (Alloc s shared now d).self.m_networkSize - 2 := by
      rw [fs, List.length_append, List.length_singleton]
      omega
    obtain ⟨g1, g2, g3, g4⟩ := ih (pre ++ [d]) (Alloc s shared now d).self
      (Alloc s shared now d).shared (fs.trans hsize) (fb.trans hbase) hF1 hnodup1 hlen1
    simp only [AllocAll, List.map_cons, List.length_cons]
    refine ⟨?_, g2.trans fb, g3.trans fs, ?_⟩
    · rw [List.append_assoc] at g1
      exact g1
    · rw [g4, hret, List.range_succ_eq_map, List.map_cons, List.map_map, fb]
      have e : ∀ i, (fun i => htonl (s.m_baseIp + (pre ++ [d]).length + i + 1)) i
          = ((fun i => htonl (s.m_baseIp + pre.length + i + 1)) ∘ Nat.succ) i := by
        intro i
        simp only [Function.comp, List.length_append, List.length_singleton,
          Nat.succ_eq_add_one]
        rw [show s.m_baseIp + (pre.length + 1) + i + 1 = s.m_baseIp + pre.length + (i + 1) + 1
          by omega]
      rw [funext e]

theorem Filled_construct {inet_pton : Str → Option Nat} {configCidr : Str} {s : FakeIP}
    (h : EnsureInitialized inet_pton configCidr FakeIP.construct = Except.ok s)
    (hsize : 2 < s.m_networkSize) : Filled [] s := by
  obtain ⟨h1, h2, h3, _⟩ := EnsureInitialized_cases h
  refine ⟨by simp, ?_, ?_, ?_, ?_⟩
  · rw [h3, if_neg]
    · rfl
    · simp only [List.length_nil]
      omega
  · intro i d hi
    simp at hi
  · intro ip d hf
    rw [h1] at hf
    simp [UMap.find] at hf
  · intro d ip hf
    rw [h2] at hf
    simp [UMap.find] at hf

theorem htonl_injective {x y : Nat} (hx : x < 4294967296) (hy : y < 4294967296)
    (h : htonl x = htonl y) : x = y := by
  rw [← htonl_htonl x hx, ← htonl_htonl y hy, h]


/-- C3: eviction.  On a constructed and initialised allocator whose address
space has size `n > 2`, after `Alloc` calls for `n - 2` pairwise distinct
domains and then for one further distinct domain `e`: the call for `e` returns
the address `a1` that was returned for the first domain `d1`; `GetDomain a1`
returns `e`; no address of the local table resolves to `d1` and `d1` has no
record in `m_domainToIp`; and a later `Alloc d1` assigns the next offset
(base + 2), which differs from the evicted address `a1`. -/
theorem eviction_reassigns_oldest (inet_pton : Str → Option Nat) (configCidr : Str)
    (s0 : FakeIP)
    (hinit : EnsureInitialized inet_pton configCidr FakeIP.construct = Except.ok s0)
    (hsize : 2 < s0.m_networkSize) (shared : Option SharedTable)
    (calls : List (Nat × Str)) (now : Nat) (e : Str)
    (hlen : calls.length = s0.m_networkSize - 2)
    (hnodup : (calls.map Prod.snd ++ [e]).Nodup) :
    ∃ d1 a1, (calls.map Prod.snd)[0]? = some d1 ∧
      (AllocAll s0 shared calls).1[0]? = some a1 ∧
      (allocAfter s0 shared calls now e).ret = a1 ∧
      (∀ sh, (GetDomain (allocAfter s0 shared calls now e).self sh a1).ret = e) ∧
      (∀ ip, UMap.find ip (allocAfter s0 shared calls now e).self.m_ipToDomain ≠ some d1) ∧
      UMap.find d1 (allocAfter s0 shared calls now e).self.m_domainToIp = none ∧
      (∀ sh now2,
        (Alloc (allocAfter s0 shared calls now e).self sh now2 d1).ret
          = htonl (s0.m_baseIp + 2) ∧
        (Alloc (allocAfter s0 shared calls now e).self sh now2 d1).ret ≠ a1) := by
  obtain ⟨k, q, hk2, hk, hsz, hb, _, hend⟩ := addressSpace_of_init hinit hsize
  have hpow4 : (2 : Nat) ^ 2 ≤ 2 ^ k := Nat.pow_le_pow_right (by decide) hk2
  have hnd := List.nodup_append.mp hnodup
  obtain ⟨hF, hbr, hsr, hrets⟩ := @Filled_run k q hk2 hk calls [] s0 shared hsz hb
    (Filled_construct hinit hsize) (by simpa using hnd.1) (by simp; omega)
  simp only [List.nil_append, List.length_nil, Nat.add_zero] at hF hrets
  obtain ⟨_, hcur, h1, h2, h3⟩ := hF
  rw [hbr] at h1 h2
  have hdl : (calls.map Prod.snd).length = s0.m_networkSize - 2 := by
    rw [List.length_map, hlen]
  have hpos : 0 < (calls.map Prod.snd).length := by omega
  have hd1 : (calls.map Prod.snd)[0]? = some ((calls.map Prod.snd)[0]) :=
    List.getElem?_eq_getElem hpos
  generalize (calls.map Prod.snd)[0] = d1 at hd1
  obtain ⟨hi1, hj1⟩ := h1 0 d1 hd1
  have he_notin : e ∉ calls.map Prod.snd := fun hm => hnd.2.2 hm (List.mem_singleton_self e)
  have hed : d1 ≠ e := fun c => he_notin (c ▸ List.getElem?_mem hd1)
  have hfind : UMap.find e (AllocAll s0 shared calls).2.1.m_domainToIp = none := by
    cases hf : UMap.find e (AllocAll s0 shared calls).2.1.m_domainToIp with
    | none => rfl
    | some ip => exact absurd (h3 e ip hf) he_notin
  have hc : (AllocAll s0 shared calls).2.1.m_cursor = 1 := by
    rw [hcur, if_pos (by rw [hsr]; exact hdl)]
  have hor : (AllocAll s0 shared calls).2.1.m_baseIp ||| (AllocAll s0 shared calls).2.1.m_cursor
      = s0.m_baseIp + 0 + 1 := by
    rw [hbr, hc, hb, or_offset _ (by omega)]
  have hs : ¬ (AllocAll s0 shared calls).2.1.m_networkSize ≤ 2 := by
    rw [hsr]
    omega
  have hAlloc : allocAfter s0 shared calls now e =
      { ret := htonl (s0.m_baseIp + 0 + 1)
        self := { (AllocAll s0 shared calls).2.1 with
          m_cursor := 2
          m_ipToDomain := UMap.assign (s0.m_baseIp + 0 + 1) e
            (AllocAll s0 shared calls).2.1.m_ipToDomain
          m_domainToIp := UMap.assign e (s0.m_baseIp + 0 + 1)
            (UMap.erase d1 (AllocAll s0 shared calls).2.1.m_domainToIp) }
        shared := SharedPut (AllocAll s0 shared calls).2.2 (s0.m_baseIp + 0 + 1) e now } := by
    unfold allocAfter Alloc
    rw [hfind]
    simp only
    rw [if_neg hs, hor, hi1]
    simp only
    have hcur2 : (if ((AllocAll s0 shared calls).2.1.m_cursor + 1) % 4294967296
          ≥ ((AllocAll s0 shared calls).2.1.m_networkSize + 4294967295) % 4294967296
        then 1 else ((AllocAll s0 shared calls).2.1.m_cursor + 1) % 4294967296) = 2 := by
      rw [hc, hsr]
      split <;> omega
    rw [hcur2]
  have hlt1 : s0.m_baseIp + 0 + 1 < 4294967296 := by omega
  have hlt2 : s0.m_baseIp + 2 < 4294967296 := by omega
  refine ⟨d1, htonl (s0.m_baseIp + 0 + 1), hd1, ?_, ?_, ?_, ?_, ?_, ?_⟩
  · rw [hrets]
    have hcl : 0 < calls.length := by omega
    obtain ⟨m, hm⟩ : ∃ m, calls.length = m + 1 := ⟨calls.length - 1, by omega⟩
    rw [hm, List.range_succ_eq_map, List.map_cons, List.getElem?_cons_zero]
  · rw [hAlloc]
  · intro sh
    rw [hAlloc]
    unfold GetDomain
    simp only [ntohl_htonl _ hlt1, UMap.find_assign_self]
  · intro ip
    rw [hAlloc]
    simp only
    by_cases hip : ip = s0.m_baseIp + 0 + 1
    · rw [hip, UMap.find_assign_self]
      intro c
      exact hed (Option.some.inj c).symm
    · rw [UMap.find_assign_ne hip]
      intro c
      obtain ⟨i, hi, hipi⟩ := h2 ip d1 c
      obtain ⟨hil, hie⟩ := List.getElem?_eq_some.mp hi
      obtain ⟨_, h0e⟩ := List.getElem?_eq_some.mp hd1
      have : i = 0 := (List.Nodup.getElem_inj_iff hnd.1).mp (hie.trans h0e.symm)
      rw [this] at hipi
      exact hip hipi
  · rw [hAlloc]
    simp only
    rw [UMap.find_assign_ne hed, UMap.find_erase_self]
  · intro sh now2
    have hfd : UMap.find d1 (allocAfter s0 shared calls now e).self.m_domainToIp = none := by
      rw [hAlloc]
      simp only
      rw [UMap.find_assign_ne hed, UMap.find_erase_self]
    have hsz2 : 2 < (allocAfter s0 shared calls now e).self.m_networkSize := by
      rw [hAlloc]
      simp only
      omega
    obtain ⟨hret, _, _, _⟩ := Alloc_assigned hfd hsz2 sh now2
    have hor2 : (allocAfter s0 shared calls now e).self.m_baseIp
        ||| (allocAfter s0 shared calls now e).self.m_cursor = s0.m_baseIp + 2 := by
      rw [hAlloc]
      simp only
      rw [hbr, hb, or_offset _ (by omega)]
    rw [hret, hor2]
    refine ⟨rfl, ?_⟩
    intro c
    have := htonl_injective hlt2 hlt1 c
    omega

/-! ## Concrete runs, failing inputs and the one-to-one property -/

theorem example30_init :
    EnsureInitialized inet_pton_ref "10.1.2.3/30".toList FakeIP.construct
      = Except.ok example30 := by
  decide

theorem example31_init :
    EnsureInitialized inet_pton_ref "10.1.2.3/31".toList FakeIP.construct
      = Except.ok example31 := by
  decide

theorem GetDomain_Alloc_roundtrip_witness :
    Reachable inet_pton_ref "10.1.2.3/30".toList (Alloc example30 none 7 "a.com".toList).self ∧
    2 < (Alloc example30 none 7 "a.com".toList).self.m_networkSize ∧
    "b.org".toList ≠ [] ∧
    (GetDomain (Alloc (Alloc example30 none 7 "a.com".toList).self none 8 "b.org".toList).self
      none (Alloc (Alloc example30 none 7 "a.com".toList).self none 8 "b.org".toList).ret).ret
      = "b.org".toList :=
  ⟨Reachable.alloc _ _ _ _ (Reachable.init _ example30_init), by decide, by decide,
    GetDomain_Alloc_roundtrip inet_pton_ref "10.1.2.3/30".toList _
      (Reachable.alloc _ _ _ _ (Reachable.init _ example30_init)) (by decide) _ (by decide)
      none 8 none⟩

theorem Alloc_degenerate_witness :
    example31.m_networkSize ≤ 2 ∧ UMap.find "a.com".toList example31.m_domainToIp = none ∧
    (Alloc example31 none 7 "a.com".toList).ret = 0 ∧
    (Alloc example31 none 7 "a.com".toList).self = example31 ∧
    (Alloc example31 none 7 "a.com".toList).shared = none :=
  ⟨by decide, by decide, Alloc_degenerate example31 none 7 "a.com".toList (by decide) (by decide)⟩

theorem SharedGet_SharedPut_fresh_witness :
    "a.com".toList ≠ [] ∧ "a.com".toList.length ≤ 255 ∧ NUL ∉ "a.com".toList ∧
    SharedGet (SharedPut (some SharedTable.fresh) 167838209 "a.com".toList 7) 167838209
      = "a.com".toList :=
  ⟨by decide, by decide, by decide,
    SharedGet_SharedPut_fresh 167838209 "a.com".toList 7 (by decide) (by decide) (by decide)⟩

theorem eviction_reassigns_oldest_witness :
    EnsureInitialized inet_pton_ref "10.1.2.3/30".toList FakeIP.construct = Except.ok example30 ∧
    2 < example30.m_networkSize ∧
    [(7, "a.com".toList), (8, "b.org".toList)].length = example30.m_networkSize - 2 ∧
    ([(7, "a.com".toList), (8, "b.org".toList)].map Prod.snd ++ ["c.net".toList]).Nodup ∧
    ∃ d1 a1, ([(7, "a.com".toList), (8, "b.org".toList)].map Prod.snd)[0]? = some d1 ∧
      (AllocAll example30 none [(7, "a.com".toList), (8, "b.org".toList)]).1[0]? = some a1 ∧
      (allocAfter example30 none [(7, "a.com".toList), (8, "b.org".toList)] 9
        "c.net".toList).ret = a1 ∧
      (∀ sh, (GetDomain (allocAfter example30 none [(7, "a.com".toList), (8, "b.org".toList)] 9
        "c.net".toList).self sh a1).ret = "c.net".toList) ∧
      (∀ ip, UMap.find ip (allocAfter example30 none [(7, "a.com".toList), (8, "b.org".toList)]
        9 "c.net".toList).self.m_ipToDomain ≠ some d1) ∧
      UMap.find d1 (allocAfter example30 none [(7, "a.com".toList), (8, "b.org".toList)] 9
        "c.net".toList).self.m_domainToIp = none ∧
      (∀ sh now2,
        (Alloc (allocAfter example30 none [(7, "a.com".toList), (8, "b.org".toList)] 9
          "c.net".toList).self sh now2 d1).ret = htonl (example30.m_baseIp + 2) ∧
        (Alloc (allocAfter example30 none [(7, "a.com".toList), (8, "b.org".toList)] 9
          "c.net".toList).self sh now2 d1).ret ≠ a1) :=
  ⟨example30_init, by decide, by decide, by decide,
    eviction_reassigns_oldest inet_pton_ref "10.1.2.3/30".toList example30 example30_init
      (by decide) none [(7, "a.com".toList), (8, "b.org".toList)] 9 "c.net".toList
      (by decide) (by decide)⟩

/-- C4 (failing input): the valid CIDR text `"0.0.0.0/0"` is accepted by
`ParseCidr` with mask 0, and the size `~mask + 1` computed in 32 bits wraps
to 0, which is not `2 ^ (32 - 0)`. -/
theorem networkSize_slash_zero :
    ∃ s, EnsureInitialized inet_pton_ref "0.0.0.0/0".toList FakeIP.construct = Except.ok s ∧
      s.m_mask = 0 ∧ s.m_networkSize = 0 ∧ s.m_networkSize ≠ 2 ^ (32 - 0) :=
  ⟨{ m_ipToDomain := [], m_domainToIp := [], m_baseIp := 0, m_mask := 0,
      m_networkSize := 0, m_cursor := 1 }, by decide, rfl, rfl, by decide⟩

/-- C5 (failing input): after initialisation from `"0.0.0.0/0"` the mask and
the base are 0 and the size has wrapped to 0, so `IsFakeIP` accepts the
address 1.2.3.4 (as it accepts every address) although the interval
`[baseAddress, baseAddress + size)` is empty. -/
theorem IsFakeIP_slash_zero :
    ∃ s, EnsureInitialized inet_pton_ref "0.0.0.0/0".toList FakeIP.construct = Except.ok s ∧
      IsFakeIP s (htonl 16909060) = true ∧
      ¬ (s.m_baseIp ≤ 16909060 ∧ 16909060 < s.m_baseIp + s.m_networkSize) :=
  ⟨{ m_ipToDomain := [], m_domainToIp := [], m_baseIp := 0, m_mask := 0,
      m_networkSize := 0, m_cursor := 1 }, by decide, by decide, by decide⟩

/-- C8 (failing input): for the configured text `"198.18.0.0/abc"` (prefix
length not a number) `std::stoi` throws `invalid_argument`, and for
`"198.18.0.0/99999999999"` (prefix length outside `int`) it throws
`out_of_range`; nothing catches the exception, so `EnsureInitialized` does not
complete and the address space is not set to the default network. -/
theorem EnsureInitialized_throws (inet_pton : Str → Option Nat) :
    EnsureInitialized inet_pton "198.18.0.0/abc".toList FakeIP.construct
      = Except.error StdException.invalid_argument ∧
    EnsureInitialized inet_pton "198.18.0.0/99999999999".toList FakeIP.construct
      = Except.error StdException.out_of_range :=
  ⟨rfl, rfl⟩

theorem exampleDefault_init :
    EnsureInitialized inet_pton_ref [] FakeIP.construct = Except.ok exampleDefault := by
  decide

theorem replicate_set_zero {α : Type} (n : Nat) (z a : α) :
    (List.replicate (n + 1) z).set 0 a = a :: List.replicate n z := by
  rw [List.replicate_succ, List.set_cons_zero]

theorem exampleAlloc_shared :
    exampleAlloc.shared = some (SharedTable.withEntries 3
      (SharedPut.written 3323068417 "a.com".toList 1 ::
        SharedPut.written 3323068418 "x.com".toList 2 ::
        SharedPut.written 3323068417 "x.com".toList 3 ::
        List.replicate 4093 SharedEntry.zero)) := by
  have h0 : exampleAlloc.shared
      = SharedPut (SharedPut (SharedPut (some (SharedTable.withEntries 0
          (List.replicate (4095 + 1) SharedEntry.zero)))
          3323068417 "a.com".toList 1) 3323068418 "x.com".toList 2)
          3323068417 "x.com".toList 3 := rfl
  rw [h0, SharedPut_withEntries _ _ _ (by decide), SharedPut_withEntries _ _ _ (by decide),
    SharedPut_withEntries _ _ _ (by decide)]
  have e0 : (0 : Nat) % kSharedCapacity = 0 := by decide
  have e1 : (0 + 1) % 4294967296 % kSharedCapacity = 1 := by decide
  have e2 : ((0 + 1) % 4294967296 + 1) % 4294967296 % kSharedCapacity = 2 := by decide
  have e3 : (((0 + 1) % 4294967296 + 1) % 4294967296 + 1) % 4294967296 = 3 := by decide
  rw [e0, e1, e2, e3, replicate_set_zero, show (4095 : Nat) = 4094 + 1 from rfl,
    List.set_cons_succ, replicate_set_zero, show (4094 : Nat) = 4093 + 1 from rfl,
    List.set_cons_succ, List.set_cons_succ, replicate_set_zero]

theorem GetDomain_backfill {s : FakeIP} {shared : Option SharedTable} {ipNetworkOrder : Nat}
    (hmiss : UMap.find (ntohl ipNetworkOrder) s.m_ipToDomain = none)
    (hfound : SharedGet shared (ntohl ipNetworkOrder) ≠ []) :
    GetDomain s shared ipNetworkOrder =
      { ret := SharedGet shared (ntohl ipNetworkOrder)
        self := { s with
          m_ipToDomain := UMap.assign (ntohl ipNetworkOrder)
            (SharedGet shared (ntohl ipNetworkOrder)) s.m_ipToDomain
          m_domainToIp := UMap.assign (SharedGet shared (ntohl ipNetworkOrder))
            (ntohl ipNetworkOrder) s.m_domainToIp } } := by
  unfold GetDomain
  simp only
  rw [hmiss]
  simp only
  rw [if_pos hfound]

theorem exampleAlloc_self : exampleAlloc.self =
    { exampleDefault with
      m_cursor := 2
      m_ipToDomain := [(3323068417, "x.com".toList)]
      m_domainToIp := [("x.com".toList, 3323068417)] } := rfl

theorem exampleGet : SharedGet exampleAlloc.shared 3323068418 = "x.com".toList := by
  rw [exampleAlloc_shared, SharedGet_some]
  · simp only [SharedTable.withEntries, List.foldl_cons]
    have s1 : SharedGet.step 3323068418 (none, 0) (SharedPut.written 3323068417 "a.com".toList 1)
        = (none, 0) := by
      unfold SharedGet.step
      rw [if_neg (fun c => absurd c.1 (by decide))]
    have s2 : SharedGet.step 3323068418 (none, 0) (SharedPut.written 3323068418 "x.com".toList 2)
        = (some (SharedPut.written 3323068418 "x.com".toList 2), 2) := by
      unfold SharedGet.step
      rw [if_pos ⟨rfl, written_head (by decide) (by decide) (by decide) _ _⟩]
      exact if_pos (Nat.zero_le 2)
    have s3 : SharedGet.step 3323068418
          (some (SharedPut.written 3323068418 "x.com".toList 2), 2)
          (SharedPut.written 3323068417 "x.com".toList 3)
        = (some (SharedPut.written 3323068418 "x.com".toList 2), 2) := by
      unfold SharedGet.step
      rw [if_neg (fun c => absurd c.1 (by decide))]
    rw [s1, s2, s3, foldl_step_zeros]
    exact written_c_str (by decide) (by decide) (by decide) _ _
  · show (_ :: _ :: _ :: List.replicate 4093 SharedEntry.zero).length = 4096
    simp only [List.length_cons, List.length_replicate]


theorem exampleResolve_eq : exampleResolve =
    { ret := "x.com".toList
      self := { exampleDefault with
        m_cursor := 2
        m_ipToDomain := [(3323068418, "x.com".toList), (3323068417, "x.com".toList)]
        m_domainToIp := [("x.com".toList, 3323068418)] } } := by
  have hn : ntohl (htonl 3323068418) = 3323068418 := by decide
  have hmiss : UMap.find (ntohl (htonl 3323068418)) exampleAlloc.self.m_ipToDomain = none := by
    rw [hn, exampleAlloc_self]
    decide
  have hget := exampleGet
  have hfound : SharedGet exampleAlloc.shared (ntohl (htonl 3323068418)) ≠ [] := by
    rw [hn, hget]
    decide
  unfold exampleResolve
  rw [GetDomain_backfill hmiss hfound, hn, hget, exampleAlloc_self]
  rfl

theorem exampleResolve_reachable : Reachable inet_pton_ref [] exampleResolve.self :=
  Reachable.getDomain _ _ _ (Reachable.alloc _ _ _ _ (Reachable.init _ exampleDefault_init))

/-- C6 (counterexample): a state reached by one `Alloc` and one `GetDomain`
that backfills from the directory, in which the two addresses 198.18.0.1 and
198.18.0.2 both resolve to `x.com`; the maps are not mutual inverses. -/
theorem backfill_breaks_one_to_one :
    Reachable inet_pton_ref [] exampleResolve.self ∧
    UMap.find 3323068417 exampleResolve.self.m_ipToDomain = some "x.com".toList ∧
    UMap.find 3323068418 exampleResolve.self.m_ipToDomain = some "x.com".toList ∧
    ¬ (DomainsMirrored exampleResolve.self ∧ AddressesMirrored exampleResolve.self) := by
  have h : exampleResolve.self = _ := congrArg GetDomainResult.self exampleResolve_eq
  have h1 : UMap.find 3323068417 exampleResolve.self.m_ipToDomain = some "x.com".toList := by
    rw [h]
    decide
  have h2 : UMap.find 3323068418 exampleResolve.self.m_ipToDomain = some "x.com".toList := by
    rw [h]
    decide
  have h3 : UMap.find "x.com".toList exampleResolve.self.m_domainToIp = some 3323068418 := by
    rw [h]
    decide
  refine ⟨exampleResolve_reachable, h1, h2, ?_⟩
  intro c
  have := c.2 3323068417 "x.com".toList h1
  rw [h3] at this
  exact absurd this (by decide)

theorem AddressesMirrored_Alloc {s : FakeIP} (shared : Option SharedTable) (now : Nat)
    (domain : Str) (h : AddressesMirrored s) :
    AddressesMirrored (Alloc s shared now domain).self := by
  unfold Alloc
  split
  · exact h
  · rename_i hnew
    split
    · exact h
    · intro ip d hf
      simp only at hf ⊢
      by_cases hip : ip = (s.m_baseIp ||| s.m_cursor)
      · subst hip
        rw [UMap.find_assign_self] at hf
        simp only [Option.some.injEq] at hf
        subst hf
        exact UMap.find_assign_self _ _ _
      · rw [UMap.find_assign_ne hip] at hf
        have hd := h ip d hf
        have hne : d ≠ domain := by
          intro e
          rw [e, hnew] at hd
          simp at hd
        rw [UMap.find_assign_ne hne]
        split
        · rename_i oldDomain hold
          have hdo : d ≠ oldDomain := by
            intro e
            have := h _ _ hold
            rw [← e, hd] at this
            simp only [Option.some.injEq] at this
            exact hip this
          rw [UMap.find_erase_ne hdo]
          exact hd
        · exact hd

theorem GetDomain_cases (s : FakeIP) (shared : Option SharedTable) (ipNetworkOrder : Nat) :
    (GetDomain s shared ipNetworkOrder).self = s ∨
    (UMap.find (ntohl ipNetworkOrder) s.m_ipToDomain = none ∧
      (GetDomain s shared ipNetworkOrder).ret = SharedGet shared (ntohl ipNetworkOrder) ∧
      (GetDomain s shared ipNetworkOrder).self = { s with
        m_ipToDomain := UMap.assign (ntohl ipNetworkOrder)
          (SharedGet shared (ntohl ipNetworkOrder)) s.m_ipToDomain
        m_domainToIp := UMap.assign (SharedGet shared (ntohl ipNetworkOrder))
          (ntohl ipNetworkOrder) s.m_domainToIp }) := by
  unfold GetDomain
  simp only
  split
  · exact Or.inl rfl
  · rename_i hmiss
    split
    · exact Or.inr ⟨hmiss, rfl, rfl⟩
    · exact Or.inl rfl

theorem AddressesMirrored_GetDomain {s : FakeIP} (shared : Option SharedTable)
    (ipNetworkOrder : Nat) (h : AddressesMirrored s)
    (hguard : (GetDomain s shared ipNetworkOrder).self = s ∨
      UMap.find (GetDomain s shared ipNetworkOrder).ret s.m_domainToIp = none) :
    AddressesMirrored (GetDomain s shared ipNetworkOrder).self := by
  rcases GetDomain_cases s shared ipNetworkOrder with hsame | ⟨hmiss, hret, hself⟩
  · rw [hsame]
    exact h
  · rcases hguard with hsame | hnone
    · rw [hsame]
      exact h
    · rw [hret] at hnone
      rw [hself]
      intro ip d hf
      simp only at hf ⊢
      by_cases hip : ip = ntohl ipNetworkOrder
      · subst hip
        rw [UMap.find_assign_self] at hf
        simp only [Option.some.injEq] at hf
        subst hf
        exact UMap.find_assign_self _ _ _
      · rw [UMap.find_assign_ne hip] at hf
        have hd := h ip d hf
        have hne : d ≠ SharedGet shared (ntohl ipNetworkOrder) := by
          intro e
          rw [e, hnone] at hd
          simp at hd
        rw [UMap.find_assign_ne hne]
        exact hd

theorem Reachable_of_NoRemap {inet_pton : Str → Option Nat} {configCidr : Str} {s : FakeIP}
    (h : ReachableNoRemap inet_pton configCidr s) : Reachable inet_pton configCidr s := by
  induction h with
  | init s hs => exact Reachable.init s hs
  | alloc s shared now domain _ ih => exact Reachable.alloc s shared now domain ih
  | getDomain s shared ip _ _ ih => exact Reachable.getDomain s shared ip ih

theorem AddressesMirrored_of_NoRemap {inet_pton : Str → Option Nat} {configCidr : Str}
    {s : FakeIP} (h : ReachableNoRemap inet_pton configCidr s) : AddressesMirrored s := by
  induction h with
  | init s hs =>
    obtain ⟨h1, _, _, _⟩ := EnsureInitialized_cases hs
    intro ip d hf
    rw [h1] at hf
    simp [UMap.find] at hf
  | alloc s shared now domain _ ih => exact AddressesMirrored_Alloc shared now domain ih
  | getDomain s shared ip _ hguard ih => exact AddressesMirrored_GetDomain shared ip ih hguard

/-- C6 (amended): in every reachable state, backfills included, each record
of `m_domainToIp` has its inverse record in `m_ipToDomain` (so no address is
the value of two domains); and in every state reached without a `GetDomain`
call that backfills a domain the local table already maps, the two maps are
mutual inverses. -/
theorem local_table_inverse (inet_pton : Str → Option Nat) (configCidr : Str) (s : FakeIP) :
    (Reachable inet_pton configCidr s → DomainsMirrored s) ∧
    (ReachableNoRemap inet_pton configCidr s → DomainsMirrored s ∧ AddressesMirrored s) := by
  constructor
  · intro h d ip hd
    exact ((Inv_of_Reachable h).2.2 d ip hd).2
  · intro h
    refine ⟨?_, AddressesMirrored_of_NoRemap h⟩
    intro d ip hd
    exact ((Inv_of_Reachable (Reachable_of_NoRemap h)).2.2 d ip hd).2

theorem local_table_inverse_witness :
    Reachable inet_pton_ref "10.1.2.3/30".toList (Alloc example30 none 7 "a.com".toList).self ∧
    ReachableNoRemap inet_pton_ref "10.1.2.3/30".toList
      (Alloc example30 none 7 "a.com".toList).self ∧
    DomainsMirrored (Alloc example30 none 7 "a.com".toList).self ∧
    AddressesMirrored (Alloc example30 none 7 "a.com".toList).self :=
  ⟨Reachable.alloc _ _ _ _ (Reachable.init _ example30_init),
    ReachableNoRemap.alloc _ _ _ _ (ReachableNoRemap.init _ example30_init),
    (local_table_inverse inet_pton_ref "10.1.2.3/30".toList _).1
      (Reachable.alloc _ _ _ _ (Reachable.init _ example30_init)),
    ((local_table_inverse inet_pton_ref "10.1.2.3/30".toList _).2
      (ReachableNoRemap.alloc _ _ _ _ (ReachableNoRemap.init _ example30_init))).2⟩


/-! ## The SOCKS5 handshake -/

theorem RecvExact_some {sock sock1 : Peer} {n : Nat} {bs : List Nat}
    (h : SocketIo.RecvExact sock n = some (bs, sock1)) :
    sock.incoming = bs ++ sock1.incoming ∧ bs.length = n ∧ sock1.sent = sock.sent ∧
      sock1.writable = sock.writable := by
  unfold SocketIo.RecvExact at h
  split at h
  · rename_i hle
    simp only [Option.some.injEq, Prod.mk.injEq] at h
    obtain ⟨h1, h2⟩ := h
    subst h1 h2
    exact ⟨(List.take_append_drop n sock.incoming).symm, List.length_take_of_le hle, rfl, rfl⟩
  · simp at h

theorem RecvExact_append (bs rest sent : List Nat) (w : Bool) :
    SocketIo.RecvExact { incoming := bs ++ rest, sent := sent, writable := w } bs.length
      = some (bs, { incoming := rest, sent := sent, writable := w }) := by
  unfold SocketIo.RecvExact
  simp

theorem RecvExact_eq_none {sock : Peer} {n : Nat}
    (h : sock.incoming.length < n) : SocketIo.RecvExact sock n = none := by
  unfold SocketIo.RecvExact
  rw [if_neg (by omega)]

/-- The outcome of the discard phase on a complete bound address and port. -/
theorem discardBound_complete (atyp : Nat) (addr port rest sent : List Nat) (w : Bool)
    (hport : port.length = 2)
    (hshape : (atyp = 0x01 ∧ addr.length = 4) ∨ (atyp = 0x04 ∧ addr.length = 16) ∨
      (atyp = 0x03 ∧ ∃ L body, addr = L :: body ∧ body.length = L)) :
    Socks5Client.discardBound { incoming := addr ++ port ++ rest, sent := sent, writable := w }
        atyp
      = { ret := true, sock := { incoming := rest, sent := sent, writable := w } } := by
  have hp := RecvExact_append port rest sent w
  rw [hport] at hp
  rcases hshape with ⟨ha, hl⟩ | ⟨ha, hl⟩ | ⟨ha, L, body, hb, hl⟩
  · have h1 := RecvExact_append addr (port ++ rest) sent w
    rw [hl] at h1
    subst ha
    simp [Socks5Client.discardBound, Socks5Client.ReadExact, Socks5.ATYP_IPV4, h1, hp]
  · have h1 := RecvExact_append addr (port ++ rest) sent w
    rw [hl] at h1
    subst ha
    simp [Socks5Client.discardBound, Socks5Client.ReadExact, Socks5.ATYP_IPV4,
      Socks5.ATYP_IPV6, h1, hp]
  · subst ha hb
    have h0 := RecvExact_append [L] (body ++ (port ++ rest)) sent w
    have h1 := RecvExact_append body (port ++ rest) sent w
    rw [hl] at h1
    simp only [List.length_singleton, List.singleton_append] at h0
    by_cases hL : L > 0
    · simp [Socks5Client.discardBound, Socks5Client.ReadExact, Socks5.ATYP_IPV4,
        Socks5.ATYP_IPV6, Socks5.ATYP_DOMAIN, h0, h1, hp, hL]
    · have hL0 : L = 0 := by omega
      subst hL0
      have hb0 : body = [] := List.length_eq_zero.mp hl
      subst hb0
      simp only [List.nil_append] at h0
      simp [Socks5Client.discardBound, Socks5Client.ReadExact, Socks5.ATYP_IPV4,
        Socks5.ATYP_IPV6, Socks5.ATYP_DOMAIN, h0, hp]


theorem discardBound_true {sock : Peer} {atyp : Nat}
    (h : (Socks5Client.discardBound sock atyp).ret = true) :
    ∃ addr port,
      sock.incoming = addr ++ port ++ (Socks5Client.discardBound sock atyp).sock.incoming ∧
      port.length = 2 ∧
      ((atyp = 0x01 ∧ addr.length = 4) ∨ (atyp = 0x04 ∧ addr.length = 16) ∨
        (atyp = 0x03 ∧ ∃ L body, addr = L :: body ∧ body.length = L)) := by
  -- the address bytes and the port bytes read from a socket
  have tail : ∀ (s1 : Peer) (n : Nat) (r : HandshakeResult),
      (match (if n > 0 then
            match Socks5Client.ReadExact s1 n with
            | none => none
            | some (_, sock2) => some sock2
          else some s1 : Option Peer) with
        | none => { ret := false, sock := s1 }
        | some sock2 =>
          match Socks5Client.ReadExact sock2 2 with
          | none => { ret := false, sock := sock2 }
          | some (_, sock3) => { ret := true, sock := sock3 }) = r →
      r.ret = true →
      ∃ addr port, s1.incoming = addr ++ port ++ r.sock.incoming ∧ addr.length = n ∧
        port.length = 2 := by
    intro s1 n r hr hret
    subst hr
    by_cases hn : n > 0
    · rw [if_pos hn] at hret ⊢
      cases h1 : Socks5Client.ReadExact s1 n with
      | none => rw [h1] at hret; simp at hret
      | some p1 =>
        obtain ⟨bs, s2⟩ := p1
        rw [h1] at hret
        simp only at hret ⊢
        cases h2 : Socks5Client.ReadExact s2 2 with
        | none => rw [h2] at hret; simp at hret
        | some p2 =>
          obtain ⟨ps, s3⟩ := p2
          obtain ⟨e1, l1, _, _⟩ := RecvExact_some h1
          obtain ⟨e2, l2, _, _⟩ := RecvExact_some h2
          exact ⟨bs, ps, by rw [e1, e2, List.append_assoc], l1, l2⟩
    · rw [if_neg hn] at hret ⊢
      simp only at hret ⊢
      cases h2 : Socks5Client.ReadExact s1 2 with
      | none => rw [h2] at hret; simp at hret
      | some p2 =>
        obtain ⟨ps, s3⟩ := p2
        obtain ⟨e2, l2, _, _⟩ := RecvExact_some h2
        exact ⟨[], ps, by rw [e2]; rfl, by simp; omega, l2⟩
  unfold Socks5Client.discardBound at h ⊢
  simp only at h ⊢
  by_cases h4 : atyp = Socks5.ATYP_IPV4
  · rw [if_pos h4] at h ⊢
    obtain ⟨addr, port, e, la, lp⟩ := tail sock 4 _ rfl h
    exact ⟨addr, port, e, lp, Or.inl ⟨h4, la⟩⟩
  · rw [if_neg h4] at h ⊢
    by_cases h6 : atyp = Socks5.ATYP_IPV6
    · rw [if_pos h6] at h ⊢
      obtain ⟨addr, port, e, la, lp⟩ := tail sock 16 _ rfl h
      exact ⟨addr, port, e, lp, Or.inr (Or.inl ⟨h6, la⟩)⟩
    · rw [if_neg h6] at h ⊢
      by_cases hd : atyp = Socks5.ATYP_DOMAIN
      · rw [if_pos hd] at h ⊢
        cases h0 : Socks5Client.ReadExact sock 1 with
        | none => rw [h0] at h; simp at h
        | some p0 =>
          obtain ⟨lb, s1⟩ := p0
          rw [h0] at h
          simp only at h ⊢
          obtain ⟨e0, l0, _, _⟩ := RecvExact_some h0
          obtain ⟨addr, port, e, la, lp⟩ := tail s1 (lb.getD 0 0) _ rfl h
          obtain ⟨L, rfl⟩ : ∃ L, lb = [L] := by
            cases lb with
            | nil => simp at l0
            | cons x xs =>
              cases xs with
              | nil => exact ⟨x, rfl⟩
              | cons y ys => simp at l0
          refine ⟨L :: addr, port, ?_, lp, Or.inr (Or.inr ⟨hd, L, addr, rfl, ?_⟩)⟩
          · rw [e0]
            exact congrArg (fun t => L :: t) e
          · simpa using la
      · rw [if_neg hd] at h
        simp at h


theorem SendAll_writable {sock : Peer} (h : sock.writable = true) (bytes : List Nat) :
    SocketIo.SendAll sock bytes = (true, { sock with sent := sock.sent ++ bytes }) := by
  unfold SocketIo.SendAll
  rw [if_pos h]

theorem SendAll_blocked {sock : Peer} (h : sock.writable = false) (bytes : List Nat) :
    SocketIo.SendAll sock bytes = (false, sock) := by
  unfold SocketIo.SendAll
  rw [if_neg (by simp [h])]

/-- The handshake on a stream that holds the two replies of a successful
exchange: it succeeds, leaves exactly `rest` unread, and has sent the auth
request and the connect request. -/
theorem Handshake_complete (inet_pton : Str → Option Nat)
    (inet_pton6 : Str → Option (List Nat)) (sock : Peer) (targetHost : Str)
    (targetPort : Nat) (rest : List Nat) (hw : sock.writable = true)
    (h : Socks5.wellFormedReplies sock.incoming rest) :
    Socks5Client.Handshake inet_pton inet_pton6 sock targetHost targetPort
      = { ret := true
          sock := { incoming := rest
                    sent := sock.sent ++ [0x05, 0x01, 0x00]
                      ++ Socks5Client.connectRequest inet_pton inet_pton6 targetHost targetPort
                    writable := true } } := by
  obtain ⟨rsv, atyp, addr, port, hs, hport, hshape⟩ := h
  obtain ⟨incoming, sent, writable⟩ := sock
  simp only at hw hs
  subst hw hs
  have r2 := RecvExact_append [0x05, 0x00] ([0x05, 0x00, rsv, atyp] ++ addr ++ port ++ rest)
    (sent ++ [0x05, 0x01, 0x00]) true
  have r4 := RecvExact_append [0x05, 0x00, rsv, atyp] (addr ++ port ++ rest)
    (sent ++ [0x05, 0x01, 0x00]
      ++ Socks5Client.connectRequest inet_pton inet_pton6 targetHost targetPort) true
  have hd := discardBound_complete atyp addr port rest
    (sent ++ [0x05, 0x01, 0x00]
      ++ Socks5Client.connectRequest inet_pton inet_pton6 targetHost targetPort) true
    hport hshape
  simp only [List.length_cons, List.length_nil, List.append_assoc, List.cons_append,
    List.nil_append] at r2 r4 hd
  simp [Socks5Client.Handshake, SocketIo.SendAll, Socks5Client.ReadExact, Socks5.VERSION,
    Socks5.AUTH_NONE, Socks5.REPLY_SUCCESS, r2, r4, hd]

theorem Handshake_true {inet_pton : Str → Option Nat}
    {inet_pton6 : Str → Option (List Nat)} {sock : Peer} {targetHost : Str}
    {targetPort : Nat}
    (h : (Socks5Client.Handshake inet_pton inet_pton6 sock targetHost targetPort).ret = true) :
    sock.writable = true ∧
    Socks5.wellFormedReplies sock.incoming
      (Socks5Client.Handshake inet_pton inet_pton6 sock targetHost targetPort).sock.incoming := by
  by_cases hw : sock.writable = true
  case neg =>
    unfold Socks5Client.Handshake at h
    simp only [SendAll_blocked (Bool.eq_false_iff.mpr hw)] at h
    simp at h
  case pos =>
    refine ⟨hw, ?_⟩
    unfold Socks5Client.Handshake at h ⊢
    simp only [SendAll_writable hw] at h ⊢
    cases h2 : Socks5Client.ReadExact { sock with sent := sock.sent ++ [Socks5.VERSION, 1, Socks5.AUTH_NONE] } 2 with
    | none => rw [h2] at h; simp at h
    | some p2 =>
      obtain ⟨auth, s2⟩ := p2
      rw [h2] at h
      simp only at h ⊢
      obtain ⟨e2, l2, _, w2⟩ := RecvExact_some h2
      simp only at e2 w2
      split at h
      · simp at h
      · rename_i hauth
        have hw2 : s2.writable = true := by rw [w2, hw]
        simp only [SendAll_writable hw2] at h
        rw [if_neg hauth]
        simp only [SendAll_writable hw2]
        cases h4 : Socks5Client.ReadExact { s2 with sent := s2.sent ++ Socks5Client.connectRequest inet_pton inet_pton6 targetHost targetPort } 4 with
        | none => rw [h4] at h; simp at h
        | some p4 =>
          obtain ⟨header, s4⟩ := p4
          rw [h4] at h
          simp only at h ⊢
          obtain ⟨e4, l4, _, _⟩ := RecvExact_some h4
          simp only at e4
          split at h
          · simp at h
          · rename_i hv
            split at h
            · simp at h
            · rename_i hr
              rw [if_neg hv, if_neg hr]
              obtain ⟨addr, port, e, lp, hshape⟩ := discardBound_true h
              obtain ⟨a0, a1, rfl⟩ : ∃ a0 a1, auth = [a0, a1] := by
                match auth, l2 with
                | [a0, a1], _ => exact ⟨a0, a1, rfl⟩
              obtain ⟨b0, b1, b2, b3, rfl⟩ : ∃ b0 b1 b2 b3, header = [b0, b1, b2, b3] := by
                match header, l4 with
                | [b0, b1, b2, b3], _ => exact ⟨b0, b1, b2, b3, rfl⟩
              simp only [List.getD_cons_zero, List.getD_cons_succ, not_or, not_not,
                Socks5.VERSION, Socks5.AUTH_NONE, Socks5.REPLY_SUCCESS] at hauth hv hr hshape ⊢
              obtain ⟨ha0, ha1⟩ := hauth
              subst ha0 ha1 hv hr
              refine ⟨b2, b3, addr, port, ?_, lp, hshape⟩
              rw [e2, e4, e]
              simp

theorem and_255 (x : Nat) : x &&& 0xFF = x % 256 :=
  Nat.and_pow_two_sub_one_eq_mod x 8

theorem byte_of_shift (x k : Nat) : (x >>> k) &&& 0xFF = x / 2 ^ k % 256 := by
  rw [and_255, Nat.shiftRight_eq_div_pow]

theorem ntohl_bytes (s : Nat) :
    ntohl s / 16777216 % 256 = s % 256 ∧ ntohl s / 65536 % 256 = s / 256 % 256 ∧
    ntohl s / 256 % 256 = s / 65536 % 256 ∧ ntohl s % 256 = s / 16777216 % 256 := by
  unfold ntohl htonl
  have h0 : s % 256 < 256 := Nat.mod_lt _ (by decide)
  have h1 : s / 256 % 256 < 256 := Nat.mod_lt _ (by decide)
  have h2 : s / 65536 % 256 < 256 := Nat.mod_lt _ (by decide)
  have h3 : s / 16777216 % 256 < 256 := Nat.mod_lt _ (by decide)
  generalize s % 256 = b0 at h0 ⊢
  generalize s / 256 % 256 = b1 at h1 ⊢
  generalize s / 65536 % 256 = b2 at h2 ⊢
  generalize s / 16777216 % 256 = b3 at h3 ⊢
  omega

theorem connectRequest_eq (inet_pton : Str → Option Nat)
    (inet_pton6 : Str → Option (List Nat)) (targetHost : Str) (targetPort : Nat)
    (hhost : targetHost.length ≤ 255) (hport : targetPort < 65536)
    (h6 : ∀ b, inet_pton6 (c_str targetHost) = some b → b.length = 16) :
    Socks5Client.connectRequest inet_pton inet_pton6 targetHost targetPort
      = [0x05, 0x01, 0x00]
        ++ Socks5.addressField ((inet_pton (c_str targetHost)).map ntohl)
            (inet_pton6 (c_str targetHost)) targetHost
        ++ [targetPort / 256, targetPort % 256] := by
  have hp1 : (targetPort >>> 8) &&& 0xFF = targetPort / 256 := by
    rw [byte_of_shift]
    omega
  have hp2 : targetPort &&& 0xFF = targetPort % 256 := and_255 _
  unfold Socks5Client.connectRequest Socks5.addressField
  simp only [hp1, hp2]
  cases h4 : inet_pton (c_str targetHost) with
  | some s =>
    obtain ⟨b0, b1, b2, b3⟩ := ntohl_bytes s
    simp only [Option.map_some', byte_of_shift, b0, b1, b2, b3]
    simp [Socks5.VERSION, Socks5.CMD_CONNECT, Socks5.ATYP_IPV4]
  | none =>
    cases h6c : inet_pton6 (c_str targetHost) with
    | some bytes =>
      have hl := h6 bytes h6c
      have hr := range_map_getD bytes 0
      rw [hl] at hr
      simp only [Option.map_none', hr]
      simp [Socks5.VERSION, Socks5.CMD_CONNECT, Socks5.ATYP_IPV6]
    | none =>
      have hm : targetHost.length % 256 = targetHost.length := by omega
      simp only [Option.map_none', hm]
      simp [Socks5.VERSION, Socks5.CMD_CONNECT, Socks5.ATYP_DOMAIN]

theorem discardBound_sent (sock : Peer) (atyp : Nat) :
    (Socks5Client.discardBound sock atyp).sock.sent = sock.sent := by
  have rs : ∀ (s s1 : Peer) (n : Nat) (bs : List Nat),
      Socks5Client.ReadExact s n = some (bs, s1) → s1.sent = s.sent :=
    fun s s1 n bs h => (RecvExact_some h).2.2.1
  have tail : ∀ (s1 : Peer) (n : Nat),
      (match (if n > 0 then
            match Socks5Client.ReadExact s1 n with
            | none => none
            | some (_, sock2) => some sock2
          else some s1 : Option Peer) with
        | none => ({ ret := false, sock := s1 } : HandshakeResult)
        | some sock2 =>
          match Socks5Client.ReadExact sock2 2 with
          | none => { ret := false, sock := sock2 }
          | some (_, sock3) => { ret := true, sock := sock3 }).sock.sent = s1.sent := by
    intro s1 n
    by_cases hn : n > 0
    · rw [if_pos hn]
      cases h1 : Socks5Client.ReadExact s1 n with
      | none => rfl
      | some p1 =>
        obtain ⟨bs, s2⟩ := p1
        simp only
        cases h2 : Socks5Client.ReadExact s2 2 with
        | none => exact rs _ _ _ _ h1
        | some p2 =>
          obtain ⟨ps, s3⟩ := p2
          exact (rs _ _ _ _ h2).trans (rs _ _ _ _ h1)
    · rw [if_neg hn]
      simp only
      cases h2 : Socks5Client.ReadExact s1 2 with
      | none => rfl
      | some p2 =>
        obtain ⟨ps, s3⟩ := p2
        exact rs _ _ _ _ h2
  unfold Socks5Client.discardBound
  simp only
  by_cases h4 : atyp = Socks5.ATYP_IPV4
  · rw [if_pos h4]
    exact tail sock 4
  · rw [if_neg h4]
    by_cases h6 : atyp = Socks5.ATYP_IPV6
    · rw [if_pos h6]
      exact tail sock 16
    · rw [if_neg h6]
      by_cases hd : atyp = Socks5.ATYP_DOMAIN
      · rw [if_pos hd]
        cases h0 : Socks5Client.ReadExact sock 1 with
        | none => rfl
        | some p0 =>
          obtain ⟨lb, s1⟩ := p0
          simp only
          exact (tail s1 (lb.getD 0 0)).trans (rs _ _ _ _ h0)
      · rw [if_neg hd]

/-- Once the peer has accepted the auth method, the bytes written to the
socket are the auth request followed by the connect request, whatever the
peer answers next. -/
theorem Handshake_sent (inet_pton : Str → Option Nat)
    (inet_pton6 : Str → Option (List Nat)) (sock : Peer) (targetHost : Str)
    (targetPort : Nat) (tail : List Nat) (hw : sock.writable = true)
    (hin : sock.incoming = 0x05 :: 0x00 :: tail) :
    (Socks5Client.Handshake inet_pton inet_pton6 sock targetHost targetPort).sock.sent
      = sock.sent ++ [0x05, 0x01, 0x00]
        ++ Socks5Client.connectRequest inet_pton inet_pton6 targetHost targetPort := by
  obtain ⟨incoming, sent, writable⟩ := sock
  simp only at hw hin
  subst hw hin
  have r2 := RecvExact_append [0x05, 0x00] tail (sent ++ [0x05, 0x01, 0x00]) true
  simp only [List.length_cons, List.length_nil, List.cons_append, List.nil_append] at r2
  unfold Socks5Client.Handshake
  simp only [SocketIo.SendAll, Socks5Client.ReadExact, Socks5.VERSION, Socks5.AUTH_NONE,
    if_true, r2]
  simp only [List.getD_cons_zero, List.getD_cons_succ, ne_eq, not_true_eq_false, or_self,
    if_false]
  cases h4 : SocketIo.RecvExact
      { incoming := tail, sent := sent ++ [5, 1, 0] ++
          Socks5Client.connectRequest inet_pton inet_pton6 targetHost targetPort,
        writable := true } 4 with
  | none => rfl
  | some p4 =>
    obtain ⟨header, s4⟩ := p4
    have hs := (RecvExact_some h4).2.2.1
    simp only at hs ⊢
    split
    · exact hs
    · split
      · exact hs
      · rw [discardBound_sent]
        exact hs

/-- C11: against a scripted peer on which every send succeeds and a read of
`k` bytes succeeds exactly when `k` bytes remain, the SOCKS5 handshake returns
true if and only if the peer's stream starts with the auth reply `05 00`,
followed by a header `05 00 rsv atyp` with `atyp` in 01, 03, 04, a complete
bound address and 2 port bytes. -/
theorem Socks5_Handshake_true_iff (inet_pton : Str → Option Nat)
    (inet_pton6 : Str → Option (List Nat)) (sock : Peer) (targetHost : Str)
    (targetPort : Nat) (hw : sock.writable = true) :
    (Socks5Client.Handshake inet_pton inet_pton6 sock targetHost targetPort).ret = true ↔
      ∃ rest, Socks5.wellFormedReplies sock.incoming rest := by
  constructor
  · intro h
    exact ⟨_, (Handshake_true h).2⟩
  · intro ⟨rest, h⟩
    rw [Handshake_complete inet_pton inet_pton6 sock targetHost targetPort rest hw h]

theorem examplePeer_wellFormed : Socks5.wellFormedReplies examplePeer.incoming [72, 105] :=
  ⟨0, 1, [10, 0, 0, 1], [4, 56], rfl, rfl, Or.inl ⟨rfl, rfl⟩⟩

theorem Socks5_Handshake_true_iff_witness :
    examplePeer.writable = true ∧
    ((Socks5Client.Handshake inet_pton_ref inet_pton6_ref examplePeer "example.com".toList
        443).ret = true ↔
      ∃ rest, Socks5.wellFormedReplies examplePeer.incoming rest) :=
  ⟨rfl, Socks5_Handshake_true_iff inet_pton_ref inet_pton6_ref examplePeer
    "example.com".toList 443 rfl⟩

/-- C17: when the peer's stream is the auth reply, a well-formed connect reply
and then `rest`, the handshake returns true and the unread remainder of the
stream is exactly `rest`. -/
theorem Socks5_Handshake_consumes_replies (inet_pton : Str → Option Nat)
    (inet_pton6 : Str → Option (List Nat)) (sock : Peer) (targetHost : Str)
    (targetPort : Nat) (rest : List Nat) (hw : sock.writable = true)
    (h : Socks5.wellFormedReplies sock.incoming rest) :
    (Socks5Client.Handshake inet_pton inet_pton6 sock targetHost targetPort).ret = true ∧
    (Socks5Client.Handshake inet_pton inet_pton6 sock targetHost targetPort).sock.incoming
      = rest := by
  rw [Handshake_complete inet_pton inet_pton6 sock targetHost targetPort rest hw h]
  exact ⟨rfl, rfl⟩

theorem Socks5_Handshake_consumes_replies_witness :
    examplePeer.writable = true ∧ Socks5.wellFormedReplies examplePeer.incoming [72, 105] ∧
    (Socks5Client.Handshake inet_pton_ref inet_pton6_ref examplePeer "example.com".toList
      443).ret = true ∧
    (Socks5Client.Handshake inet_pton_ref inet_pton6_ref examplePeer "example.com".toList
      443).sock.incoming = [72, 105] :=
  ⟨rfl, examplePeer_wellFormed,
    Socks5_Handshake_consumes_replies inet_pton_ref inet_pton6_ref examplePeer
      "example.com".toList 443 [72, 105] rfl examplePeer_wellFormed⟩

/-- C12: for a host of at most 255 bytes and a 16-bit port, the connect request
is `05 01 00`, the address field (IPv4 form if the host parses as an IPv4
literal, else IPv6 form if it parses as an IPv6 literal, else the domain form
with the host length and the host's bytes) and the port as two bytes, high
byte first; and this request is what the handshake sends after the auth
request once the peer accepted the auth method. -/
theorem Socks5_connectRequest_encoding (inet_pton : Str → Option Nat)
    (inet_pton6 : Str → Option (List Nat)) (targetHost : Str) (targetPort : Nat)
    (hhost : targetHost.length ≤ 255) (hport : targetPort < 65536)
    (h6 : ∀ b, inet_pton6 (c_str targetHost) = some b → b.length = 16) :
    Socks5Client.connectRequest inet_pton inet_pton6 targetHost targetPort
      = [0x05, 0x01, 0x00]
        ++ Socks5.addressField ((inet_pton (c_str targetHost)).map ntohl)
            (inet_pton6 (c_str targetHost)) targetHost
        ++ [targetPort / 256, targetPort % 256] ∧
    ∀ (sock : Peer) (tail : List Nat), sock.writable = true →
      sock.incoming = 0x05 :: 0x00 :: tail →
      (Socks5Client.Handshake inet_pton inet_pton6 sock targetHost targetPort).sock.sent
        = sock.sent ++ [0x05, 0x01, 0x00]
          ++ Socks5Client.connectRequest inet_pton inet_pton6 targetHost targetPort :=
  ⟨connectRequest_eq inet_pton inet_pton6 targetHost targetPort hhost hport h6,
    fun sock tail hw hin =>
      Handshake_sent inet_pton inet_pton6 sock targetHost targetPort tail hw hin⟩

theorem Socks5_connectRequest_encoding_witness :
    "example.com".toList.length ≤ 255 ∧ 443 < 65536 ∧
    (∀ b, inet_pton6_ref (c_str "example.com".toList) = some b → b.length = 16) ∧
    Socks5Client.connectRequest inet_pton_ref inet_pton6_ref "example.com".toList 443
      = [0x05, 0x01, 0x00]
        ++ Socks5.addressField ((inet_pton_ref (c_str "example.com".toList)).map ntohl)
            (inet_pton6_ref (c_str "example.com".toList)) "example.com".toList
        ++ [443 / 256, 443 % 256] :=
  ⟨by decide, by decide, by decide,
    (Socks5_connectRequest_encoding inet_pton_ref inet_pton6_ref "example.com".toList 443
      (by decide) (by decide) (by decide)).1⟩

set_option maxRecDepth 100000 in
theorem longHost_not_literal :
    inet_pton_ref (c_str (List.replicate 300 'a')) = none ∧
    inet_pton6_ref (c_str (List.replicate 300 'a')) = none := by
  decide

/-- C13 (failing input): for a host of 300 characters `a` (not an IP literal)
the connect request carries the length byte `44` (300 modulo 256) followed by
all 300 bytes of the host, and the handshake sends it: the host is neither
rejected nor truncated, and the length byte differs from the number of domain
bytes that follow. -/
theorem Socks5_connectRequest_long_host :
    (List.replicate 300 'a').length = 300 ∧
    Socks5Client.connectRequest inet_pton_ref inet_pton6_ref (List.replicate 300 'a') 443
      = [0x05, 0x01, 0x00, 0x03, 44] ++ List.replicate 300 97 ++ [1, 187] ∧
    (Socks5Client.Handshake inet_pton_ref inet_pton6_ref
        { incoming := [0x05, 0x00], sent := [], writable := true }
        (List.replicate 300 'a') 443).sock.sent
      = [0x05, 0x01, 0x00] ++ ([0x05, 0x01, 0x00, 0x03, 44] ++ List.replicate 300 97
          ++ [1, 187]) := by
  have hreq : Socks5Client.connectRequest inet_pton_ref inet_pton6_ref
      (List.replicate 300 'a') 443
      = [0x05, 0x01, 0x00, 0x03, 44] ++ List.replicate 300 97 ++ [1, 187] := by
    unfold Socks5Client.connectRequest
    rw [longHost_not_literal.1, longHost_not_literal.2]
    have e1 : byteOfChar 'a' = 97 := by decide
    have e2 : (443 >>> 8) &&& 0xFF = 1 := by decide
    have e3 : 443 &&& 0xFF = 187 := by decide
    have e4 : 300 % 256 = 44 := by decide
    simp only [List.map_replicate, List.length_replicate, e1, e2, e3, e4, Socks5.VERSION,
      Socks5.CMD_CONNECT, Socks5.ATYP_DOMAIN, List.cons_append, List.nil_append,
      List.append_assoc]
  refine ⟨List.length_replicate _ _, hreq, ?_⟩
  rw [Handshake_sent inet_pton_ref inet_pton6_ref _ _ _ [] rfl rfl, hreq]
  rfl

/-! ## The HTTP CONNECT handshake -/

theorem isDigit_iff (c : Char) : c.isDigit = true ↔ 48 ≤ c.toNat ∧ c.toNat ≤ 57 := by
  unfold Char.isDigit
  simp [Char.toNat, UInt32.le_def, BitVec.le_def]
  rfl

theorem digit_not_space {c : Char} (h : c.isDigit = true) : isspace c = false := by
  have hd := (isDigit_iff c).mp h
  unfold isspace
  have h1 : c ≠ ' ' := by
    intro e
    rw [e] at hd
    revert hd
    decide
  simp [h1]
  omega

theorem digit_not_sign {c : Char} (h : c.isDigit = true) : c ≠ '-' ∧ c ≠ '+' := by
  have hd := (isDigit_iff c).mp h
  constructor <;> (intro e; rw [e] at hd; revert hd; decide)

theorem digitsValue_foldl_lt (ds : Str) (hd : ∀ c ∈ ds, c.isDigit = true) :
    ∀ acc : Nat, ds.foldl (fun acc c => acc * 10 + (c.toNat - 48)) acc
      < (acc + 1) * 10 ^ ds.length := by
  induction ds with
  | nil =>
    intro acc
    simp
  | cons c rest ih =>
    intro acc
    have hc := (isDigit_iff c).mp (hd c (List.mem_cons_self _ _))
    have := ih (fun x hx => hd x (List.mem_cons_of_mem _ hx)) (acc * 10 + (c.toNat - 48))
    rw [List.foldl_cons, List.length_cons]
    calc _ < (acc * 10 + (c.toNat - 48) + 1) * 10 ^ rest.length := this
      _ ≤ ((acc + 1) * 10) * 10 ^ rest.length := Nat.mul_le_mul_right _ (by omega)
      _ = (acc + 1) * 10 ^ (rest.length + 1) := by ring

theorem digitsValue_lt (ds : Str) (hd : ∀ c ∈ ds, c.isDigit = true) :
    digitsValue ds < 10 ^ ds.length := by
  have := digitsValue_foldl_lt ds hd 0
  simpa [digitsValue] using this

theorem stoi_unfold (s : Str) :
    stoi s = if stoiDigits s = [] then Except.error StdException.invalid_argument
      else if (if stoiNegative s = true then - (digitsValue (stoiDigits s) : Int)
            else (digitsValue (stoiDigits s) : Int)) < -2147483648 ∨
          (if stoiNegative s = true then - (digitsValue (stoiDigits s) : Int)
            else (digitsValue (stoiDigits s) : Int)) > 2147483647
        then Except.error StdException.out_of_range
        else Except.ok (if stoiNegative s = true then - (digitsValue (stoiDigits s) : Int)
            else (digitsValue (stoiDigits s) : Int)) := by
  unfold stoi stoiDigits stoiBody stoiNegative
  cases s.dropWhile isspace with
  | nil => rfl
  | cons c r => rfl

theorem stoiBody_suffix (s : Str) : stoiBody s <:+ s := by
  have suf1 : s.dropWhile isspace <:+ s := List.dropWhile_suffix isspace
  unfold stoiBody
  cases h : s.dropWhile isspace with
  | nil => exact List.nil_suffix
  | cons c r =>
    rw [h] at suf1
    simp only
    split
    · exact (List.suffix_cons c r).trans suf1
    · exact suf1

theorem stoiDigits_spec (s : Str) :
    (∀ c ∈ stoiDigits s, c.isDigit = true) ∧ (stoiDigits s).length ≤ s.length ∧
      ((stoiDigits s).length = s.length → stoiDigits s = s) := by
  have pre : stoiDigits s <+: stoiBody s := List.takeWhile_prefix Char.isDigit
  have suf := stoiBody_suffix s
  refine ⟨fun c hc => List.mem_takeWhile_imp hc, pre.length_le.trans suf.length_le, ?_⟩
  intro hl
  have l1 := pre.length_le
  have l2 := suf.length_le
  rw [pre.eq_of_length (by omega), suf.eq_of_length (by omega)]

/-- What `std::stoi` does on a run of digits whose value fits an `int`. -/
theorem stoi_digits (s : Str) (hne : s ≠ []) (hd : ∀ c ∈ s, c.isDigit = true)
    (hv : digitsValue s ≤ 2147483647) : stoi s = Except.ok (digitsValue s : Int) := by
  obtain ⟨a, rest, rfl⟩ := List.exists_cons_of_ne_nil hne
  have ha := hd a (List.mem_cons_self _ _)
  have hsp := digit_not_space ha
  obtain ⟨hm, hp⟩ := digit_not_sign ha
  have hbody : stoiBody (a :: rest) = a :: rest := by
    simp [stoiBody, List.dropWhile_cons, hsp, hm, hp]
  have hdig : stoiDigits (a :: rest) = a :: rest := by
    unfold stoiDigits
    rw [hbody]
    exact List.takeWhile_eq_self_iff.mpr hd
  have hneg : stoiNegative (a :: rest) = false := by
    simp [stoiNegative, List.dropWhile_cons, hsp, hm]
  rw [stoi_unfold, hdig, hneg]
  simp
  omega

/-- When `std::stoi` returns a value, it is the value of a non-empty run of
digits inside the text, negated after a minus sign; the run is the whole text
when it is as long as the text. -/
theorem stoi_ok {s : Str} {v : Int} (h : stoi s = Except.ok v) :
    stoiDigits s ≠ [] ∧
      (v = (digitsValue (stoiDigits s) : Int) ∨ v = - (digitsValue (stoiDigits s) : Int)) := by
  rw [stoi_unfold] at h
  split at h
  · simp at h
  · rename_i hne
    refine ⟨hne, ?_⟩
    by_cases hn : stoiNegative s = true
    · simp only [hn, if_true] at h
      split at h
      · simp at h
      · simp only [Except.ok.injEq] at h
        exact Or.inr h.symm
    · have hn1 : stoiNegative s = false := Bool.eq_false_iff.mpr hn
      simp only [hn1, Bool.false_eq_true, if_false] at h
      split at h
      · simp at h
      · simp only [Except.ok.injEq] at h
        exact Or.inl h.symm

/-- When none of the characters is a digit, `std::stoi` throws
`invalid_argument`. -/
theorem stoi_no_digit (s : Str) (h : ∀ c ∈ s, c.isDigit = false) :
    stoi s = Except.error StdException.invalid_argument := by
  have hnil : stoiDigits s = [] := by
    cases hds : stoiDigits s with
    | nil => rfl
    | cons c r =>
      exfalso
      have hc : c ∈ stoiDigits s := hds ▸ List.mem_cons_self _ _
      have h1 := (stoiDigits_spec s).1 c hc
      have hpre : stoiDigits s <+: stoiBody s := List.takeWhile_prefix Char.isDigit
      have h2 := h c ((stoiBody_suffix s).subset (hpre.subset hc))
      rw [h1] at h2
      exact absurd h2 (by decide)
  rw [stoi_unfold, if_pos hnil]


theorem stoi_eq_200 (s : Str) (hlen : s.length = 3) :
    stoi s = Except.ok 200 ↔ s = "200".toList := by
  constructor
  · intro h
    obtain ⟨hne, hv⟩ := stoi_ok h
    obtain ⟨hall, hle, hfull⟩ := stoiDigits_spec s
    have hlt := digitsValue_lt (stoiDigits s) hall
    have hval : digitsValue (stoiDigits s) = 200 := by omega
    have hl3 : (stoiDigits s).length = 3 := by
      by_contra hc
      have hl2 : (stoiDigits s).length ≤ 2 := by omega
      have : 10 ^ (stoiDigits s).length ≤ 10 ^ 2 := Nat.pow_le_pow_right (by decide) hl2
      omega
    have hs := hfull (by omega)
    rw [hs] at hall hval
    match s, hlen with
    | [a, b, c], _ =>
      have ha := (isDigit_iff a).mp (hall a (by simp))
      have hb := (isDigit_iff b).mp (hall b (by simp))
      have hc := (isDigit_iff c).mp (hall c (by simp))
      simp only [digitsValue, List.foldl_cons, List.foldl_nil] at hval
      have ea : a.toNat = 50 := by omega
      have eb : b.toNat = 48 := by omega
      have ec : c.toNat = 48 := by omega
      rw [← Char.ofNat_toNat a, ← Char.ofNat_toNat b, ← Char.ofNat_toNat c, ea, eb, ec]
      rfl
  · intro h
    rw [h]
    decide

theorem dropWhile_not_space (response : Str) :
    response.dropWhile (fun c => decide (c ≠ ' ')) = response.drop (response.indexOf ' ') := by
  induction response with
  | nil => rfl
  | cons x xs ih =>
    by_cases hx : x = ' '
    · subst hx
      simp [List.indexOf_cons, List.dropWhile_cons]
    · have hb : (x == ' ') = false := by simpa using hx
      simp only [List.indexOf_cons, hb, cond_false, List.drop_succ_cons, List.dropWhile_cons]
      simp only [ne_eq, hx, not_false_eq_true, decide_True, if_true]
      exact ih

/-- `ParseStatusCode` in terms of the three characters after the first space. -/
theorem ParseStatusCode_eq (response : Str) :
    HttpConnectClient.ParseStatusCode response =
      match statusText response with
      | some code =>
        (match stoi code with
          | Except.ok v => v
          | Except.error _ => -1)
      | none => -1 := by
  unfold HttpConnectClient.ParseStatusCode statusText
  rw [dropWhile_not_space]
  simp only
  have hle : response.indexOf ' ' ≤ response.length := List.indexOf_le_length
  generalize response.indexOf ' ' = n at hle ⊢
  have hdl : (response.drop n).length = response.length - n := List.length_drop _ _
  have hd1 : response.drop (n + 1) = (response.drop n).drop 1 := by
    rw [List.drop_drop]
  rw [hd1]
  generalize response.drop n = t at hdl ⊢
  match t, hdl with
  | [], hdl =>
    simp only [List.length_nil] at hdl
    rw [if_pos (by omega)]
  | [_], hdl =>
    simp only [List.length_cons, List.length_nil] at hdl
    rw [if_pos (by omega)]
  | [_, _], hdl =>
    simp only [List.length_cons, List.length_nil] at hdl
    rw [if_pos (by omega)]
  | [_, _, _], hdl =>
    simp only [List.length_cons, List.length_nil] at hdl
    rw [if_pos (by omega)]
  | _ :: a :: b :: c :: rest, hdl =>
    simp only [List.length_cons] at hdl
    rw [if_neg (by omega)]
    rfl

theorem requestText_eq (inet_pton6 : Str → Option (List Nat)) (targetHost : Str)
    (targetPort : Nat) :
    HttpConnectClient.requestText inet_pton6 targetHost targetPort
      = connectText
          (if (inet_pton6 (c_str targetHost)).isSome = true
            then '[' :: (targetHost ++ [']']) else targetHost)
          (decimalText targetPort) := by
  have e1 : " HTTP/1.1\r\nHost: ".toList = " HTTP/1.1\r\n".toList ++ "Host: ".toList := by
    decide
  have e2 : "\r\n\r\n".toList = "\r\n".toList ++ "\r\n".toList := by decide
  have e3 : "[".toList = ['['] := rfl
  have e4 : "]".toList = [']'] := rfl
  unfold HttpConnectClient.requestText connectText
  rw [e1, e2, e3, e4]
  simp only [List.nil_append, List.append_assoc, List.singleton_append, List.cons_append]

theorem HttpHandshake_sent (inet_pton6 : Str → Option (List Nat)) (response : Option Str)
    (sent : Str) (targetHost : Str) (targetPort : Nat) :
    (HttpConnectClient.Handshake inet_pton6
        { response := response, sent := sent, writable := true } targetHost targetPort).sock.sent
      = sent ++ HttpConnectClient.requestText inet_pton6 targetHost targetPort := by
  unfold HttpConnectClient.Handshake SocketIo.SendAllText SocketIo.RecvUntil
  cases response with
  | none => rfl
  | some r =>
    simp only [if_true]
    split
    · rfl
    · split <;> rfl

theorem HttpHandshake_ret (inet_pton6 : Str → Option (List Nat)) (response : Str)
    (sent : Str) (targetHost : Str) (targetPort : Nat) :
    (HttpConnectClient.Handshake inet_pton6
        { response := some response, sent := sent, writable := true }
        targetHost targetPort).ret
      = decide (HttpConnectClient.ParseStatusCode response = 200) := by
  unfold HttpConnectClient.Handshake SocketIo.SendAllText SocketIo.RecvUntil
  simp only [if_true]
  by_cases h1 : HttpConnectClient.ParseStatusCode response = -1
  · rw [if_pos h1, h1]
    rfl
  · rw [if_neg h1]
    by_cases h2 : HttpConnectClient.ParseStatusCode response = 200
    · rw [if_neg (not_not.mpr h2), h2]
      rfl
    · rw [if_pos h2]
      simp [h2]

theorem ParseStatusCode_eq_200 (response : Str) :
    HttpConnectClient.ParseStatusCode response = 200 ↔
      statusText response = some "200".toList := by
  rw [ParseStatusCode_eq]
  cases hst : statusText response with
  | none => simp
  | some code =>
    have hlen : code.length = 3 := by
      unfold statusText at hst
      split at hst
      · simp only [Option.some.injEq] at hst
        rw [← hst]
        rfl
      · simp at hst
    simp only [Option.some.injEq]
    rw [← stoi_eq_200 code hlen]
    cases hs : stoi code with
    | ok v => simp
    | error e => simp

/-- C14: for every target host and port, the text the HTTP CONNECT handshake
writes to a writable socket is exactly `CONNECT H:P HTTP/1.1`, CR LF,
`Host: H:P`, CR LF, CR LF, where `P` is the port in decimal and `H` is the host
in square brackets if the host parses as an IPv6 literal and the host verbatim
otherwise. -/
theorem HttpConnect_request_format (inet_pton6 : Str → Option (List Nat))
    (response : Option Str) (sent : Str) (targetHost : Str) (targetPort : Nat) :
    (HttpConnectClient.Handshake inet_pton6
        { response := response, sent := sent, writable := true } targetHost targetPort).sock.sent
      = sent ++ connectText
          (if (inet_pton6 (c_str targetHost)).isSome = true
            then '[' :: (targetHost ++ [']']) else targetHost)
          (decimalText targetPort) := by
  rw [HttpHandshake_sent, requestText_eq]

/-- C15: when the send succeeded and a response header block was received, the
HTTP CONNECT handshake returns true if and only if the three characters that
follow the first space of the response are exactly `200`. -/
theorem HttpConnect_success_iff (inet_pton6 : Str → Option (List Nat)) (response : Str)
    (sent : Str) (targetHost : Str) (targetPort : Nat) :
    (HttpConnectClient.Handshake inet_pton6
        { response := some response, sent := sent, writable := true }
        targetHost targetPort).ret = true ↔
      statusText response = some "200".toList := by
  rw [HttpHandshake_ret, decide_eq_true_iff, ParseStatusCode_eq_200]

/-- C19 (failing input): for the response `HTTP/1.1 20x OK` the three
characters after the first space are `20x`, the third is not a digit, and
`ParseStatusCode` returns 20, not -1: `std::stoi` converts the leading digits
and ignores what follows instead of failing.  Likewise a padded ` 20` gives
20, a signed `-20` gives -20 and `2 0` gives 2. -/
theorem ParseStatusCode_lenient :
    statusText "HTTP/1.1 20x OK\r\n\r\n".toList = some "20x".toList ∧
    Char.isDigit 'x' = false ∧
    HttpConnectClient.ParseStatusCode "HTTP/1.1 20x OK\r\n\r\n".toList = 20 ∧
    HttpConnectClient.ParseStatusCode "HTTP/1.1  20 OK\r\n\r\n".toList = 20 ∧
    HttpConnectClient.ParseStatusCode "HTTP/1.1 -20 OK\r\n\r\n".toList = -20 ∧
    HttpConnectClient.ParseStatusCode "HTTP/1.1 2 0 OK\r\n\r\n".toList = 2 := by
  decide

/-- Where `ParseStatusCode` does what its comment says: it returns -1 when the
response has no space or fewer than three characters after the first space,
the decimal value of the three characters after the first space when all
three are digits, and -1 when none of the three is a digit. -/
theorem ParseStatusCode_spec (response : Str) :
    (statusText response = none → HttpConnectClient.ParseStatusCode response = -1) ∧
    (∀ a b c : Char, statusText response = some [a, b, c] →
      a.isDigit = true → b.isDigit = true → c.isDigit = true →
      HttpConnectClient.ParseStatusCode response
        = (((a.toNat - 48) * 100 + (b.toNat - 48) * 10 + (c.toNat - 48) : Nat) : Int)) ∧
    (∀ code : Str, statusText response = some code → (∀ ch ∈ code, ch.isDigit = false) →
      HttpConnectClient.ParseStatusCode response = -1) := by
  refine ⟨?_, ?_, ?_⟩
  · intro h
    rw [ParseStatusCode_eq, h]
  · intro a b c h ha hb hc
    have hall : ∀ x ∈ [a, b, c], x.isDigit = true := by
      intro x hx
      simp only [List.mem_cons, List.mem_singleton, List.not_mem_nil, or_false] at hx
      rcases hx with rfl | rfl | rfl <;> assumption
    have hlt := digitsValue_lt [a, b, c] hall
    simp only [List.length_cons, List.length_nil] at hlt
    have hs := stoi_digits [a, b, c] (by simp) hall (by omega)
    rw [ParseStatusCode_eq, h]
    simp only [hs]
    simp only [digitsValue, List.foldl_cons, List.foldl_nil]
    congr 1
    ring
  · intro code h hno
    rw [ParseStatusCode_eq, h]
    simp only [stoi_no_digit code hno]

theorem ParseStatusCode_spec_witness :
    statusText "HTTP/1.1 407 Proxy Authentication Required\r\n\r\n".toList
      = some ['4', '0', '7'] ∧
    Char.isDigit '4' = true ∧ Char.isDigit '0' = true ∧ Char.isDigit '7' = true ∧
    HttpConnectClient.ParseStatusCode
        "HTTP/1.1 407 Proxy Authentication Required\r\n\r\n".toList
      = ((('4'.toNat - 48) * 100 + ('0'.toNat - 48) * 10 + ('7'.toNat - 48) : Nat) : Int) :=
  ⟨by decide, by decide, by decide, by decide,
    (ParseStatusCode_spec "HTTP/1.1 407 Proxy Authentication Required\r\n\r\n".toList).2.1
      '4' '0' '7' (by decide) (by decide) (by decide) (by decide)⟩

/-! ## Further properties of the allocator -/

/-- C16: for every CIDR text `ParseCidr` accepts, the base address it produces
is normalised to the first address of the network: `base & mask == base`,
whatever host bits the IPv4 part carries. -/
theorem ParseCidr_base_normalised (inet_pton : Str → Option Nat) (cidr : Str)
    (base mask : Nat)
    (h : ParseCidr inet_pton cidr = Except.ok (some (base, mask))) :
    base &&& mask = base := by
  obtain ⟨bits, addr, _, _, _, hb⟩ := ParseCidr_some h
  rw [hb, Nat.land_assoc, Nat.and_self]

theorem ParseCidr_base_normalised_witness :
    ParseCidr inet_pton_ref "10.1.2.3/30".toList = Except.ok (some (167838208, 4294967292)) ∧
    167838208 &&& 4294967292 = 167838208 :=
  ⟨by decide, ParseCidr_base_normalised inet_pton_ref "10.1.2.3/30".toList 167838208
    4294967292 (by decide)⟩

/-- C20: `Alloc` does not depend on the cross-process directory.  For every
state of the allocator, every domain and any two states of the shared
directory (absent included) and of the clock, the two runs return the same
address and leave the same object (local table, cursor, address space). -/
theorem Alloc_independent_of_directory (s : FakeIP) (domain : Str)
    (shared1 : Option SharedTable) (now1 : Nat) (shared2 : Option SharedTable) (now2 : Nat) :
    (Alloc s shared1 now1 domain).ret = (Alloc s shared2 now2 domain).ret ∧
    (Alloc s shared1 now1 domain).self = (Alloc s shared2 now2 domain).self := by
  unfold Alloc
  split
  · exact ⟨rfl, rfl⟩
  · split
    · exact ⟨rfl, rfl⟩
    · exact ⟨rfl, rfl⟩

theorem GetDomain_frame (s : FakeIP) (shared : Option SharedTable) (ipNetworkOrder : Nat) :
    (GetDomain s shared ipNetworkOrder).self.m_baseIp = s.m_baseIp ∧
    (GetDomain s shared ipNetworkOrder).self.m_mask = s.m_mask ∧
    (GetDomain s shared ipNetworkOrder).self.m_networkSize = s.m_networkSize ∧
    (GetDomain s shared ipNetworkOrder).self.m_cursor = s.m_cursor := by
  rcases GetDomain_cases s shared ipNetworkOrder with h | ⟨_, _, h⟩
  · rw [h]
    exact ⟨rfl, rfl, rfl, rfl⟩
  · rw [h]
    exact ⟨rfl, rfl, rfl, rfl⟩

/-- A reachable state has the address space its initialisation produced. -/
theorem Reachable_frame {inet_pton : Str → Option Nat} {configCidr : Str} {s : FakeIP}
    (h : Reachable inet_pton configCidr s) :
    ∃ s0, EnsureInitialized inet_pton configCidr FakeIP.construct = Except.ok s0 ∧
      s.m_baseIp = s0.m_baseIp ∧ s.m_mask = s0.m_mask ∧
      s.m_networkSize = s0.m_networkSize := by
  induction h with
  | init s hs => exact ⟨s, hs, rfl, rfl, rfl⟩
  | alloc s shared now domain _ ih =>
    obtain ⟨s0, h0, hb, hm, hn⟩ := ih
    obtain ⟨fb, fm, fn⟩ := Alloc_frame s shared now domain
    exact ⟨s0, h0, fb.trans hb, fm.trans hm, fn.trans hn⟩
  | getDomain s shared ip _ ih =>
    obtain ⟨s0, h0, hb, hm, hn⟩ := ih
    obtain ⟨fb, fm, fn, _⟩ := GetDomain_frame s shared ip
    exact ⟨s0, h0, fb.trans hb, fm.trans hm, fn.trans hn⟩

theorem Reachable_addressSpace {inet_pton : Str → Option Nat} {configCidr : Str}
    {s : FakeIP} (h : Reachable inet_pton configCidr s) (hsize : 2 < s.m_networkSize) :
    ∃ k q : Nat, 2 ≤ k ∧ k ≤ 31 ∧ s.m_networkSize = 2 ^ k ∧ s.m_baseIp = 2 ^ k * q ∧
      s.m_mask = 2 ^ 32 - 2 ^ k ∧ s.m_baseIp + 2 ^ k ≤ 2 ^ 32 := by
  obtain ⟨s0, h0, hb, hm, hn⟩ := Reachable_frame h
  rw [hb, hm, hn]
  exact addressSpace_of_init h0 (hn ▸ hsize)

theorem cursor_in_range {inet_pton : Str → Option Nat} {configCidr : Str} {s : FakeIP}
    (h : Reachable inet_pton configCidr s) (hsize : 2 < s.m_networkSize) :
    1 ≤ s.m_cursor ∧ s.m_cursor ≤ s.m_networkSize - 2 := by
  induction h with
  | init s hs =>
    obtain ⟨_, _, hc, _⟩ := EnsureInitialized_cases hs
    omega
  | alloc s shared now domain hr ih =>
    obtain ⟨_, _, fn⟩ := Alloc_frame s shared now domain
    rw [fn] at hsize ⊢
    have hc := ih hsize
    obtain ⟨k, q, _, hk, hsz, _, _, _⟩ := Reachable_addressSpace hr hsize
    have hpow : (2 : Nat) ^ k ≤ 2 ^ 31 := Nat.pow_le_pow_right (by decide) hk
    unfold Alloc
    split
    · exact hc
    · split
      · exact hc
      · simp only
        split <;> omega
  | getDomain s shared ip hr ih =>
    obtain ⟨_, _, fn, fc⟩ := GetDomain_frame s shared ip
    rw [fn] at hsize ⊢
    rw [fc]
    exact ih hsize

theorem htonl_eq_zero {x : Nat} (hx : x < 4294967296) (h : htonl x = 0) : x = 0 := by
  have := htonl_htonl x hx
  rw [h] at this
  rw [← this]
  rfl

/-- C18: in every state reachable on an address space of size greater than 2
the cursor lies in `[1, size - 2]`, and the address `Alloc` assigns to a
domain that is not yet mapped is `base + offset` with `1 ≤ offset ≤ size - 2`:
it is accepted by `IsFakeIP`, it is neither the first nor the last address of
the network, and the returned value is not the sentinel 0. -/
theorem cursor_invariant (inet_pton : Str → Option Nat) (configCidr : Str) (s : FakeIP)
    (hreach : Reachable inet_pton configCidr s) (hsize : 2 < s.m_networkSize) :
    (1 ≤ s.m_cursor ∧ s.m_cursor ≤ s.m_networkSize - 2) ∧
    ∀ (domain : Str) (shared : Option SharedTable) (now : Nat),
      UMap.find domain s.m_domainToIp = none →
      ∃ offset, 1 ≤ offset ∧ offset ≤ s.m_networkSize - 2 ∧
        ntohl (Alloc s shared now domain).ret = s.m_baseIp + offset ∧
        IsFakeIP s (Alloc s shared now domain).ret = true ∧
        ntohl (Alloc s shared now domain).ret ≠ s.m_baseIp ∧
        ntohl (Alloc s shared now domain).ret ≠ s.m_baseIp + s.m_networkSize - 1 ∧
        (Alloc s shared now domain).ret ≠ 0 := by
  have hc := cursor_in_range hreach hsize
  refine ⟨hc, ?_⟩
  intro domain shared now hnew
  obtain ⟨k, q, hk2, hk, hsz, hb, hm, hend⟩ := Reachable_addressSpace hreach hsize
  obtain ⟨hret, _, _, _⟩ := Alloc_assigned hnew hsize shared now
  have hor : s.m_baseIp ||| s.m_cursor = s.m_baseIp + s.m_cursor := by
    rw [hb, or_offset _ (by omega)]
  have hlt : s.m_baseIp + s.m_cursor < 4294967296 := by omega
  have hnt : ntohl (Alloc s shared now domain).ret = s.m_baseIp + s.m_cursor := by
    rw [hret, hor, ntohl_htonl _ hlt]
  have hfake : IsFakeIP s (Alloc s shared now domain).ret = true := by
    rw [hret, hor]
    unfold IsFakeIP
    rw [decide_eq_true_iff, ntohl_htonl _ hlt, hm,
      and_high_mask _ k (by omega) (by omega), hb, Nat.shiftRight_eq_div_pow]
    congr 1
    have hp : 0 < 2 ^ k := Nat.two_pow_pos k
    rw [Nat.mul_add_div hp, Nat.div_eq_of_lt (by omega)]
    rfl
  refine ⟨s.m_cursor, hc.1, hc.2, hnt, hfake, ?_, ?_, ?_⟩
  · rw [hnt]
    omega
  · rw [hnt]
    omega
  · rw [hret, hor]
    intro h0
    have := htonl_eq_zero hlt h0
    omega

theorem cursor_invariant_witness :
    Reachable inet_pton_ref "10.1.2.3/30".toList (Alloc example30 none 7 "a.com".toList).self ∧
    2 < (Alloc example30 none 7 "a.com".toList).self.m_networkSize ∧
    1 ≤ (Alloc example30 none 7 "a.com".toList).self.m_cursor ∧
    (Alloc example30 none 7 "a.com".toList).self.m_cursor
      ≤ (Alloc example30 none 7 "a.com".toList).self.m_networkSize - 2 :=
  ⟨Reachable.alloc _ _ _ _ (Reachable.init _ example30_init), by decide,
    (cursor_invariant inet_pton_ref "10.1.2.3/30".toList _
      (Reachable.alloc _ _ _ _ (Reachable.init _ example30_init)) (by decide)).1⟩

/-! ## The fallback of `EnsureInitialized` -/

theorem ParseCidr_default (inet_pton : Str → Option Nat)
    (hdef : inet_pton "198.18.0.0".toList = some 4806) :
    ParseCidr inet_pton defaultCidr = Except.ok (some (3323068416, 4294836224)) := by
  have h1 : List.indexOf '/' defaultCidr = 10 := by decide
  have h2 : defaultCidr.length = 13 := by decide
  have h3 : stoi (defaultCidr.drop (10 + 1)) = Except.ok 15 := by decide
  have h4 : c_str (defaultCidr.take 10) = "198.18.0.0".toList := by decide
  unfold ParseCidr
  simp only [h1, h2, h3, h4, hdef]
  decide

/-- When `ParseCidr` returns `false` for the configured text (no slash, prefix
length outside 0..32, or an IPv4 part `inet_pton` rejects), or when the text
is empty, `EnsureInitialized` completes with the address space of
198.18.0.0/15. -/
theorem EnsureInitialized_fallback (inet_pton : Str → Option Nat) (configCidr : Str)
    (hfail : configCidr = [] ∨ ParseCidr inet_pton configCidr = Except.ok none)
    (hdef : inet_pton "198.18.0.0".toList = some 4806) :
    EnsureInitialized inet_pton configCidr FakeIP.construct = Except.ok exampleDefault := by
  have hd := ParseCidr_default inet_pton hdef
  unfold EnsureInitialized
  rcases hfail with he | hf
  · subst he
    simp only [if_true, hd]
    decide
  · by_cases he : configCidr = []
    · subst he
      simp only [if_true, hd]
      decide
    · simp only [if_neg he, hf, hd]
      decide

/-- Configured texts for which `ParseCidr` returns `false`. -/
theorem ParseCidr_rejects :
    ParseCidr inet_pton_ref "198.18.0.0".toList = Except.ok none ∧
    ParseCidr inet_pton_ref "198.18.0.0/33".toList = Except.ok none ∧
    ParseCidr inet_pton_ref "198.18.0.0/-1".toList = Except.ok none ∧
    ParseCidr inet_pton_ref "198.18.0/15".toList = Except.ok none ∧
    ParseCidr inet_pton_ref "example.com/15".toList = Except.ok none := by
  decide

/-! ## The size of the local table -/

namespace UMap

variable {κ ν : Type} [DecidableEq κ]

theorem erase_sublist (k : κ) (m : List (κ × ν)) : List.Sublist (erase k m) m := by
  induction m with
  | nil => exact List.Sublist.slnil
  | cons p rest ih =>
    obtain ⟨k1, v⟩ := p
    unfold erase
    split
    · exact List.Sublist.cons _ ih
    · exact List.Sublist.cons₂ _ ih

theorem keys_erase_sublist (k : κ) (m : List (κ × ν)) :
    List.Sublist (keys (erase k m)) (keys m) :=
  (erase_sublist k m).map Prod.fst

theorem not_mem_keys_erase (k : κ) (m : List (κ × ν)) : k ∉ keys (erase k m) := by
  induction m with
  | nil => simp [erase, keys]
  | cons p rest ih =>
    obtain ⟨k1, v⟩ := p
    unfold erase
    split
    · exact ih
    · rename_i hne
      intro hmem
      simp only [keys, List.map_cons, List.mem_cons] at hmem
      rcases hmem with e | hm
      · exact hne e.symm
      · exact ih hm

theorem keys_assign_nodup (k : κ) (v : ν) {m : List (κ × ν)} (h : (keys m).Nodup) :
    (keys (assign k v m)).Nodup := by
  unfold assign
  simp only [keys, List.map_cons]
  exact List.nodup_cons.mpr ⟨not_mem_keys_erase k m, h.sublist (keys_erase_sublist k m)⟩

theorem mem_keys_assign {k k2 : κ} {v : ν} {m : List (κ × ν)}
    (h : k2 ∈ keys (assign k v m)) : k2 = k ∨ k2 ∈ keys m := by
  unfold assign at h
  simp only [keys, List.map_cons, List.mem_cons] at h
  rcases h with e | hm
  · exact Or.inl e
  · exact Or.inr ((keys_erase_sublist k m).subset hm)

theorem find_of_mem {k : κ} {v : ν} {m : List (κ × ν)} (hnd : (keys m).Nodup)
    (h : (k, v) ∈ m) : find k m = some v := by
  induction m with
  | nil => simp at h
  | cons p rest ih =>
    obtain ⟨k1, v1⟩ := p
    simp only [keys, List.map_cons, List.nodup_cons] at hnd
    simp only [List.mem_cons, Prod.mk.injEq] at h
    unfold find
    rcases h with ⟨e1, e2⟩ | hm
    · subst e1 e2
      simp
    · have hk : k1 ≠ k := by
        intro e
        apply hnd.1
        rw [e]
        exact List.mem_map.mpr ⟨(k, v), hm, rfl⟩
      rw [if_neg hk]
      exact ih hnd.2 hm

theorem mem_keys_of_find {k : κ} {v : ν} {m : List (κ × ν)} (h : find k m = some v) :
    k ∈ keys m := by
  induction m with
  | nil => simp [find] at h
  | cons p rest ih =>
    obtain ⟨k1, v1⟩ := p
    unfold find at h
    simp only [keys, List.map_cons, List.mem_cons]
    split at h
    · rename_i e
      exact Or.inl e.symm
    · exact Or.inr (ih h)

end UMap


theorem Reachable_of_ReachableByAlloc {inet_pton : Str → Option Nat} {configCidr : Str}
    {s : FakeIP} (h : ReachableByAlloc inet_pton configCidr s) :
    Reachable inet_pton configCidr s := by
  induction h with
  | init s hs => exact Reachable.init s hs
  | alloc s shared now domain _ ih => exact Reachable.alloc s shared now domain ih

theorem Bounded_init {inet_pton : Str → Option Nat} {configCidr : Str} {s : FakeIP}
    (h : EnsureInitialized inet_pton configCidr FakeIP.construct = Except.ok s) :
    Bounded s := by
  obtain ⟨h1, h2, _, _⟩ := EnsureInitialized_cases h
  unfold Bounded
  rw [h1, h2]
  exact ⟨List.nodup_nil, List.nodup_nil, fun ip hip => absurd hip (List.not_mem_nil ip)⟩

theorem Bounded_Alloc {inet_pton : Str → Option Nat} {configCidr : Str} {s : FakeIP}
    (hr : Reachable inet_pton configCidr s) (hb : Bounded s) (shared : Option SharedTable)
    (now : Nat) (domain : Str) : Bounded (Alloc s shared now domain).self := by
  obtain ⟨h1, h2, h3⟩ := hb
  unfold Alloc
  split
  · exact ⟨h1, h2, h3⟩
  · split
    · exact ⟨h1, h2, h3⟩
    · rename_i hsz
      have hsize : 2 < s.m_networkSize := by omega
      obtain ⟨hc1, hc2⟩ := cursor_in_range hr hsize
      obtain ⟨k, q, _, _, hn, hbase, _, _⟩ := Reachable_addressSpace hr hsize
      have hor : s.m_baseIp ||| s.m_cursor = s.m_baseIp + s.m_cursor := by
        rw [hbase]
        exact or_offset _ (by omega)
      refine ⟨UMap.keys_assign_nodup _ _ h1, ?_, ?_⟩
      · apply UMap.keys_assign_nodup
        split
        · exact h2.sublist (UMap.keys_erase_sublist _ _)
        · exact h2
      · intro ip hip
        rcases UMap.mem_keys_assign hip with e | hm
        · rw [e, hor]
          show s.m_baseIp + 1 ≤ s.m_baseIp + s.m_cursor ∧
            s.m_baseIp + s.m_cursor ≤ s.m_baseIp + (s.m_networkSize - 2)
          omega
        · exact h3 ip hm

theorem Bounded_of_ReachableByAlloc {inet_pton : Str → Option Nat} {configCidr : Str}
    {s : FakeIP} (h : ReachableByAlloc inet_pton configCidr s) : Bounded s := by
  induction h with
  | init s hs => exact Bounded_init hs
  | alloc s shared now domain hr ih =>
    exact Bounded_Alloc (Reachable_of_ReachableByAlloc hr) ih shared now domain

theorem length_le_of_nodup_interval {l : List Nat} {a m : Nat} (hnd : l.Nodup)
    (h : ∀ x ∈ l, a + 1 ≤ x ∧ x ≤ a + m) : l.length ≤ m := by
  have hsub : l ⊆ List.range' (a + 1) m := by
    intro x hx
    rw [List.mem_range'_1]
    have := h x hx
    omega
  have hle := (List.subperm_of_subset hnd hsub).length_le
  rwa [List.length_range'] at hle

theorem domainToIp_values_nodup {s : FakeIP} (hinv : Inv s)
    (hnd : (UMap.keys s.m_domainToIp).Nodup) :
    (s.m_domainToIp.map Prod.snd).Nodup := by
  apply List.Nodup.map_on _ (List.Nodup.of_map Prod.fst hnd)
  rintro ⟨d1, ip1⟩ hx ⟨d2, ip2⟩ hy e
  simp only at e
  subst e
  have f1 := (hinv.2.2 d1 ip1 (UMap.find_of_mem hnd hx)).2
  have f2 := (hinv.2.2 d2 ip1 (UMap.find_of_mem hnd hy)).2
  rw [f1] at f2
  simp only [Option.some.injEq] at f2
  rw [f2]

theorem domainToIp_values_mem {s : FakeIP} (hinv : Inv s)
    (hnd : (UMap.keys s.m_domainToIp).Nodup) :
    ∀ ip ∈ s.m_domainToIp.map Prod.snd, ip ∈ UMap.keys s.m_ipToDomain := by
  intro ip hip
  obtain ⟨⟨d, ip1⟩, hmem, rfl⟩ := List.mem_map.mp hip
  exact UMap.mem_keys_of_find (hinv.2.2 d ip1 (UMap.find_of_mem hnd hmem)).2

/-- C21: in every state reached from a constructed and initialised allocator
by calls of `Alloc` only, whatever the domains and however many of them, over
an address space of size `n` greater than 2: no key has two records in either
local map, and each of the two maps holds at most `n - 2` records. -/
theorem local_maps_bounded (inet_pton : Str → Option Nat) (configCidr : Str) (s : FakeIP)
    (h : ReachableByAlloc inet_pton configCidr s) (hsize : 2 < s.m_networkSize) :
    (UMap.keys s.m_ipToDomain).Nodup ∧ (UMap.keys s.m_domainToIp).Nodup ∧
    s.m_ipToDomain.length ≤ s.m_networkSize - 2 ∧
    s.m_domainToIp.length ≤ s.m_networkSize - 2 := by
  have _ := hsize
  obtain ⟨h1, h2, h3⟩ := Bounded_of_ReachableByAlloc h
  have hinv := Inv_of_Reachable (Reachable_of_ReachableByAlloc h)
  refine ⟨h1, h2, ?_, ?_⟩
  · have := length_le_of_nodup_interval h1 h3
    unfold UMap.keys at this
    rwa [List.length_map] at this
  · have := length_le_of_nodup_interval (domainToIp_values_nodup hinv h2)
      (fun ip hip => h3 ip (domainToIp_values_mem hinv h2 ip hip))
    rwa [List.length_map] at this

theorem local_maps_bounded_witness :
    ReachableByAlloc inet_pton_ref "10.1.2.3/30".toList
      (Alloc (Alloc (Alloc example30 none 7 "a.com".toList).self none 8 "b.org".toList).self
        none 9 "c.net".toList).self ∧
    2 < (Alloc (Alloc (Alloc example30 none 7 "a.com".toList).self none 8
      "b.org".toList).self none 9 "c.net".toList).self.m_networkSize ∧
    (UMap.keys (Alloc (Alloc (Alloc example30 none 7 "a.com".toList).self none 8
      "b.org".toList).self none 9 "c.net".toList).self.m_ipToDomain).Nodup ∧
    (UMap.keys (Alloc (Alloc (Alloc example30 none 7 "a.com".toList).self none 8
      "b.org".toList).self none 9 "c.net".toList).self.m_domainToIp).Nodup ∧
    (Alloc (Alloc (Alloc example30 none 7 "a.com".toList).self none 8
      "b.org".toList).self none 9 "c.net".toList).self.m_ipToDomain.length
      ≤ (Alloc (Alloc (Alloc example30 none 7 "a.com".toList).self none 8
      "b.org".toList).self none 9 "c.net".toList).self.m_networkSize - 2 ∧
    (Alloc (Alloc (Alloc example30 none 7 "a.com".toList).self none 8
      "b.org".toList).self none 9 "c.net".toList).self.m_domainToIp.length
      ≤ (Alloc (Alloc (Alloc example30 none 7 "a.com".toList).self none 8
      "b.org".toList).self none 9 "c.net".toList).self.m_networkSize - 2 :=
  ⟨ReachableByAlloc.alloc _ _ _ _ (ReachableByAlloc.alloc _ _ _ _
      (ReachableByAlloc.alloc _ _ _ _ (ReachableByAlloc.init _ example30_init))),
    by decide,
    local_maps_bounded inet_pton_ref "10.1.2.3/30".toList _
      (ReachableByAlloc.alloc _ _ _ _ (ReachableByAlloc.alloc _ _ _ _
        (ReachableByAlloc.alloc _ _ _ _ (ReachableByAlloc.init _ example30_init))))
      (by decide)⟩

/-! ## The slots of the shared ring -/

theorem withEntries_cursor (cursor : Nat) (entries : List SharedEntry) :
    (SharedTable.withEntries cursor entries).cursor = cursor := rfl

theorem exampleFill_length : exampleFill.length = 4095 := by
  unfold exampleFill
  rw [List.length_map, List.length_range]

theorem exampleFill_nonempty : ∀ p ∈ exampleFill, p.2.1 ≠ [] := by
  intro p hp
  unfold exampleFill at hp
  obtain ⟨i, _, rfl⟩ := List.mem_map.mp hp
  exact List.cons_ne_nil _ _

/-- C22 (counterexample): a process fills slots 0 to 4094 of a fresh
directory, which leaves the shared cursor at 4095; the next `SharedPut` writes
slot 4095 and stores the cursor 4096, which is not `(4095 + 1) % 4096 = 0`.
The cursor is stored modulo `2 ^ 32` and reduced modulo the capacity only when
a slot is chosen. -/
theorem SharedPut_cursor_not_reduced :
    ∃ t t1, SharedPutAll (some SharedTable.fresh) exampleFill = some t ∧
      t.cursor = 4095 ∧
      SharedPut (some t) 3323068417 "old.com".toList 1 = some t1 ∧
      t1.cursor = 4096 ∧ t1.cursor ≠ (t.cursor + 1) % kSharedCapacity := by
  refine ⟨_, _, SharedPutAll_fresh exampleFill exampleFill_nonempty
    (by rw [exampleFill_length]; decide), ?_,
    SharedPut_withEntries _ _ _ (by decide) _, ?_, ?_⟩
  · rw [withEntries_cursor, exampleFill_length]
  · rw [withEntries_cursor, exampleFill_length]
  · rw [withEntries_cursor, withEntries_cursor, exampleFill_length]
    decide

/-- C22 (amended): on a mapped table of 4096 entries with any cursor value,
two successive calls of `SharedPut` with non-empty domains succeed; the first
writes slot `cursor % 4096`, a valid index, and the second writes the next
slot modulo 4096, each leaving the other slots as they were; every call
stores the cursor `(old cursor + 1) % 2 ^ 32`, and the slots stay consecutive
when the cursor wraps from `2 ^ 32 - 1` to 0 (slot 4095, then slot 0). -/
theorem SharedPut_slot_sequence (t : SharedTable)
    (hlen : t.entries.length = kSharedCapacity)
    (ip1 ip2 now1 now2 : Nat) (d1 d2 : Str) (h1 : d1 ≠ []) (h2 : d2 ≠ []) :
    ∃ t1 t2, SharedPut (some t) ip1 d1 now1 = some t1 ∧
      SharedPut (some t1) ip2 d2 now2 = some t2 ∧
      t.cursor % kSharedCapacity < t.entries.length ∧
      t1.entries = t.entries.set (t.cursor % kSharedCapacity)
        (SharedPut.written ip1 d1 now1) ∧
      t2.entries = t1.entries.set ((t.cursor % kSharedCapacity + 1) % kSharedCapacity)
        (SharedPut.written ip2 d2 now2) ∧
      t1.entries.length = kSharedCapacity ∧ t2.entries.length = kSharedCapacity ∧
      t1.cursor = (t.cursor + 1) % 4294967296 ∧
      t2.cursor = (t1.cursor + 1) % 4294967296 ∧
      (t.cursor = 4294967295 →
        t.cursor % kSharedCapacity = 4095 ∧ t1.cursor = 0 ∧
        t1.cursor % kSharedCapacity = 0) := by
  have hs : (t.cursor + 1) % 4294967296 % kSharedCapacity
      = (t.cursor % kSharedCapacity + 1) % kSharedCapacity := by
    unfold kSharedCapacity
    omega
  refine ⟨_, _, SharedPut_some t ip1 h1 now1, SharedPut_some _ ip2 h2 now2, ?_, rfl, ?_, ?_,
    ?_, rfl, rfl, ?_⟩
  · rw [hlen]
    exact Nat.mod_lt _ (by decide)
  · show List.set _ ((t.cursor + 1) % 4294967296 % kSharedCapacity) _ = _
    rw [hs]
  · show (List.set _ _ _).length = _
    rw [List.length_set, hlen]
  · show (List.set (List.set _ _ _) _ _).length = _
    rw [List.length_set, List.length_set, hlen]
  · intro hc
    show t.cursor % kSharedCapacity = 4095 ∧ (t.cursor + 1) % 4294967296 = 0 ∧
      (t.cursor + 1) % 4294967296 % kSharedCapacity = 0
    rw [hc]
    decide

theorem SharedPut_slot_sequence_witness :
    exampleWrapTable.entries.length = kSharedCapacity ∧
    "a.com".toList ≠ [] ∧ "b.org".toList ≠ [] ∧
    ∃ t1 t2, SharedPut (some exampleWrapTable) 167838209 "a.com".toList 7 = some t1 ∧
      SharedPut (some t1) 167838210 "b.org".toList 8 = some t2 ∧
      exampleWrapTable.cursor % kSharedCapacity < exampleWrapTable.entries.length ∧
      t1.entries = exampleWrapTable.entries.set (exampleWrapTable.cursor % kSharedCapacity)
        (SharedPut.written 167838209 "a.com".toList 7) ∧
      t2.entries = t1.entries.set
        ((exampleWrapTable.cursor % kSharedCapacity + 1) % kSharedCapacity)
        (SharedPut.written 167838210 "b.org".toList 8) ∧
      t1.entries.length = kSharedCapacity ∧ t2.entries.length = kSharedCapacity ∧
      t1.cursor = (exampleWrapTable.cursor + 1) % 4294967296 ∧
      t2.cursor = (t1.cursor + 1) % 4294967296 ∧
      (exampleWrapTable.cursor = 4294967295 →
        exampleWrapTable.cursor % kSharedCapacity = 4095 ∧ t1.cursor = 0 ∧
        t1.cursor % kSharedCapacity = 0) :=
  ⟨List.length_replicate _ _, by decide, by decide,
    SharedPut_slot_sequence exampleWrapTable (List.length_replicate _ _)
      167838209 167838210 7 8 "a.com".toList "b.org".toList (by decide) (by decide)⟩

/-! ## The order of the two locks -/

theorem heldAfter_append (h : List LockId) (a b : List LockEvent) :
    heldAfter h (a ++ b) = heldAfter (heldAfter h a) b := by
  unfold heldAfter
  rw [List.foldl_append]

theorem inOrderFrom_append (h : List LockId) (a b : List LockEvent) :
    inOrderFrom h (a ++ b) = (inOrderFrom h a && inOrderFrom (heldAfter h a) b) := by
  induction a generalizing h with
  | nil => rfl
  | cons e es ih =>
    show (e.inOrder h && inOrderFrom (e.apply h) (es ++ b)) = _
    rw [ih, ← Bool.and_assoc]
    rfl

theorem SharedPut_locks_inOrder (env : CallEnv) (domain : Str) :
    inOrderFrom [LockId.m_mtx] (SharedPut.locks env domain) = true ∧
    heldAfter [LockId.m_mtx] (SharedPut.locks env domain) = [LockId.m_mtx] := by
  obtain ⟨a, b, c, d, e, f, g⟩ := env
  unfold SharedPut.locks
  split
  · exact ⟨rfl, rfl⟩
  · cases c <;> cases d <;> cases e <;> cases f <;> cases g <;> exact ⟨rfl, rfl⟩

theorem SharedGet_locks_inOrder (env : CallEnv) :
    inOrderFrom [LockId.m_mtx] (SharedGet.locks env) = true ∧
    heldAfter [LockId.m_mtx] (SharedGet.locks env) = [LockId.m_mtx] := by
  obtain ⟨a, b, c, d, e, f, g⟩ := env
  cases c <;> cases d <;> cases e <;> cases f <;> cases g <;> exact ⟨rfl, rfl⟩

theorem guarded_inOrder {inner : List LockEvent}
    (h : inOrderFrom [LockId.m_mtx] inner = true ∧
      heldAfter [LockId.m_mtx] inner = [LockId.m_mtx]) :
    inOrderFrom [] ([LockEvent.acquire LockId.m_mtx] ++ inner
        ++ [LockEvent.release LockId.m_mtx]) = true ∧
    heldAfter [] ([LockEvent.acquire LockId.m_mtx] ++ inner
        ++ [LockEvent.release LockId.m_mtx]) = [] := by
  have e1 : heldAfter [] [LockEvent.acquire LockId.m_mtx] = [LockId.m_mtx] := rfl
  simp only [inOrderFrom_append, heldAfter_append, e1, h.1, h.2]
  exact ⟨rfl, rfl⟩

theorem EnsureInitialized_locks_inOrder (env : CallEnv) :
    inOrderFrom [] (EnsureInitialized.locks env) = true ∧
    heldAfter [] (EnsureInitialized.locks env) = [] := by
  unfold EnsureInitialized.locks
  split
  · exact ⟨rfl, rfl⟩
  · exact ⟨rfl, rfl⟩

theorem after_init_inOrder (env : CallEnv) {body : List LockEvent}
    (h : inOrderFrom [] body = true ∧ heldAfter [] body = []) :
    inOrderFrom [] (EnsureInitialized.locks env ++
      (if env.initRuns = true ∧ env.initThrows = true then [] else body)) = true ∧
    heldAfter [] (EnsureInitialized.locks env ++
      (if env.initRuns = true ∧ env.initThrows = true then [] else body)) = [] := by
  rw [inOrderFrom_append, heldAfter_append, (EnsureInitialized_locks_inOrder env).1,
    (EnsureInitialized_locks_inOrder env).2]
  split
  · exact ⟨rfl, rfl⟩
  · exact ⟨by rw [h.1]; rfl, h.2⟩

theorem Call_locks_inOrder (c : Call) :
    inOrderFrom [] c.locks = true ∧ heldAfter [] c.locks = [] := by
  cases c with
  | init env => exact EnsureInitialized_locks_inOrder env
  | isFakeIP env => exact after_init_inOrder env ⟨rfl, rfl⟩
  | alloc env self domain =>
    apply after_init_inOrder env
    apply guarded_inOrder
    split
    · exact ⟨rfl, rfl⟩
    · split
      · exact ⟨rfl, rfl⟩
      · exact SharedPut_locks_inOrder env domain
  | getDomain env self ip =>
    apply after_init_inOrder env
    apply guarded_inOrder
    split
    · exact ⟨rfl, rfl⟩
    · exact SharedGet_locks_inOrder env

theorem locksAll_inOrder (calls : List Call) :
    inOrderFrom [] (Call.locksAll calls) = true ∧ heldAfter [] (Call.locksAll calls) = [] := by
  induction calls with
  | nil => exact ⟨rfl, rfl⟩
  | cons c rest ih =>
    show inOrderFrom [] (c.locks ++ Call.locksAll rest) = true ∧
      heldAfter [] (c.locks ++ Call.locksAll rest) = []
    rw [inOrderFrom_append, heldAfter_append, (Call_locks_inOrder c).1,
      (Call_locks_inOrder c).2, ih.1, ih.2]
    exact ⟨rfl, rfl⟩

theorem inOrder_at {h : List LockId} {pre post : List LockEvent} {e : LockEvent}
    (hall : inOrderFrom h (pre ++ e :: post) = true) : e.inOrder (heldAfter h pre) = true := by
  rw [inOrderFrom_append] at hall
  have h2 := (Bool.and_eq_true _ _).mp hall
  have h3 : (e.inOrder (heldAfter h pre) && inOrderFrom (e.apply (heldAfter h pre)) post)
      = true := h2.2
  exact ((Bool.and_eq_true _ _).mp h3).1

theorem threadEvents_split (tid : Nat) (pre post : List (Nat × LockEvent)) (e : LockEvent) :
    threadEvents tid (pre ++ (tid, e) :: post)
      = threadEvents tid pre ++ e :: threadEvents tid post := by
  unfold threadEvents
  rw [List.filter_append, List.filter_cons, if_pos (by simp), List.map_append, List.map_cons]

/-- C23: in every execution, whatever the other threads do, a thread whose
lock events are those of a sequence of calls of `Instance`, `Init`, `IsFakeIP`,
`Alloc` and `GetDomain` (the last call possibly not finished) acquires the
cross-process lock `m_sharedMutex` only while it holds the allocator lock
`m_mtx`, and acquires `m_mtx` only while it does not hold `m_sharedMutex`. -/
theorem lock_order (exec pre post : List (Nat × LockEvent)) (tid : Nat) (e : LockEvent)
    (calls : List Call) (hthread : threadEvents tid exec <+: Call.locksAll calls)
    (hsplit : exec = pre ++ (tid, e) :: post) :
    (e = LockEvent.acquire LockId.m_sharedMutex →
      LockId.m_mtx ∈ held (threadEvents tid pre)) ∧
    (e = LockEvent.acquire LockId.m_mtx →
      LockId.m_sharedMutex ∉ held (threadEvents tid pre)) := by
  obtain ⟨rest, hrest⟩ := hthread
  rw [hsplit, threadEvents_split, List.append_assoc, List.cons_append] at hrest
  have hall := (locksAll_inOrder calls).1
  rw [← hrest] at hall
  have hat := inOrder_at hall
  constructor
  · intro he
    subst he
    exact of_decide_eq_true hat
  · intro he
    subst he
    exact of_decide_eq_true hat

theorem lock_order_witness :
    threadEvents 1 exampleExecution
      <+: Call.locksAll [Call.alloc
        { initRuns := true, initThrows := false, sharedRuns := true, mutexCreated := true,
          waitInit := true, mapped := true, waitUse := true } example30 "a.com".toList] ∧
    exampleExecution = exampleExecution.take 5
      ++ (1, LockEvent.acquire LockId.m_sharedMutex) :: exampleExecution.drop 6 ∧
    ((LockEvent.acquire LockId.m_sharedMutex = LockEvent.acquire LockId.m_sharedMutex →
      LockId.m_mtx ∈ held (threadEvents 1 (exampleExecution.take 5))) ∧
    (LockEvent.acquire LockId.m_sharedMutex = LockEvent.acquire LockId.m_mtx →
      LockId.m_sharedMutex ∉ held (threadEvents 1 (exampleExecution.take 5)))) :=
  ⟨⟨[], by decide⟩, by decide,
    lock_order exampleExecution (exampleExecution.take 5) (exampleExecution.drop 6) 1
      (LockEvent.acquire LockId.m_sharedMutex)
      [Call.alloc
        { initRuns := true, initThrows := false, sharedRuns := true, mutexCreated := true,
          waitInit := true, mapped := true, waitUse := true } example30 "a.com".toList]
      ⟨[], by decide⟩ (by decide)⟩

end Network
